import Mathlib

/-!
# Stock notifier: the polling cycles of `src/index.js`

A shallow embedding of the change detection and fan-out part of the bot:
`normalizeKey`, the embed creators, `checkAll`, `checkCurrentEvent` and the chat-input
commands of `interactionHandler`.

Conventions of the embedding.

* JavaScript objects that are only looked up become functions into `Option`;
  objects that are iterated with `Object.entries` become association lists in
  iteration order.
* The module-level variables `lastState` and `isChecking` are the fields of
  `State`; the persisted copy of `lastState` written by `saveAll` is the field
  `saved`.
* The results of the three fetches, the clock readings, the channel cache of
  the client and the outcome of each `send` are inputs of a cycle.
* An exception inside the `try` block of `checkAll` is the constructor
  `Outcome.threw`; the memory it carries is what the `catch` clause finds.
* An embed is the record of the title, the description and the fields handed to
  `EmbedBuilder`; colour, thumbnail and image are not represented. The setters `setTitle`
  and `setDescription` raise on an empty text: `built` is the embed that the builder
  accepts, and a creator that raises ends the `try` block like any other exception. The
  upper limits of the builder on the length of a text are not represented.
* The object `counts` of `createEggEmbed` is created as `{}`: its lookups see the members
  inherited from `Object.prototype`, which `addCount` represents.
* A cycle runs without interleaving of command handlers at its `await` points.
* The tables loaded from files (`EMOJI_MAPPING`, `rolesData` and the like) are lookup
  functions: what a lookup finds under a name, inherited members included, is the value of
  the function at that name.
* The fields `visited` are ghost state: they record which categories reached the
  comparison of their payload with the snapshot, and influence nothing. A cycle that
  starts when idle and ends without an exception compares every category whose payload
  was fetched (`checkAll_visited_of_completed`).
* A `Date` is its number of milliseconds since the epoch; local time is at a fixed offset
  of whole minutes from UTC, so that no change of daylight saving time falls into a
  computation. Every reading of the clock is an input.
* A call of `checkCurrentEvent` runs without interleaving of another call of itself.
* The file `STOCK_CATEGORY_FILE` is not part of the sources: the table is a parameter.
  Where a statement is about the snapshot of one category, the API keys of the table are
  assumed not to collide with the keys `weather` and `tm` (`KeysSeparate`).
-/

namespace Waguri

/-! ## Payload types -/

/-- One entry of a stock list of the stock API (also an announcement note). -/
structure Item where
  display_name : String
  quantity : Option Nat := none
  end_date_unix : Option Nat := none
  message : Option String := none
deriving DecidableEq, Repr

/-- One entry of `wd.weather`. -/
structure Weather where
  active : Bool
  weather_name : String
  weather_id : String
  start_duration_unix : Nat
  duration : Nat
  end_duration_unix : Option Nat := none
deriving DecidableEq, Repr

/-- The value of `stockAll.travelingmerchant_stock`. -/
structure Merchant where
  merchantName : String
  stock : List Item
deriving DecidableEq, Repr

/-- One entry of the info API. -/
structure Info where
  item_id : String
  description : Option String := none
deriving DecidableEq, Repr

/-- A non-null answer of the stock API: the lists by API key and the merchant. -/
structure StockAll where
  lists : String → Option (List Item)
  travelingmerchant_stock : Option Merchant

/-- A non-null answer of the weather API. -/
structure WeatherData where
  weather : Option (List Weather)

/-- The three values awaited by `Promise.all` at the start of a cycle; `none` is `null`. -/
structure Fetched where
  stockAll : Option StockAll
  wd : Option WeatherData
  infoData : Option (List Info)

/-! ## JavaScript helpers -/

/-- Truthiness of an optional number: `undefined` and `0` are falsy. -/
def numOr (x : Option Nat) (d : Nat) : Nat :=
  match x with
  | some n => if n = 0 then d else n
  | none => d

/-- Truthiness of an optional string: `undefined` and `""` are falsy. -/
def truthyStr (x : Option String) : Option String :=
  match x with
  | some s => if s = "" then none else some s
  | none => none

/-- The maximum of a list of naturals, as `Math.max(...xs)` on a non-empty list. -/
def maxOf (xs : List Nat) : Nat := xs.foldl max 0

/-- The white space removed by `String.prototype.trim`. -/
def jsIsSpace (c : Char) : Bool :=
  let n := c.toNat
  n = 0x09 || n = 0x0A || n = 0x0B || n = 0x0C || n = 0x0D || n = 0x20 || n = 0xA0 ||
  n = 0x1680 || (0x2000 ≤ n && n ≤ 0x200A) || n = 0x2028 || n = 0x2029 || n = 0x202F ||
  n = 0x205F || n = 0x3000 || n = 0xFEFF

/-- The method `trim` on the characters of a string. -/
def trimChars (l : List Char) : List Char :=
  ((l.dropWhile jsIsSpace).reverse.dropWhile jsIsSpace).reverse

/-- The method `trim`. -/
def jsTrim (s : String) : String := String.mk (trimChars s.data)

/-! ## `normalizeKey` -/

/-- The characters matched by `[a-z0-9]`. -/
def isKeyChar (c : Char) : Bool :=
  ('a'.toNat ≤ c.toNat && c.toNat ≤ 'z'.toNat) || ('0'.toNat ≤ c.toNat && c.toNat ≤ '9'.toNat)

/-- The lower case of one character, as far as `[a-z0-9]` can tell: ASCII capitals,
the Kelvin sign (to `k`) and the dotted capital I (to `i` and a combining dot) are
mapped; every other character has a lower case outside `[a-z0-9]` and is kept. -/
def lowerChar (c : Char) : List Char :=
  if c.toNat = 0x212A then ['k']
  else if c.toNat = 0x0130 then ['i', Char.ofNat 0x0307]
  else [c.toLower]

/-- The method `toLowerCase` on the characters of a string. -/
def toLowerCase (l : List Char) : List Char := l.flatMap lowerChar

/-- The replacement `.replace(/[^a-z0-9]+/g, "_")`: `inRun` tells that the previous
character already belonged to the run being replaced. -/
def replaceRuns (inRun : Bool) : List Char → List Char
  | [] => []
  | c :: cs =>
    if isKeyChar c then c :: replaceRuns false cs
    else if inRun then replaceRuns true cs
    else '_' :: replaceRuns true cs

/-- The replacement `.replace(/(^_|_$)/g, "")`: one underscore at the start and one
at the end of what is left are removed. -/
def stripEnds (l : List Char) : List Char :=
  let l1 := match l with
    | '_' :: t => t
    | _ => l
  match l1.reverse with
  | '_' :: t => t.reverse
  | _ => l1

/-- The function `normalizeKey` on the characters of a string. -/
def normalizeChars (l : List Char) : List Char :=
  stripEnds (replaceRuns false (toLowerCase l))

/-- The function `normalizeKey`. -/
def normalizeKey (str : String) : String := String.mk (normalizeChars str.data)

/-! ## Configuration -/

/-- The tables loaded from files at start-up and never changed afterwards. -/
structure Config where
  /-- The list `Object.entries(STOCK_CATEGORY)`: key, API key and title of each entry. -/
  STOCK_CATEGORY : List (String × String × String)
  /-- The table `EMOJI_MAPPING`, keyed by normalized name. -/
  EMOJI_MAPPING : String → Option String

/-- Webhook credentials as stored by the webhook set-up. -/
structure Hook where
  id : String
  token : String
deriving DecidableEq, Repr

/-- The destination tables, changed by administrative commands only. -/
structure Settings where
  /-- The list `Object.entries(channelsData)`: guild identifier and its channel fields. -/
  channelsData : List (String × (String → Option String))
  /-- The lookup `rolesData[gId]?.[key]`. -/
  rolesData : String → String → Option String
  /-- The lookup `webhooksData[gId]?.[key]`. -/
  webhooksData : String → String → Option Hook
  /-- The lookup `WEBHOOK_USERNAMES[type]`. -/
  WEBHOOK_USERNAMES : String → Option String

/-- The function `getEmojiByKey`. -/
def getEmojiByKey (cfg : Config) (key : String) : String :=
  (truthyStr (cfg.EMOJI_MAPPING key)).getD ""

/-- The function `getWebhookUsername`. -/
def getWebhookUsername (sets : Settings) (type : String) : String :=
  match truthyStr (sets.WEBHOOK_USERNAMES type) with
  | some n => n
  | none => (truthyStr (sets.WEBHOOK_USERNAMES "default")).getD "GAG Bot"

/-! ## Embed creators -/

/-- What is kept of an `EmbedBuilder`: title, description and the added fields. -/
structure Embed where
  title : String
  description : String
  fields : List (String × String)
deriving DecidableEq, Repr

/-- The embed as `EmbedBuilder` accepts it: `setTitle` and `setDescription` raise on an
empty text, which is `none`. -/
def built (e : Embed) : Option Embed :=
  if e.title ≠ "" ∧ e.description ≠ "" then some e else none

/-- The function `relativeTimestampField` at clock reading `now` (in seconds). -/
def relativeTimestampField (now : Nat) : String × String :=
  ("\u200b", "<t:" ++ toString now ++ ":R>\n<t:" ++ toString now ++ ":f>")

/-- The text of one line before the emoji: name and quantity. -/
def lineText (name : String) (q : Nat) : String :=
  if q > 1 then name ++ " x" ++ toString q else name

/-- One line of a list embed: the text, after the emoji of the name when there is one. -/
def withEmoji (cfg : Config) (name txt : String) : String :=
  let emoji := getEmojiByKey cfg (normalizeKey (jsTrim name))
  if emoji = "" then txt else emoji ++ " " ++ txt

/-- The lines computed by `createStockEmbed` and `createMerchantEmbed`. -/
def stockLines (cfg : Config) (items : List Item) : List String :=
  items.map fun i => withEmoji cfg i.display_name (lineText i.display_name (i.quantity.getD 0))

/-- The function `createStockEmbed`: what it hands to the builder. -/
def createStockEmbed (cfg : Config) (now : Nat) (items : List Item) (title : String) : Embed :=
  { title := title
    description := "\n".intercalate (stockLines cfg items)
    fields := [relativeTimestampField now] }

/-- A value of the object `counts` of `createEggEmbed`: a number, or the text that the
addition leaves under the name of an inherited function (the source text of the function
followed by digits), which is not a number. -/
inductive Count where
  | num (n : Nat)
  | text
deriving DecidableEq, Repr

/-- The names of the functions that an object created as `{}` inherits from
`Object.prototype`. -/
def inheritedFunctions : List String :=
  ["constructor", "__defineGetter__", "__defineSetter__", "hasOwnProperty",
    "__lookupGetter__", "__lookupSetter__", "isPrototypeOf", "propertyIsEnumerable",
    "toString", "valueOf", "toLocaleString"]

/-- The sum `(a[n] || 0) + q` for an own value of `a[n]`. -/
def Count.add : Count → Nat → Count
  | .num v, q => .num (v + q)
  | .text, _ => .text

/-- One step of the `reduce` of `createEggEmbed`: `a[n] = (a[n] || 0) + q` on the own
properties of `a` in insertion order. Without an own property `n`, the lookup finds the
inherited member: a function, whose sum with `q` is a text, or for `__proto__` the
prototype object, where the assignment of the text is ignored. -/
def addCount : List (String × Count) → String → Nat → List (String × Count)
  | [], n, q =>
    if n = "__proto__" then []
    else if n ∈ inheritedFunctions then [(n, .text)]
    else [(n, .num q)]
  | (k, v) :: t, n, q => if k = n then (k, v.add q) :: t else (k, v) :: addCount t n q

/-- The object `counts` of `createEggEmbed`, its keys in insertion order. -/
def eggCounts (items : List Item) : List (String × Count) :=
  items.foldl (fun a i => addCount a i.display_name (numOr i.quantity 1)) []

/-- The number `n` when `s` is an array index: the canonical decimal form (digits only,
no leading zero but for `0` itself) of a number below `2^32 - 1`. -/
def arrayIndex (s : String) : Option Nat :=
  let ds := s.data
  if ds.all (fun c => '0'.toNat ≤ c.toNat && c.toNat ≤ '9'.toNat) && !ds.isEmpty &&
      (ds.head? != some '0' || ds.length == 1) then
    let n := ds.foldl (fun n c => 10 * n + (c.toNat - '0'.toNat)) 0
    if n < 2 ^ 32 - 1 then some n else none
  else none

/-- Insertion of an index key among index keys in ascending order. -/
def insertIndex {α : Type} (n : Nat) (e : String × α) :
    List (Nat × String × α) → List (Nat × String × α)
  | [] => [(n, e)]
  | (m, f) :: t => if n ≤ m then (n, e) :: (m, f) :: t else (m, f) :: insertIndex n e t

/-- The index keys of an object in ascending order. -/
def indexEntries {α : Type} : List (String × α) → List (Nat × String × α)
  | [] => []
  | e :: t =>
    match arrayIndex e.1 with
    | some n => insertIndex n e (indexEntries t)
    | none => indexEntries t

/-- The order of `Object.entries`: array indices ascending, then the other keys in
insertion order. -/
def objectEntries {α : Type} (o : List (String × α)) : List (String × α) :=
  (indexEntries o).map (fun p => p.2) ++ o.filter (fun e => (arrayIndex e.1).isNone)

/-- The text `q > 1 ? n + " x" + q : n` of an entry of `counts`: a text is not above one. -/
def countText (n : String) : Count → String
  | .num q => lineText n q
  | .text => n

/-- The lines computed by `createEggEmbed`. -/
def eggLines (cfg : Config) (items : List Item) : List String :=
  (objectEntries (eggCounts items)).map fun e => withEmoji cfg e.1 (countText e.1 e.2)

/-- The function `createEggEmbed`: what it hands to the builder. -/
def createEggEmbed (cfg : Config) (now : Nat) (items : List Item) (title : String) : Embed :=
  { title := title
    description := "\n".intercalate (eggLines cfg items)
    fields := [relativeTimestampField now] }

/-- The function `createAnnouncementEmbed`: `setDescription(note.message || "")` raises
when the note has no message. -/
def createAnnouncementEmbed (now : Nat) (note : Item) : Option Embed :=
  built
    { title := " Announcement"
      description := (truthyStr note.message).getD ""
      fields := [relativeTimestampField now] }

/-- The function `createWeatherEmbed`; `nowTs` is its own clock reading. Its title and
its description are never empty. -/
def createWeatherEmbed (cfg : Config) (nowTs : Nat) (w : Weather) (desc : String) : Embed :=
  let key := normalizeKey (jsTrim w.weather_name)
  let emoji := getEmojiByKey cfg key
  let endTs := (if w.start_duration_unix = 0 then nowTs else w.start_duration_unix) + w.duration
  { title := emoji ++ " " ++ w.weather_name
    description := "Status: Active\n" ++ desc
    fields := [relativeTimestampField nowTs, ("Duration", "ends <t:" ++ toString endTs ++ ":R>")] }

/-- The function `createMerchantEmbed`: what it hands to the builder. -/
def createMerchantEmbed (cfg : Config) (now : Nat) (merchantName : String) (items : List Item) :
    Embed :=
  { title := " " ++ merchantName
    description := "\n".intercalate (stockLines cfg items)
    fields := [relativeTimestampField now] }

/-! ## Serialization -/

/-- One hexadecimal digit. -/
def hexDigit (n : Nat) : Char :=
  if n < 10 then Char.ofNat (48 + n) else Char.ofNat (87 + n)

/-- The escape of one character inside a JSON string, as `JSON.stringify` writes it. -/
def jsonEscape (c : Char) : List Char :=
  if c = '"' then ['\\', '"']
  else if c = '\\' then ['\\', '\\']
  else if c.toNat = 0x08 then ['\\', 'b']
  else if c.toNat = 0x0C then ['\\', 'f']
  else if c = '\n' then ['\\', 'n']
  else if c = '\r' then ['\\', 'r']
  else if c = '\t' then ['\\', 't']
  else if c.toNat < 0x20 then ['\\', 'u', '0', '0', hexDigit (c.toNat / 16), hexDigit (c.toNat % 16)]
  else [c]

/-- A string as `JSON.stringify` writes it. -/
def jsonStr (s : String) : String :=
  "\"" ++ String.mk (s.data.flatMap jsonEscape) ++ "\""

/-- An object as `JSON.stringify` writes it; absent properties are left out. -/
def jsonObj (props : List (Option String)) : String :=
  "\x7b" ++ ",".intercalate (props.filterMap id) ++ "\x7d"

/-- An array as `JSON.stringify` writes it. -/
def jsonArr (elems : List String) : String :=
  "[" ++ ",".intercalate elems ++ "]"

/-- A property with a string value. -/
def propStr (name : String) (v : String) : Option String :=
  some (jsonStr name ++ ":" ++ jsonStr v)

/-- A property with a number value. -/
def propNum (name : String) (v : Nat) : Option String :=
  some (jsonStr name ++ ":" ++ toString v)

/-- The serialization of an item: `JSON.stringify` on the properties the program reads. -/
def stringifyItem (i : Item) : String :=
  jsonObj [propStr "display_name" i.display_name,
    i.quantity.bind (propNum "quantity"),
    i.end_date_unix.bind (propNum "end_date_unix"),
    i.message.bind (propStr "message")]

/-- The call `JSON.stringify(items)`. -/
def stringifyItems (items : List Item) : String :=
  jsonArr (items.map stringifyItem)

/-- The serialization of a weather entry. -/
def stringifyWeatherEntry (w : Weather) : String :=
  jsonObj [some (jsonStr "active" ++ ":" ++ (if w.active then "true" else "false")),
    propStr "weather_name" w.weather_name,
    propStr "weather_id" w.weather_id,
    propNum "start_duration_unix" w.start_duration_unix,
    propNum "duration" w.duration,
    w.end_duration_unix.bind (propNum "end_duration_unix")]

/-- The call `JSON.stringify(active)`. -/
def stringifyWeather (active : List Weather) : String :=
  jsonArr (active.map stringifyWeatherEntry)

/-- The call `JSON.stringify(tm)`. -/
def stringifyMerchant (tm : Merchant) : String :=
  jsonObj [propStr "merchantName" tm.merchantName,
    some (jsonStr "stock" ++ ":" ++ stringifyItems tm.stock)]

/-! ## State of the process and of one cycle -/

/-- The object `lastState`: snapshot by key, `none` for an absent key. -/
abbrev Store := String → Option String

/-- The assignment `lastState[k] = v`. -/
def Store.set (s : Store) (k v : String) : Store :=
  fun x => if x = k then some v else s x

/-- The module-level variables the cycle writes, and the file `last_state.json`. -/
structure State where
  lastState : Store
  isChecking : Bool
  saved : Store

/-- The categories of the main cycle: an entry of `STOCK_CATEGORY` (by key and API
key), the weather and the traveling merchant. -/
inductive Category where
  | stock (key apiKey : String)
  | weather
  | merchant
deriving DecidableEq, Repr

/-- The two delivery paths: `new WebhookClient(hook).send` and `ch.send`. -/
inductive Path where
  | webhook (hook : Hook)
  | channel (id : String)
deriving DecidableEq, Repr

/-- One call of `send`: the category whose loop made it, the guild, the path and
what is kept of the message payload. -/
structure Attempt where
  category : Category
  guild : String
  path : Path
  content : Option String
  embed : Embed
  username : String
deriving DecidableEq, Repr

/-- What a cycle reads from outside the program besides the fetches. -/
structure Env where
  /-- The identifiers for which `client.channels.cache.get` finds a channel. -/
  channelCache : String → Bool
  /-- The calls of `send` that raise. -/
  sendFails : Attempt → Bool
  /-- The reading of the clock (seconds) in the stock block. -/
  stockNow : Nat
  /-- The reading of the clock in the weather block. -/
  weatherNow : Nat
  /-- The reading of the clock in the merchant block. -/
  merchantNow : Nat
  /-- The reading of the clock inside the embed creators. -/
  embedNow : Nat
  /-- The write of `last_state.json` fails (`saveJSON` swallows the error). -/
  writeFails : Bool

/-- The memory during the `try` block: the snapshots, the calls of `send` made so far
and, as a ghost trace, the categories whose payload has been compared with its snapshot. -/
structure Mem where
  lastState : Store
  log : List Attempt
  visited : List Category

/-- How a block of the cycle ends: normally, or by an exception. -/
inductive Outcome where
  | done (m : Mem)
  | threw (m : Mem)

/-- The memory at the end of a block. -/
def Outcome.mem : Outcome → Mem
  | .done m => m
  | .threw m => m

/-- Sequencing of blocks: an exception skips what follows. -/
def Outcome.andThen (o : Outcome) (k : Mem → Outcome) : Outcome :=
  match o with
  | .done m => k m
  | .threw m => .threw m

/-! ## Recipients -/

/-- The snapshot key of a category. -/
def Category.stateKey : Category → String
  | .stock _ apiKey => apiKey
  | .weather => "weather"
  | .merchant => "tm"

/-- The field of a guild's channel table read for a category. -/
def Category.channelField : Category → String
  | .stock key _ => key ++ "_channel_id"
  | .weather => "weather_channel_id"
  | .merchant => "merchant_channel_id"

/-- The key under which roles, webhooks and user names of a category are stored. -/
def Category.configKey : Category → String
  | .stock key _ => key
  | .weather => "weather"
  | .merchant => "jandel"

/-- The call `client.channels.cache.get(channelId)`; the channel is its identifier. -/
def resolveChannel (env : Env) (channelId : Option String) : Option String :=
  match channelId with
  | some id => if env.channelCache id then some id else none
  | none => none

/-- The text of a role mention. -/
def mention (role : String) : String := "<@&" ++ role ++ ">"

/-- The ping of the role stored for `key`, when there is one. -/
def rolePing (sets : Settings) (gId key : String) : List String :=
  match truthyStr (sets.rolesData gId key) with
  | some r => [mention r]
  | none => []

/-- The pings of the item roles, in payload order. -/
def itemPings (sets : Settings) (gId : String) (items : List Item) : List String :=
  items.flatMap fun item => rolePing sets gId (normalizeKey (jsTrim item.display_name))

/-- The pings of a stock or merchant notification: category role, then item roles. -/
def listPings (sets : Settings) (gId : String) (cat : Category) (items : List Item) :
    List String :=
  rolePing sets gId cat.configKey ++ itemPings sets gId items

/-- The pings of a weather notification: category role, then the role of the weather. -/
def weatherPings (sets : Settings) (gId : String) (w : Weather) : List String :=
  rolePing sets gId "weather" ++ rolePing sets gId (normalizeKey (jsTrim w.weather_name))

/-- The value `pings.length ? pings.join(" ") : undefined`. -/
def contentOfList (pings : List String) : Option String :=
  if pings.length = 0 then none else some (" ".intercalate pings)

/-- The value `pings.join(" ") || undefined`. -/
def contentOfWeather (pings : List String) : Option String :=
  truthyStr (some (" ".intercalate pings))

/-- The body of the loop over `Object.entries(channelsData)`, up to the call of `send`:
`none` when the guild has no resolvable channel (`continue`). -/
def attemptFor (env : Env) (sets : Settings) (cat : Category) (pings : String → List String)
    (content : List String → Option String) (embed : Embed)
    (gId : String) (chs : String → Option String) : Option Attempt :=
  match resolveChannel env (chs cat.channelField) with
  | none => none
  | some ch =>
    some { category := cat
           guild := gId
           path := match sets.webhooksData gId cat.configKey with
             | some hook => .webhook hook
             | none => .channel ch
           content := content (pings gId)
           embed := embed
           username := getWebhookUsername sets cat.configKey }

/-- The loop over `Object.entries(channelsData)`: the calls of `send` are appended to the
log; the result is `false` when one of them raised, which ends the loop. -/
def deliver (env : Env) (mk : String → (String → Option String) → Option Attempt) :
    List (String × (String → Option String)) → List Attempt → Bool × List Attempt
  | [], log => (true, log)
  | (gId, chs) :: rest, log =>
    match mk gId chs with
    | none => deliver env mk rest log
    | some a =>
      if env.sendFails a then (false, log ++ [a])
      else deliver env mk rest (log ++ [a])

/-- The delivery loop as a block on the memory. -/
def deliverBlock (env : Env) (sets : Settings)
    (mk : String → (String → Option String) → Option Attempt) (m : Mem) : Outcome :=
  match deliver env mk sets.channelsData m.log with
  | (true, log) => .done { m with log := log }
  | (false, log) => .threw { m with log := log }

/-! ## The main cycle -/

/-- The expiry `Math.max(...items.map((i) => i.end_date_unix || 0))`. -/
def expiryOf (items : List Item) : Nat :=
  maxOf (items.map fun i => numOr i.end_date_unix 0)

/-- The embed chosen for a stock category with first item `first`; `none` when its
creator raises. -/
def chooseEmbed (cfg : Config) (now : Nat) (key title : String) (first : Item)
    (items : List Item) : Option Embed :=
  if key = "egg" then built (createEggEmbed cfg now items title)
  else if key = "announcement" then createAnnouncementEmbed now first
  else built (createStockEmbed cfg now items title)

/-- The body of the loop over `Object.entries(STOCK_CATEGORY)` for one entry. -/
def stockStep (cfg : Config) (sets : Settings) (env : Env) (stockAll : StockAll)
    (e : String × String × String) (m : Mem) : Outcome :=
  let key := e.1
  let apiKey := e.2.1
  let title := e.2.2
  let cat := Category.stock key apiKey
  let items := (stockAll.lists apiKey).getD []
  let json := stringifyItems items
  let m0 : Mem := { m with visited := m.visited ++ [cat] }
  if m0.lastState apiKey = some json then .done m0
  else
    let m1 : Mem := { m0 with lastState := m0.lastState.set apiKey json }
    match items with
    | [] => .done m1
    | first :: _ =>
      if key ≠ "announcement" ∧ expiryOf items < env.stockNow then .done m1
      else
        match chooseEmbed cfg env.embedNow key title first items with
        | none => .threw m1
        | some embed =>
          deliverBlock env sets
            (attemptFor env sets cat (fun gId => listPings sets gId cat items) contentOfList
              embed) m1

/-- The loop over `Object.entries(STOCK_CATEGORY)`. -/
def stockLoop (cfg : Config) (sets : Settings) (env : Env) (stockAll : StockAll) :
    List (String × String × String) → Mem → Outcome
  | [], m => .done m
  | e :: rest, m =>
    (stockStep cfg sets env stockAll e m).andThen (stockLoop cfg sets env stockAll rest)

/-- The block `if (stockAll) ...`. -/
def stockBlock (cfg : Config) (sets : Settings) (env : Env) (f : Fetched) (m : Mem) : Outcome :=
  match f.stockAll with
  | some stockAll => stockLoop cfg sets env stockAll cfg.STOCK_CATEGORY m
  | none => .done m

/-- The expiry `w.end_duration_unix || w.start_duration_unix + w.duration`. -/
def weatherExpiry (w : Weather) : Nat :=
  numOr w.end_duration_unix (w.start_duration_unix + w.duration)

/-- The description `infoData.find(...)?.description || "No description"`. -/
def weatherDesc (info : List Info) (w : Weather) : String :=
  match info.find? (fun i => i.item_id = w.weather_id) with
  | some i => (truthyStr i.description).getD "No description"
  | none => "No description"

/-- The body of the loop over the active weather entries. A `null` answer of the
info API makes `infoData.find` raise a `TypeError`. -/
def weatherStep (cfg : Config) (sets : Settings) (env : Env) (infoData : Option (List Info))
    (w : Weather) (m : Mem) : Outcome :=
  if weatherExpiry w < env.weatherNow then .done m
  else
    match infoData with
    | none => .threw m
    | some info =>
      deliverBlock env sets
        (attemptFor env sets .weather (fun gId => weatherPings sets gId w) contentOfWeather
          (createWeatherEmbed cfg env.embedNow w (weatherDesc info w))) m

/-- The loop over the active weather entries. -/
def weatherLoop (cfg : Config) (sets : Settings) (env : Env) (infoData : Option (List Info)) :
    List Weather → Mem → Outcome
  | [], m => .done m
  | w :: rest, m =>
    (weatherStep cfg sets env infoData w m).andThen (weatherLoop cfg sets env infoData rest)

/-- The block `if (wd?.weather) ...`. -/
def weatherBlock (cfg : Config) (sets : Settings) (env : Env) (f : Fetched) (m : Mem) : Outcome :=
  match f.wd.bind (fun wd => wd.weather) with
  | none => .done m
  | some weather =>
    let active := weather.filter (fun w => w.active)
    let json := stringifyWeather active
    let m0 : Mem := { m with visited := m.visited ++ [Category.weather] }
    if m0.lastState "weather" = some json then .done m0
    else
      weatherLoop cfg sets env f.infoData active
        { m0 with lastState := m0.lastState.set "weather" json }

/-- The block `if (stockAll?.travelingmerchant_stock?.stock.length) ...`. -/
def merchantBlock (cfg : Config) (sets : Settings) (env : Env) (f : Fetched) (m : Mem) : Outcome :=
  match f.stockAll.bind (fun stockAll => stockAll.travelingmerchant_stock) with
  | none => .done m
  | some tm =>
    if tm.stock.length = 0 then .done m
    else
      let json := stringifyMerchant tm
      let m0 : Mem := { m with visited := m.visited ++ [Category.merchant] }
      if m0.lastState "tm" = some json then .done m0
      else
        let m1 : Mem := { m0 with lastState := m0.lastState.set "tm" json }
        let items := tm.stock
        if expiryOf items ≥ env.merchantNow then
          match built (createMerchantEmbed cfg env.embedNow tm.merchantName items) with
          | none => .threw m1
          | some eb =>
            deliverBlock env sets
              (attemptFor env sets .merchant (fun gId => listPings sets gId .merchant items)
                contentOfList eb) m1
        else .done m1

/-- The statements of the `try` block before `saveAll()`. -/
def tryBlock (cfg : Config) (sets : Settings) (env : Env) (f : Fetched) (m : Mem) : Outcome :=
  ((stockBlock cfg sets env f m).andThen (weatherBlock cfg sets env f)).andThen
    (merchantBlock cfg sets env f)

/-- The function `saveAll`, as far as `last_state.json` goes. -/
def saveAll (env : Env) (s : State) : State :=
  if env.writeFails then s else { s with saved := s.lastState }

/-- What one call of `checkAll` leaves and did. -/
structure Result where
  /-- The module-level variables after the call. -/
  st : State
  /-- The calls of `send`, in order. -/
  log : List Attempt
  /-- Ghost: the categories whose payload was compared with its snapshot. -/
  visited : List Category
  /-- The three fetches were made. -/
  fetched : Bool
  /-- An exception reached the `catch` clause. -/
  caught : Bool

/-- The function `checkAll`. -/
def checkAll (cfg : Config) (sets : Settings) (env : Env) (f : Fetched) (s : State) : Result :=
  if s.isChecking then
    { st := s, log := [], visited := [], fetched := false, caught := false }
  else
    match tryBlock cfg sets env f { lastState := s.lastState, log := [], visited := [] } with
    | .done m =>
      { st := { saveAll env { s with lastState := m.lastState } with isChecking := false }
        log := m.log, visited := m.visited, fetched := true, caught := false }
    | .threw m =>
      { st := { s with lastState := m.lastState, isChecking := false }
        log := m.log, visited := m.visited, fetched := true, caught := true }

/-! ## Dates

An instant is its number of milliseconds since the epoch, as `getTime` returns it. Local
time is at a fixed offset of `tz` minutes from UTC: no change of daylight saving time
happens during a computation. The setters follow `MakeTime` and `MakeDate` of the
language standard; invalid dates are not represented. -/

/-- The number `msPerMinute`. -/
def msPerMinute : Int := 60000

/-- The number `msPerHour`. -/
def msPerHour : Int := 3600000

/-- The number `msPerDay`. -/
def msPerDay : Int := 86400000

/-- The local time value of an instant. -/
def localTime (tz t : Int) : Int := t + tz * msPerMinute

/-- The instant of a local time value. -/
def utcTime (tz l : Int) : Int := l - tz * msPerMinute

/-- The day number of a time value. -/
def dayOf (t : Int) : Int := t / msPerDay

/-- The hour of the day of a time value. -/
def hourFromTime (t : Int) : Int := (t / msPerHour) % 24

/-- The minute of the hour of a time value. -/
def minFromTime (t : Int) : Int := (t / msPerMinute) % 60

/-- The second of the minute of a time value. -/
def secFromTime (t : Int) : Int := (t / 1000) % 60

/-- The millisecond of the second of a time value. -/
def msFromTime (t : Int) : Int := t % 1000

/-- The time within a day made of hour, minute, second and millisecond, any of which
may lie outside its usual range. -/
def makeTime (hour min sec ms : Int) : Int :=
  hour * msPerHour + min * msPerMinute + sec * 1000 + ms

/-- The time value of a day number and a time within the day. -/
def makeDate (day time : Int) : Int := day * msPerDay + time

/-- The method `setSeconds(sec, ms)` of a date `d`. -/
def setSeconds (tz d sec ms : Int) : Int :=
  let t := localTime tz d
  utcTime tz (makeDate (dayOf t) (makeTime (hourFromTime t) (minFromTime t) sec ms))

/-- The method `setMinutes(min)` of a date `d`. -/
def setMinutes (tz d min : Int) : Int :=
  let t := localTime tz d
  utcTime tz (makeDate (dayOf t) (makeTime (hourFromTime t) min (secFromTime t) (msFromTime t)))

/-- The method `getHours()` of a date `d`. -/
def getHours (tz d : Int) : Int := hourFromTime (localTime tz d)

/-- The method `setHours(hour)` of a date `d`. -/
def setHours (tz d hour : Int) : Int :=
  let t := localTime tz d
  utcTime tz (makeDate (dayOf t) (makeTime hour (minFromTime t) (secFromTime t) (msFromTime t)))

/-! ## The event scheduler -/

/-- The value of `start` in a current event. -/
structure EventStart where
  minute : Int
deriving DecidableEq, Repr

/-- The value of `ev.current` in an answer of the event API. -/
structure CurrentEvent where
  name : String
  icon : Option String := none
  start : EventStart
deriving DecidableEq, Repr

/-- The function `createCurrentEventEmbed`; `now` is its reading `new Date()` and `stamp`
the reading of `relativeTimestampField`. -/
def createCurrentEventEmbed (tz now : Int) (stamp : Nat) (curr : CurrentEvent) : Embed :=
  let d := setSeconds tz now 0 0
  let d := setMinutes tz d curr.start.minute
  let d := if d < now then setHours tz d (getHours tz d + 1) else d
  let unix := d / 1000
  { title := "🌟 Event: " ++ curr.name
    description := "**Starts:** <t:" ++ toString unix ++ ":R>"
    fields := [relativeTimestampField stamp] }

/-- One call of `send` made by `checkCurrentEvent`; its payload has no `content`. -/
structure EventAttempt where
  guild : String
  path : Path
  content : Option String
  embed : Embed
  username : String
deriving DecidableEq, Repr

/-- What a call of `checkCurrentEvent` reads from outside the program. -/
structure EventEnv where
  /-- The offset of local time from UTC, in minutes. -/
  tz : Int
  /-- The reading `Date.now()` at the entry, in milliseconds. -/
  entryClock : Int
  /-- The value `ev?.current` of the awaited fetch; `none` when it is falsy. -/
  current : Option CurrentEvent
  /-- The reading `new Date()` inside `createCurrentEventEmbed`. -/
  embedClock : Int
  /-- The reading of the clock (seconds) inside `relativeTimestampField`. -/
  stampNow : Nat
  /-- The reading `new Date()` before `nextEventTs` is assigned. -/
  computeClock : Int
  /-- The identifiers for which `client.channels.cache.get` finds a channel. -/
  channelCache : String → Bool
  /-- The calls of `send` that raise. -/
  sendFails : EventAttempt → Bool

/-- The module-level variables in reach of `checkCurrentEvent`: those of the main cycle
and `nextEventTs`, `none` being `null`. -/
structure Scheduler where
  main : State
  nextEventTs : Option Int

/-- What one call of `checkCurrentEvent` leaves and did. -/
structure EventResult where
  /-- The module-level variables after the call. -/
  st : Scheduler
  /-- The calls of `send`, in order. -/
  log : List EventAttempt
  /-- The event API was fetched. -/
  fetched : Bool
  /-- The loop over `Object.entries(channelsData)` was entered. -/
  dispatched : Bool
  /-- A call of `send` raised: the exception leaves the function. -/
  threw : Bool

/-- The body of the loop of `checkCurrentEvent` up to the call of `send`: `none` when the
guild has no resolvable channel (`continue`). -/
def eventAttemptFor (env : EventEnv) (sets : Settings) (embed : Embed)
    (gId : String) (chs : String → Option String) : Option EventAttempt :=
  match chs "current_event_channel_id" with
  | none => none
  | some id =>
    if env.channelCache id then
      some { guild := gId
             path := match sets.webhooksData gId "currentevent" with
               | some hook => .webhook hook
               | none => .channel id
             content := none
             embed := embed
             username := getWebhookUsername sets "currentevent" }
    else none

/-- The loop of `checkCurrentEvent` over `Object.entries(channelsData)`: the result is
`false` when a call of `send` raised, which ends the loop. -/
def eventDeliver (env : EventEnv) (mk : String → (String → Option String) → Option EventAttempt) :
    List (String × (String → Option String)) → List EventAttempt → Bool × List EventAttempt
  | [], log => (true, log)
  | (gId, chs) :: rest, log =>
    match mk gId chs with
    | none => eventDeliver env mk rest log
    | some a =>
      if env.sendFails a then (false, log ++ [a])
      else eventDeliver env mk rest (log ++ [a])

/-- The function `checkCurrentEvent`. -/
def checkCurrentEvent (sets : Settings) (env : EventEnv) (s : Scheduler) : EventResult :=
  let nowTs := env.entryClock / 1000
  match s.nextEventTs with
  | none =>
    match env.current with
    | some curr =>
      let now := env.computeClock
      let d := setSeconds env.tz now 0 0
      let d := setMinutes env.tz d curr.start.minute
      let d := if d < now then setHours env.tz d (getHours env.tz d + 1) else d
      { st := { s with nextEventTs := some (d / 1000) }
        log := [], fetched := true, dispatched := false, threw := false }
    | none => { st := s, log := [], fetched := true, dispatched := false, threw := false }
  | some next =>
    if nowTs ≥ next then
      match env.current with
      | some curr =>
        let embed := createCurrentEventEmbed env.tz env.embedClock env.stampNow curr
        match eventDeliver env (eventAttemptFor env sets embed) sets.channelsData [] with
        | (true, log) =>
          let now := env.computeClock
          let d := setSeconds env.tz now 0 0
          let d := setMinutes env.tz d curr.start.minute
          let d := if d < now then setHours env.tz d (getHours env.tz d + 1) else d
          { st := { s with nextEventTs := some (d / 1000) }
            log := log, fetched := true, dispatched := true, threw := false }
        | (false, log) =>
          { st := s, log := log, fetched := true, dispatched := true, threw := true }
      | none => { st := s, log := [], fetched := true, dispatched := false, threw := false }
    else { st := s, log := [], fetched := false, dispatched := false, threw := false }

/-! ## The slash commands

The branch `i.isChatInputCommand()` of `interactionHandler`. The replies are kept where a
command is refused or sets a channel; the files written by `saveAll` and the messages,
roles and webhooks created through the Discord API are not represented. -/

/-- What `interactionHandler` reads of a chat-input interaction. -/
structure Interaction where
  /-- The name of the command, one of `registeredCommands`. -/
  commandName : String
  /-- The identifier of `i.guild`, `none` outside a guild. -/
  guild : Option String
  /-- The identifier `i.channel.id`. -/
  channel : String
  /-- The value of `i.member.permissions.has(PermissionFlagsBits.Administrator)`. -/
  administrator : Bool
  /-- The option `type` of `/set-bot-name`. -/
  optionType : String := ""
  /-- The option `name` of `/set-bot-name`. -/
  optionName : String := ""

/-- The table `rolesData` as the role commands leave it; it depends on the answers of the
Discord API to the creation and the deletion of roles. -/
structure RoleWork where
  /-- The table after the loops of `/setup-roles` in a guild. -/
  afterSetup : Settings → String → String → String → Option String
  /-- The table after the loops of `/remove-roles` in a guild. -/
  afterRemove : Settings → String → String → String → Option String

/-- The names of the commands registered by `client.application.commands.set`: the
names that a chat-input interaction can carry. -/
def registeredCommands : List String :=
  ["guilds", "calculate", "setup-roles", "setup-webhook", "setseed", "setgear", "setcosmetic",
    "seteventstock", "setegg", "setannounce", "setweather", "setmerchant", "setcurrentevent",
    "edit-webhook", "set-bot-name", "ping-role", "list-items", "remove-roles"]

/-- The object `channelSetupCommands` at the name of a registered command: the channel
field set by the command. -/
def channelSetupCommands (commandName : String) : Option String :=
  if commandName = "setseed" then some "seed_channel_id"
  else if commandName = "setgear" then some "gear_channel_id"
  else if commandName = "setcosmetic" then some "cosmetic_channel_id"
  else if commandName = "seteventstock" then some "eventshop_channel_id"
  else if commandName = "setegg" then some "egg_channel_id"
  else if commandName = "setweather" then some "weather_channel_id"
  else if commandName = "setmerchant" then some "merchant_channel_id"
  else if commandName = "setannounce" then some "announcement_channel_id"
  else if commandName = "setcurrentevent" then some "current_event_channel_id"
  else none

/-- The assignments `channelsData[gid] = channelsData[gid] || {}` and
`channelsData[gid][field] = ch` on the entries of `channelsData`: a guild without entry
gets one at the end (guild identifiers are too long to be array indices). -/
def setChannel (channelsData : List (String × (String → Option String)))
    (gid field ch : String) : List (String × (String → Option String)) :=
  if channelsData.any (fun e => e.1 = gid) then
    channelsData.map fun e =>
      if e.1 = gid then (e.1, fun k => if k = field then some ch else e.2 k) else e
  else channelsData ++ [(gid, fun k => if k = field then some ch else none)]

/-- What a chat-input command leaves and did. -/
structure Handled where
  /-- The destination tables after the command. -/
  sets : Settings
  /-- The result of the awaited call of `checkAll`, when the handler makes one. -/
  cycle : Option Result
  /-- The text of the reply, where it is kept. -/
  reply : Option String

/-- The reply `Admin only.` of a refused command: nothing else happens. -/
def adminOnly (sets : Settings) : Handled :=
  { sets := sets, cycle := none, reply := some "🚫 Admin only." }

/-- The function `interactionHandler` on a chat-input command. -/
def interactionHandler (cfg : Config) (api : RoleWork) (env : Env) (f : Fetched)
    (sets : Settings) (s : State) (i : Interaction) : Handled :=
  match i.guild with
  | none => { sets := sets, cycle := none, reply := some "💥 Must be in a guild." }
  | some gid =>
    if i.commandName = "setup-roles" then
      if !i.administrator then adminOnly sets
      else { sets := { sets with rolesData := api.afterSetup sets gid }, cycle := none, reply := none }
    else if i.commandName = "guilds" then { sets := sets, cycle := none, reply := none }
    else if i.commandName = "calculate" then { sets := sets, cycle := none, reply := none }
    else if i.commandName = "setup-webhook" then
      if !i.administrator then adminOnly sets
      else { sets := sets, cycle := none, reply := none }
    else
      match channelSetupCommands i.commandName with
      | some channelType =>
        let sets1 : Settings :=
          { sets with channelsData := setChannel sets.channelsData gid channelType i.channel }
        { sets := sets1
          cycle := some (checkAll cfg sets1 env f s)
          reply := some ("✅ Channel set to <#" ++ i.channel ++ ">") }
      | none =>
        if i.commandName = "edit-webhook" then
          if !i.administrator then adminOnly sets
          else { sets := sets, cycle := none, reply := none }
        else if i.commandName = "set-bot-name" then
          if !i.administrator then adminOnly sets
          else
            { sets := { sets with WEBHOOK_USERNAMES := fun t =>
                          if t = i.optionType then some i.optionName else sets.WEBHOOK_USERNAMES t }
              cycle := none
              reply := none }
        else if i.commandName = "ping-role" then
          if !i.administrator then adminOnly sets
          else { sets := sets, cycle := none, reply := none }
        else if i.commandName = "list-items" then
          if !i.administrator then adminOnly sets
          else { sets := sets, cycle := none, reply := none }
        else if i.commandName = "remove-roles" then
          if !i.administrator then adminOnly sets
          else { sets := { sets with rolesData := api.afterRemove sets gid }, cycle := none, reply := none }
        else { sets := sets, cycle := none, reply := none }

/-! ## Specification vocabulary -/

/-- The payload of a category is notifiable by itself: fetched, non-empty and not expired
(announcements never expire; the weather needs a non-expired active entry). -/
def Active (cfg : Config) (env : Env) (f : Fetched) : Category → Prop
  | .stock key apiKey => ∃ sa title, f.stockAll = some sa ∧ (key, apiKey, title) ∈ cfg.STOCK_CATEGORY ∧
      (sa.lists apiKey).getD [] ≠ [] ∧
      (key = "announcement" ∨ env.stockNow ≤ expiryOf ((sa.lists apiKey).getD []))
  | .weather => ∃ ws w, f.wd.bind (fun wd => wd.weather) = some ws ∧ f.infoData ≠ none ∧
      w ∈ ws ∧ w.active = true ∧ env.weatherNow ≤ weatherExpiry w
  | .merchant => ∃ sa tm, f.stockAll = some sa ∧ sa.travelingmerchant_stock = some tm ∧
      tm.stock ≠ [] ∧ env.merchantNow ≤ expiryOf tm.stock

/-- The attempt was made by the delivery loop of its category at a guild of
`channelsData` whose channel for the category resolves. -/
def SentBy (sets : Settings) (env : Env) (a : Attempt) : Prop :=
  ∃ chs, (a.guild, chs) ∈ sets.channelsData ∧
    resolveChannel env (chs a.category.channelField) ≠ none

/-- Every attempt of the log does not raise. -/
def AllOk (env : Env) (log : List Attempt) : Prop := ∀ a ∈ log, env.sendFails a = false

/-- The block ended normally. -/
def Outcome.isDone : Outcome → Bool
  | .done _ => true
  | .threw _ => false

/-- A property of the attempts added by a block (and of how the block ended) that is
kept by sequencing. -/
structure Sequential (R : Bool → List Attempt → Prop) : Prop where
  nil : R true []
  seq : ∀ d n1 n2, R true n1 → R d n2 → R d (n1 ++ n2)

/-- The block `b` keeps the invariant `I` of snapshots and ghost trace, and the attempts
it adds to the log satisfy `R`. -/
def Spec (I : Store → List Category → Prop) (R : Bool → List Attempt → Prop)
    (b : Mem → Outcome) : Prop :=
  ∀ m, I m.lastState m.visited →
    I (b m).mem.lastState (b m).mem.visited ∧
    ∃ new, (b m).mem.log = m.log ++ new ∧ R (b m).isDone new

/-- The creation of the embed and the delivery loop of a stock category: without result
and without attempt when the creator raises. -/
def stockDeliver (cfg : Config) (sets : Settings) (env : Env) (e : String × String × String)
    (first : Item) (items : List Item) : Bool × List Attempt :=
  match chooseEmbed cfg env.embedNow e.1 e.2.2 first items with
  | none => (false, [])
  | some embed =>
    deliver env
      (attemptFor env sets (.stock e.1 e.2.1)
        (fun gId => listPings sets gId (.stock e.1 e.2.1) items) contentOfList embed)
      sets.channelsData []

/-- The delivery loop of one weather entry. -/
def weatherDeliver (cfg : Config) (sets : Settings) (env : Env) (info : List Info)
    (w : Weather) : Bool × List Attempt :=
  deliver env
    (attemptFor env sets .weather (fun gId => weatherPings sets gId w) contentOfWeather
      (createWeatherEmbed cfg env.embedNow w (weatherDesc info w))) sets.channelsData []

/-- The creation of the embed and the delivery loop of the merchant. -/
def merchantDeliver (cfg : Config) (sets : Settings) (env : Env) (tm : Merchant) :
    Bool × List Attempt :=
  match built (createMerchantEmbed cfg env.embedNow tm.merchantName tm.stock) with
  | none => (false, [])
  | some eb =>
    deliver env
      (attemptFor env sets .merchant (fun gId => listPings sets gId .merchant tm.stock)
        contentOfList eb)
      sets.channelsData []

/-- The attempt was sent to a guild with a resolvable channel, for a category whose
fetched payload is notifiable. -/
def Origin (cfg : Config) (sets : Settings) (env : Env) (f : Fetched) (a : Attempt) : Prop :=
  SentBy sets env a ∧ Active cfg env f a.category

/-- The payload of a category as the cycle reads it from the fetched data. -/
inductive Payload where
  | items (l : List Item)
  | weather (l : List Weather)
  | merchant (tm : Merchant)
deriving DecidableEq, Repr

/-- The payload the cycle reads for a category, `none` when the guard of its block
fails (a `null` fetch, no `weather` property, no merchant or an empty merchant stock). -/
def payloadOf (f : Fetched) : Category → Option Payload
  | .stock _ apiKey => f.stockAll.map fun sa => .items ((sa.lists apiKey).getD [])
  | .weather => (f.wd.bind (fun wd => wd.weather)).map .weather
  | .merchant => (f.stockAll.bind (fun sa => sa.travelingmerchant_stock)).bind fun tm =>
      if tm.stock.length = 0 then none else some (.merchant tm)

/-- The string compared with the snapshot of the category. -/
def Payload.stringify : Payload → String
  | .items l => stringifyItems l
  | .weather ws => stringifyWeather (ws.filter (fun w => w.active))
  | .merchant tm => stringifyMerchant tm

/-- The serialization of the fetched payload of a category. -/
def fetchedJson (f : Fetched) (cat : Category) : Option String :=
  (payloadOf f cat).map Payload.stringify

/-- No API key of `STOCK_CATEGORY` is one of the snapshot keys `weather` and `tm` used
by the weather and merchant blocks. -/
def KeysSeparate (cfg : Config) : Prop :=
  ∀ e ∈ cfg.STOCK_CATEGORY, e.2.1 ≠ "weather" ∧ e.2.1 ≠ "tm"

instance (cfg : Config) : Decidable (KeysSeparate cfg) := by
  unfold KeysSeparate
  infer_instance

/-- The snapshot key of the category is not shared with the weather or merchant block. -/
def Category.Sound : Category → Prop
  | .stock _ apiKey => apiKey ≠ "weather" ∧ apiKey ≠ "tm"
  | .weather => True
  | .merchant => True

/-- Every category compared so far has its fetched payload as snapshot. -/
def Inv (f : Fetched) (ls : Store) (vis : List Category) : Prop :=
  ∀ cat ∈ vis, cat.Sound ∧ (fetchedJson f cat).isSome = true ∧
    ls cat.stateKey = fetchedJson f cat

/-- The categories of the cycle in the order of its blocks. -/
def categories (cfg : Config) : List Category :=
  cfg.STOCK_CATEGORY.map (fun e => Category.stock e.1 e.2.1) ++ [.weather, .merchant]

/-- The category is an entry of `STOCK_CATEGORY`, the weather or the merchant. -/
def Category.Listed (cfg : Config) : Category → Prop
  | .stock key apiKey => ∃ title, (key, apiKey, title) ∈ cfg.STOCK_CATEGORY
  | .weather => True
  | .merchant => True

/-- The items of a stock or merchant payload. -/
def Payload.itemList : Payload → List Item
  | .items l => l
  | .weather _ => []
  | .merchant tm => tm.stock

/-- The categories whose block checks the expiry of the items: every stock category but
the announcements, and the merchant. -/
def Category.checksExpiry : Category → Prop
  | .stock key _ => key ≠ "announcement"
  | .weather => False
  | .merchant => True

instance (cat : Category) : Decidable cat.checksExpiry := by
  cases cat <;> unfold Category.checksExpiry <;> infer_instance

/-- The clock reading used by the block of a category. -/
def Category.now (env : Env) : Category → Nat
  | .stock _ _ => env.stockNow
  | .weather => env.weatherNow
  | .merchant => env.merchantNow

/-- The memory at the start of the `try` block. -/
def startMem (s : State) : Mem := { lastState := s.lastState, log := [], visited := [] }

/-- The destinations of a stock category in the words of the specification: the guilds of
`channelsData`, in order, whose channel field of the category holds an identifier that the
channel cache of the client knows. -/
def stockRecipients (sets : Settings) (env : Env) (key : String) :
    List (String × (String → Option String)) :=
  sets.channelsData.filter fun p =>
    match p.2 (key ++ "_channel_id") with
    | some id => env.channelCache id
    | none => false

/-- The messages of a stock category in the words of the specification: one for each of
its destinations, through the webhook stored for the guild and the key when there is
one and else to the channel, with the role mentions of the guild as content and the embed
of the category. -/
def stockMessages (sets : Settings) (env : Env) (key apiKey : String) (items : List Item)
    (embed : Embed) : List Attempt :=
  (stockRecipients sets env key).map fun p =>
    { category := .stock key apiKey
      guild := p.1
      path := match sets.webhooksData p.1 key with
        | some hook => .webhook hook
        | none => .channel ((p.2 (key ++ "_channel_id")).getD "")
      content := contentOfList (listPings sets p.1 (.stock key apiKey) items)
      embed := embed
      username := getWebhookUsername sets key }

/-- The attempts that may have raised: all of them when the block ended normally, none
but the last one otherwise. -/
def FailsLast (env : Env) (d : Bool) (new : List Attempt) : Prop :=
  AllOk env (if d then new else new.dropLast)

/-- The list begins with a character of `[a-z0-9]`. -/
def startsWithKey : List Char → Bool
  | [] => false
  | d :: _ => isKeyChar d

/-- One more character in front of the first run. -/
def consRun (c : Char) : List (List Char) → List (List Char)
  | [] => [[c]]
  | r :: rs => (c :: r) :: rs

/-- The maximal runs of characters of `[a-z0-9]` of a list, in order. -/
def keyRuns : List Char → List (List Char)
  | [] => []
  | c :: cs =>
    if isKeyChar c then
      if startsWithKey cs then consRun c (keyRuns cs) else [c] :: keyRuns cs
    else keyRuns cs

/-- Reference definition of `normalizeKey`: the maximal runs of `[a-z0-9]` characters of
the lowercased string, joined by one underscore each. -/
def normalizeRef (s : String) : String :=
  String.mk (List.intercalate ['_'] (keyRuns (toLowerCase s.data)))

/-- One underscore at the start is removed. -/
def dropLead (l : List Char) : List Char :=
  match l with
  | [] => []
  | c :: t => if c = '_' then t else c :: t

/-- One underscore at the end is removed. -/
def dropTrail (l : List Char) : List Char :=
  match l.reverse with
  | [] => l
  | c :: t => if c = '_' then t.reverse else l

/-- The runs are not empty and made of characters of `[a-z0-9]`. -/
def KeyRun (r : List Char) : Prop := r ≠ [] ∧ ∀ c ∈ r, isKeyChar c = true

/-- The path taken by a send to a guild whose channel for the category resolved to `ch`:
the webhook stored for the guild and the category when there is one, else the channel. -/
def pathFor (sets : Settings) (cat : Category) (gId ch : String) : Path :=
  match sets.webhooksData gId cat.configKey with
  | some hook => .webhook hook
  | none => .channel ch

/-- The attempt goes to a guild of `channelsData` whose channel for the category
resolves, through the path of that guild. -/
def Routed (sets : Settings) (env : Env) (a : Attempt) : Prop :=
  ∃ chs ch, (a.guild, chs) ∈ sets.channelsData ∧
    resolveChannel env (chs a.category.channelField) = some ch ∧
    a.path = pathFor sets a.category a.guild ch

/-- The content and the embed of the attempt are those its block composes from the
fetched payload of its category, the embed being built without exception. -/
def Composed (cfg : Config) (sets : Settings) (env : Env) (f : Fetched) (a : Attempt) : Prop :=
  match a.category with
  | .stock key apiKey => ∃ sa title first rest, f.stockAll = some sa ∧
      (key, apiKey, title) ∈ cfg.STOCK_CATEGORY ∧ (sa.lists apiKey).getD [] = first :: rest ∧
      a.content = contentOfList (listPings sets a.guild (.stock key apiKey) (first :: rest)) ∧
      chooseEmbed cfg env.embedNow key title first (first :: rest) = some a.embed
  | .weather => ∃ ws w info, f.wd.bind (fun wd => wd.weather) = some ws ∧ w ∈ ws ∧
      w.active = true ∧ f.infoData = some info ∧
      a.content = contentOfWeather (weatherPings sets a.guild w) ∧
      a.embed = createWeatherEmbed cfg env.embedNow w (weatherDesc info w)
  | .merchant => ∃ sa tm, f.stockAll = some sa ∧ sa.travelingmerchant_stock = some tm ∧
      a.content = contentOfList (listPings sets a.guild .merchant tm.stock) ∧
      built (createMerchantEmbed cfg env.embedNow tm.merchantName tm.stock) = some a.embed

/-- The mention list in the words of the specification: the role of the category when
one is configured, then the roles configured for the normalized display names of the
items, in payload order, without the items that have none. -/
def mentionRoles (roles : String → Option String) (categoryKey : String)
    (names : List String) : List String :=
  (truthyStr (roles categoryKey)).toList ++
    names.filterMap (fun n => truthyStr (roles (normalizeKey n)))

/-- The distinct names of a list in the order of their first occurrence. -/
def distinctFirst : List String → List String
  | [] => []
  | n :: t => n :: (distinctFirst t).filter (fun m => m ≠ n)

/-- The quantity counted for an item: `i.quantity || 1`. -/
def countedQuantity (i : Item) : Nat := numOr i.quantity 1

/-- The sum of the counted quantities of the items of a name. -/
def eggTotal (items : List Item) (n : String) : Nat :=
  ((items.filter (fun i => i.display_name = n)).map countedQuantity).sum

/-- The groups of the aggregated list in the words of the specification: one group for
each distinct display name, in the order of first occurrence, with the summed quantity. -/
def eggGroups (items : List Item) : List (String × Nat) :=
  (distinctFirst (items.map (fun i => i.display_name))).map (fun n => (n, eggTotal items n))

/-- One step of the table of sums: the quantity is added to the sum of the name, and a
new name comes last. -/
def addTotal : List (String × Nat) → String → Nat → List (String × Nat)
  | [], n, q => [(n, q)]
  | (k, v) :: t, n, q => if k = n then (k, v + q) :: t else (k, v) :: addTotal t n q

/-- The names under which an object created as `{}` finds an inherited member. -/
def inheritedNames : List String := "__proto__" :: inheritedFunctions

/-- One line of a list in the words of the specification: the name, followed by `x` and
the quantity when it is above one, after the emoji of the normalized name and a blank
when the emoji table has a non-empty entry for it. -/
def lineSpec (cfg : Config) (name : String) (q : Nat) : String :=
  let text := if q > 1 then name ++ " x" ++ toString q else name
  match truthyStr (cfg.EMOJI_MAPPING (normalizeKey name)) with
  | some emoji => emoji ++ " " ++ text
  | none => text

/-- The field `Duration` of a weather embed showing the expiry `endTs`. -/
def durationField (endTs : Nat) : String × String :=
  ("Duration", "ends <t:" ++ toString endTs ++ ":R>")

/-- The instant at which the hour of `now`, in local time, starts. -/
def startOfHour (tz now : Int) : Int := now - (now + tz * 60000) % 3600000

/-- The next occurrence of minute `m` as the specification words it: the minute applied
to the hour of `now`, with zero seconds, and one hour later when that is before `now`. -/
def nextOccurrence (tz now m : Int) : Int :=
  let c := startOfHour tz now + m * 60000
  if c < now then c + 3600000 else c

/-- The instant `t` is a whole second at or after `now` and less than an hour after it,
and its local time has minute `m`, zero seconds and zero milliseconds. -/
def InNextHour (tz now m t : Int) : Prop :=
  now ≤ t ∧ t < now + 3600000 ∧ t / 1000 * 1000 = t ∧
  minFromTime (localTime tz t) = m ∧ secFromTime (localTime tz t) = 0 ∧
  msFromTime (localTime tz t) = 0

/-- The event channel of a guild resolves. -/
def eventChannelResolves (env : EventEnv) (chs : String → Option String) : Bool :=
  match chs "current_event_channel_id" with
  | some id => env.channelCache id
  | none => false

/-- The messages of a dispatch as the specification words them: one for every
destination whose event channel resolves, in the order of the destinations, through the
event webhook of the destination when it has one and else to the channel, with the event
embed and without content. -/
def eventMessages (sets : Settings) (env : EventEnv) (curr : CurrentEvent) : List EventAttempt :=
  (sets.channelsData.filter fun e => eventChannelResolves env e.2).map fun e =>
    { guild := e.1
      path := match sets.webhooksData e.1 "currentevent" with
        | some hook => .webhook hook
        | none => .channel ((e.2 "current_event_channel_id").getD "")
      content := none
      embed := createCurrentEventEmbed env.tz env.embedClock env.stampNow curr
      username := getWebhookUsername sets "currentevent" }

/-- The commands whose handler tests the Administrator permission. -/
def administratorCommands : List String :=
  ["setup-roles", "setup-webhook", "edit-webhook", "set-bot-name", "ping-role",
    "list-items", "remove-roles"]

/-! ## Example data -/

/-- Example table of categories: seeds, gear and announcements; one emoji. -/
def exCfg : Config :=
  { STOCK_CATEGORY := [("seed", "seed_stock", "Seeds"), ("gear", "gear_stock", "Gear"),
      ("announcement", "notification", "Announcement")]
    EMOJI_MAPPING := fun k => if k = "carrot" then some "🥕" else none }

/-- Example destinations: guild `g1` has a seed channel, `g2` has no channel at all but a
seed role and a seed webhook, `g3` has a seed and a gear channel. -/
def exSets : Settings :=
  { channelsData := [
      ("g1", fun k => if k = "seed_channel_id" then some "c1" else none),
      ("g2", fun _ => none),
      ("g3", fun k => if k = "seed_channel_id" then some "c3"
        else if k = "gear_channel_id" then some "c4" else none)]
    rolesData := fun g k => if g = "g2" ∧ k = "seed" then some "r2" else none
    webhooksData := fun g k => if g = "g2" ∧ k = "seed" then some ⟨"h2", "t2"⟩ else none
    WEBHOOK_USERNAMES := fun _ => none }

/-- Example environment at time 1000: every channel resolves, no call of `send` raises. -/
def exEnv : Env :=
  { channelCache := fun _ => true
    sendFails := fun _ => false
    stockNow := 1000
    weatherNow := 1000
    merchantNow := 1000
    embedNow := 1000
    writeFails := false }

/-- Example seed list: three carrots ending at 1000 + 3600. -/
def exCarrot : List Item :=
  [{ display_name := "Carrot", quantity := some 3, end_date_unix := some 4600 }]

/-- Example answer of the stock API: the carrot seed list only. -/
def exStock : StockAll :=
  { lists := fun k => if k = "seed_stock" then some exCarrot else none
    travelingmerchant_stock := none }

/-- Example fetch: the stock API answers, the two other fetches fail. -/
def exFetch : Fetched :=
  { stockAll := some exStock
    wd := none
    infoData := none }

/-- Example start state: empty snapshot store, no cycle running. -/
def exState : State :=
  { lastState := fun _ => none, isChecking := false, saved := fun _ => none }

/-- Example environment at time 5000, after the end of the carrots. -/
def exEnvLate : Env :=
  { exEnv with stockNow := 5000, weatherNow := 5000, merchantNow := 5000, embedNow := 5000 }

/-- Example gear list that ended at 500. -/
def exGearOld : List Item :=
  [{ display_name := "Trowel", quantity := some 1, end_date_unix := some 500 }]

/-- Example fetch: the carrot list, not expired at time 1000, and the expired gear list. -/
def exFetchOld : Fetched :=
  { stockAll := some
      { lists := fun k => if k = "seed_stock" then some exCarrot
          else if k = "gear_stock" then some exGearOld else none
        travelingmerchant_stock := none }
    wd := none
    infoData := none }

/-- Example merchant whose offer ended at 500. -/
def exSky : Merchant :=
  { merchantName := "Sky"
    stock := [{ display_name := "Star", quantity := some 1, end_date_unix := some 500 }] }

/-- Example fetch: the merchant only. -/
def exFetchSky : Fetched :=
  { stockAll := some { lists := fun _ => none, travelingmerchant_stock := some exSky }
    wd := none
    infoData := none }

/-- Example destinations: guild `g1` has a merchant channel. -/
def exSetsSky : Settings :=
  { channelsData := [("g1", fun k => if k = "merchant_channel_id" then some "m1" else none)]
    rolesData := fun _ _ => none
    webhooksData := fun _ _ => none
    WEBHOOK_USERNAMES := fun _ => none }

/-- Example environment at time 400, before the end of the offer of the merchant. -/
def exEnvEarly : Env :=
  { exEnv with stockNow := 400, weatherNow := 400, merchantNow := 400, embedNow := 400 }

/-- Example table of categories with the announcements first. -/
def exCfgNote : Config :=
  { exCfg with STOCK_CATEGORY := [("announcement", "notification", "Announcement"),
      ("seed", "seed_stock", "Seeds")] }

/-- Example destinations: guild `g1` has a seed and an announcement channel, guild `g3` a
seed channel that the client does not know. -/
def exSetsNote : Settings :=
  { channelsData := [
      ("g1", fun k => if k = "seed_channel_id" then some "c1"
        else if k = "announcement_channel_id" then some "a1" else none),
      ("g2", fun _ => none),
      ("g3", fun k => if k = "seed_channel_id" then some "gone" else none)]
    rolesData := fun g k => if g = "g1" ∧ k = "seed" then some "r1" else none
    webhooksData := fun _ _ => none
    WEBHOOK_USERNAMES := fun _ => none }

/-- Example environment at time 1000 in which the channel `gone` is not in the cache of
the client; no call of `send` raises. -/
def exEnvGone : Env :=
  { exEnv with channelCache := fun id => id ≠ "gone" }

/-- Example fetch: a note without message and the carrot list. -/
def exFetchNote : Fetched :=
  { stockAll := some
      { lists := fun k => if k = "notification" then some [{ display_name := "n" }]
          else if k = "seed_stock" then some exCarrot else none
        travelingmerchant_stock := none }
    wd := none
    infoData := none }

/-- Example fetch: a note with a message and the carrot list. -/
def exFetchNoteText : Fetched :=
  { stockAll := some
      { lists := fun k =>
          if k = "notification" then some [{ display_name := "n", message := some "Hello" }]
          else if k = "seed_stock" then some exCarrot else none
        travelingmerchant_stock := none }
    wd := none
    infoData := none }

/-- Example gear list, not expired at time 1000. -/
def exGear : List Item :=
  [{ display_name := "Trowel", quantity := some 1, end_date_unix := some 4600 }]

/-- Example fetch with a changed seed list and a changed gear list. -/
def exFetchTwo : Fetched :=
  { stockAll := some
      { lists := fun k => if k = "seed_stock" then some exCarrot
          else if k = "gear_stock" then some exGear else none
        travelingmerchant_stock := none }
    wd := none
    infoData := none }

/-- Example environment in which every call of `send` for guild `g1` raises. -/
def exEnvFail : Env :=
  { exEnv with sendFails := fun a => a.guild = "g1" }

/-- Example state: the carrot list is the stored seed snapshot. -/
def exStateCarrot : State :=
  { lastState := fun k => if k = "seed_stock" then some (stringifyItems exCarrot) else none
    isChecking := false
    saved := fun _ => none }

/-- Example answer of the stock API: an empty seed list and a merchant without stock. -/
def exStockEmpty : StockAll :=
  { lists := fun k => if k = "seed_stock" then some [] else none
    travelingmerchant_stock := some { merchantName := "Sky", stock := [] } }

/-- Example fetch with the empty seed list. -/
def exFetchEmpty : Fetched :=
  { stockAll := some exStockEmpty
    wd := none
    infoData := none }

/-- Example weather: rain, active, ending at 1000 + 600. -/
def exRain : Weather :=
  { active := true, weather_name := "Rain", weather_id := "rain",
    start_duration_unix := 1000, duration := 600, end_duration_unix := some 1600 }

/-- Example fetch: the weather API answers with rain while the stock and the info API
fail. -/
def exFetchRain : Fetched :=
  { stockAll := none
    wd := some { weather := some [exRain] }
    infoData := none }

/-- Example fetch: the same weather, and the info API answers. -/
def exFetchRainInfo : Fetched :=
  { stockAll := none
    wd := some { weather := some [exRain] }
    infoData := some [{ item_id := "rain", description := some "Wet" }] }

/-- Example destinations: guild `g1` has a weather channel. -/
def exSetsWeather : Settings :=
  { channelsData := [("g1", fun k => if k = "weather_channel_id" then some "w1" else none)]
    rolesData := fun _ _ => none
    webhooksData := fun _ _ => none
    WEBHOOK_USERNAMES := fun _ => none }

/-- Example destinations: guild `g1` has a seed channel and a seed webhook, guild `g3` has
a seed channel only. -/
def exSetsHook : Settings :=
  { channelsData := [
      ("g1", fun k => if k = "seed_channel_id" then some "c1" else none),
      ("g3", fun k => if k = "seed_channel_id" then some "c3" else none)]
    rolesData := fun _ _ => none
    webhooksData := fun g k => if g = "g1" ∧ k = "seed" then some ⟨"h1", "t1"⟩ else none
    WEBHOOK_USERNAMES := fun _ => none }

/-- Example roles of the ordering scenario: `R0` for the category, `R1` for item `X`
and `R2` for item `Y`. -/
def exRolesOrder : Settings :=
  { channelsData := [("g1", fun k => if k = "seed_channel_id" then some "c1" else none)]
    rolesData := fun _ k => if k = "seed" then some "R0" else if k = "x" then some "R1"
      else if k = "y" then some "R2" else none
    webhooksData := fun _ _ => none
    WEBHOOK_USERNAMES := fun _ => none }

/-- Example payload of the ordering scenario: item `Y`, then item `X`. -/
def exItemsYX : List Item :=
  [{ display_name := "Y", end_date_unix := some 4600 },
   { display_name := "X", end_date_unix := some 4600 }]

/-- Example fetch of the ordering scenario. -/
def exFetchYX : Fetched :=
  { stockAll := some
      { lists := fun k => if k = "seed_stock" then some exItemsYX else none
        travelingmerchant_stock := none }
    wd := none
    infoData := none }

/-- Example table with the egg category. -/
def exCfgEgg : Config :=
  { STOCK_CATEGORY := [("egg", "egg_stock", "Eggs")]
    EMOJI_MAPPING := fun _ => none }

/-- Example destinations: guild `g1` has an egg channel and a role for common eggs. -/
def exSetsEgg : Settings :=
  { channelsData := [("g1", fun k => if k = "egg_channel_id" then some "c1" else none)]
    rolesData := fun _ k => if k = "common_egg" then some "RE" else none
    webhooksData := fun _ _ => none
    WEBHOOK_USERNAMES := fun _ => none }

/-- Example egg list with two items of the same name. -/
def exEggs : List Item :=
  [{ display_name := "Common Egg", quantity := some 1, end_date_unix := some 4600 },
   { display_name := "Common Egg", quantity := some 1, end_date_unix := some 4600 }]

/-- Example fetch with the egg list. -/
def exFetchEgg : Fetched :=
  { stockAll := some
      { lists := fun k => if k = "egg_stock" then some exEggs else none
        travelingmerchant_stock := none }
    wd := none
    infoData := none }

/-- Example weather with an explicit end time later than start plus duration. -/
def exStorm : Weather :=
  { active := true, weather_name := "Storm", weather_id := "storm",
    start_duration_unix := 1000, duration := 600, end_duration_unix := some 2000 }

/-- Example environment at time 1700. -/
def exEnvLater : Env :=
  { exEnv with stockNow := 1700, weatherNow := 1700, merchantNow := 1700, embedNow := 1700 }

/-- Example fetch: the storm, and the info API answers. -/
def exFetchStorm : Fetched :=
  { stockAll := none
    wd := some { weather := some [exStorm] }
    infoData := some [{ item_id := "storm", description := some "Loud" }] }

/-- Example state in which a cycle is running: the carrot snapshot in memory, nothing on
disk yet. -/
def exBusy : State :=
  { lastState := fun k => if k = "seed_stock" then some (stringifyItems exCarrot) else none
    isChecking := true
    saved := fun _ => none }

/-- Example environment in which the write of `last_state.json` fails. -/
def exEnvNoWrite : Env :=
  { exEnv with writeFails := true }

/-- Example seed list without any `end_date_unix`. -/
def exNoEnd : List Item :=
  [{ display_name := "Carrot", quantity := some 3 }, { display_name := "Corn" }]

/-- Example fetch: the seed list without end times. -/
def exFetchNoEnd : Fetched :=
  { stockAll := some
      { lists := fun k => if k = "seed_stock" then some exNoEnd else none
        travelingmerchant_stock := none }
    wd := none
    infoData := none }

/-- Example fetch: the carrot list, and the list without end times as gear list. -/
def exFetchNoEndGear : Fetched :=
  { stockAll := some
      { lists := fun k => if k = "seed_stock" then some exCarrot
          else if k = "gear_stock" then some exNoEnd else none
        travelingmerchant_stock := none }
    wd := none
    infoData := none }

/-- Example seed list with the end times 4600, none and 5000. -/
def exMixed : List Item :=
  [{ display_name := "Carrot", quantity := some 3, end_date_unix := some 4600 },
   { display_name := "Corn" },
   { display_name := "Pea", end_date_unix := some 5000 }]

/-- Example fetch: the seed list with mixed end times. -/
def exFetchMixed : Fetched :=
  { stockAll := some
      { lists := fun k => if k = "seed_stock" then some exMixed else none
        travelingmerchant_stock := none }
    wd := none
    infoData := none }

/-- Example merchant whose offer has no end time. -/
def exMoon : Merchant :=
  { merchantName := "Moon", stock := [{ display_name := "Dust" }] }

/-- Example fetch: the merchant without end time only. -/
def exFetchMoon : Fetched :=
  { stockAll := some { lists := fun _ => none, travelingmerchant_stock := some exMoon }
    wd := none
    infoData := none }

/-- Example event: it starts at minute 30 of every hour. -/
def exEvent : CurrentEvent :=
  { name := "Harvest", start := { minute := 30 } }

/-- Example reading of the event scheduler at 00:10:00.250 UTC, the host being at UTC:
the event API answers, every channel resolves, no call of `send` raises. -/
def exEventEnv : EventEnv :=
  { tz := 0
    entryClock := 600250
    current := some exEvent
    embedClock := 600300
    stampNow := 600
    computeClock := 600350
    channelCache := fun _ => true
    sendFails := fun _ => false }

/-- Example start of the scheduler: no next occurrence yet. -/
def exScheduler : Scheduler :=
  { main := exState, nextEventTs := none }

/-- Example destinations of the event: guild `g1` has an event channel, `g2` has none, `g3`
has an event channel and an event webhook. -/
def exSetsEvent : Settings :=
  { channelsData := [
      ("g1", fun k => if k = "current_event_channel_id" then some "e1" else none),
      ("g2", fun k => if k = "seed_channel_id" then some "c2" else none),
      ("g3", fun k => if k = "current_event_channel_id" then some "e3" else none)]
    rolesData := fun _ k => if k = "currentevent" then some "r9" else none
    webhooksData := fun g k => if g = "g3" ∧ k = "currentevent" then some ⟨"h3", "t3"⟩ else none
    WEBHOOK_USERNAMES := fun _ => none }

/-- Example scheduler whose next occurrence is 00:30:00. -/
def exSchedulerSet : Scheduler :=
  { main := exState, nextEventTs := some 1800 }

/-- Example reading of the event scheduler at 00:30:00.400 UTC. -/
def exEventEnvDue : EventEnv :=
  { exEventEnv with entryClock := 1800400, embedClock := 1800450, computeClock := 1800500 }

/-- Example reading in which every clock reading of the call is 00:30:00.000 UTC. -/
def exEventEnvSharp : EventEnv :=
  { exEventEnv with entryClock := 1800000, embedClock := 1800000, computeClock := 1800000 }

/-- Example reading one second later, at 00:30:01.000 UTC. -/
def exEventEnvTick : EventEnv :=
  { exEventEnv with entryClock := 1801000, embedClock := 1801000, computeClock := 1801000 }

/-- Example reading at 00:30:00.400 UTC in which the call of `send` for guild `g1`
raises. -/
def exEventEnvFail : EventEnv :=
  { exEventEnvDue with sendFails := fun a => a.guild = "g1" }

/-- Example answers of the Discord API: no role is created or removed. -/
def exRoleWork : RoleWork :=
  { afterSetup := fun sets _ => sets.rolesData
    afterRemove := fun sets _ => sets.rolesData }

/-- Example interaction: a member of guild `g2` without the Administrator permission
runs `/setseed` in channel `c9`. -/
def exMember : Interaction :=
  { commandName := "setseed", guild := some "g2", channel := "c9", administrator := false }

/-- Example interaction: the same member runs `/set-bot-name`. -/
def exMemberName : Interaction :=
  { commandName := "set-bot-name", guild := some "g2", channel := "c9", administrator := false
    optionType := "seed", optionName := "Mallory" }

/-! # Theorems -/

/-! ## The delivery loop -/

theorem attemptFor_category {env : Env} {sets : Settings} {cat : Category}
    {pings : String → List String} {content : List String → Option String} {embed : Embed}
    {gId : String} {chs : String → Option String} {a : Attempt}
    (h : attemptFor env sets cat pings content embed gId chs = some a) :
    a.category = cat ∧ a.guild = gId ∧ resolveChannel env (chs cat.channelField) ≠ none := by
  unfold attemptFor at h
  split at h
  · exact absurd h (by simp)
  · next ch hch =>
    simp only [Option.some.injEq] at h
    subst h
    simp [hch]

theorem deliver_append (env : Env) (mk : String → (String → Option String) → Option Attempt)
    (chans : List (String × (String → Option String))) (log : List Attempt) :
    deliver env mk chans log
      = ((deliver env mk chans []).1, log ++ (deliver env mk chans []).2) := by
  induction chans generalizing log with
  | nil => simp [deliver]
  | cons p rest ih =>
    obtain ⟨gId, chs⟩ := p
    simp only [deliver]
    cases hmk : mk gId chs with
    | none => simpa using ih log
    | some a =>
      by_cases hf : env.sendFails a = true
      · simp [hf]
      · simp only [hf, Bool.false_eq_true, if_false, List.nil_append]
        rw [ih (log ++ [a]), ih [a]]
        simp

theorem deliver_mem (env : Env) (mk : String → (String → Option String) → Option Attempt)
    (chans : List (String × (String → Option String))) (a : Attempt)
    (h : a ∈ (deliver env mk chans []).2) :
    ∃ gId chs, (gId, chs) ∈ chans ∧ mk gId chs = some a := by
  induction chans with
  | nil => simp [deliver] at h
  | cons p rest ih =>
    obtain ⟨gId, chs⟩ := p
    simp only [deliver] at h
    cases hmk : mk gId chs with
    | none =>
      rw [hmk] at h
      obtain ⟨g, c, hin, hm⟩ := ih h
      exact ⟨g, c, List.mem_cons_of_mem _ hin, hm⟩
    | some b =>
      rw [hmk] at h
      by_cases hf : env.sendFails b = true
      · simp only [hf, if_true, List.nil_append, List.mem_singleton] at h
        subst h
        exact ⟨gId, chs, List.mem_cons_self _ _, hmk⟩
      · simp only [hf, Bool.false_eq_true, if_false, List.nil_append] at h
        rw [deliver_append] at h
        simp only [List.mem_append, List.mem_singleton] at h
        rcases h with h | h
        · subst h
          exact ⟨gId, chs, List.mem_cons_self _ _, hmk⟩
        · obtain ⟨g, c, hin, hm⟩ := ih h
          exact ⟨g, c, List.mem_cons_of_mem _ hin, hm⟩

/-- When no call raises, the loop sends to every guild with an attempt, in order. -/
theorem deliver_allOk (env : Env) (mk : String → (String → Option String) → Option Attempt)
    (chans : List (String × (String → Option String)))
    (hok : ∀ a, env.sendFails a = false) :
    deliver env mk chans [] = (true, chans.filterMap (fun p => mk p.1 p.2)) := by
  induction chans with
  | nil => simp [deliver]
  | cons p rest ih =>
    obtain ⟨gId, chs⟩ := p
    simp only [deliver]
    cases hmk : mk gId chs with
    | none => simp [ih, List.filterMap_cons, hmk]
    | some a =>
      simp only [hok a, Bool.false_eq_true, if_false, List.nil_append]
      rw [deliver_append, ih]
      simp [List.filterMap_cons, hmk]

/-- The loop stops at the first call that raises: all earlier calls did not raise, and
the loop reports success exactly when no call raised. -/
theorem deliver_fails (env : Env) (mk : String → (String → Option String) → Option Attempt)
    (chans : List (String × (String → Option String))) :
    ((deliver env mk chans []).1 = true ∧ AllOk env (deliver env mk chans []).2) ∨
    ((deliver env mk chans []).1 = false ∧
      ∃ pre a, (deliver env mk chans []).2 = pre ++ [a] ∧ AllOk env pre ∧
        env.sendFails a = true) := by
  induction chans with
  | nil => left; simp [deliver, AllOk]
  | cons p rest ih =>
    obtain ⟨gId, chs⟩ := p
    simp only [deliver]
    cases hmk : mk gId chs with
    | none => simpa using ih
    | some b =>
      by_cases hf : env.sendFails b = true
      · right
        simp only [hf, if_true, List.nil_append]
        exact ⟨trivial, [], b, by simp, by simp [AllOk], hf⟩
      · simp only [hf, Bool.false_eq_true, if_false, List.nil_append]
        rw [deliver_append]
        have hb : env.sendFails b = false := by simpa using hf
        rcases ih with ⟨h1, h2⟩ | ⟨h1, pre, a, h2, h3, h4⟩
        · left
          refine ⟨h1, ?_⟩
          intro x hx
          simp only [List.mem_append, List.mem_singleton] at hx
          rcases hx with hx | hx
          · subst hx; exact hb
          · exact h2 x hx
        · right
          refine ⟨h1, b :: pre, a, by simp [h2], ?_, h4⟩
          intro x hx
          simp only [List.mem_cons] at hx
          rcases hx with hx | hx
          · subst hx; exact hb
          · exact h3 x hx

/-! ## Blocks and their specifications -/

theorem Spec.skip {I : Store → List Category → Prop} {R : Bool → List Attempt → Prop}
    (hR : Sequential R) : Spec I R (fun m => .done m) := by
  intro m hI
  exact ⟨hI, [], by simp [Outcome.mem], hR.nil⟩

theorem Spec.andThen {I : Store → List Category → Prop} {R : Bool → List Attempt → Prop}
    (hR : Sequential R) {b1 b2 : Mem → Outcome} (h1 : Spec I R b1) (h2 : Spec I R b2) :
    Spec I R (fun m => (b1 m).andThen b2) := by
  intro m hI
  obtain ⟨hI1, n1, hl1, hr1⟩ := h1 m hI
  show I ((b1 m).andThen b2).mem.lastState ((b1 m).andThen b2).mem.visited ∧
    ∃ new, ((b1 m).andThen b2).mem.log = m.log ++ new ∧ R ((b1 m).andThen b2).isDone new
  cases hb : b1 m with
  | threw m1 =>
    rw [hb] at hI1 hl1 hr1
    simp only [Outcome.andThen]
    exact ⟨hI1, n1, hl1, hr1⟩
  | done m1 =>
    rw [hb] at hI1 hl1 hr1
    simp only [Outcome.andThen]
    simp only [Outcome.mem] at hI1 hl1
    obtain ⟨hI2, n2, hl2, hr2⟩ := h2 m1 hI1
    refine ⟨hI2, n1 ++ n2, ?_, hR.seq _ _ _ hr1 hr2⟩
    rw [hl2, hl1, List.append_assoc]

theorem spec_stockLoop {I : Store → List Category → Prop} {R : Bool → List Attempt → Prop}
    (hR : Sequential R) (cfg : Config) (sets : Settings) (env : Env) (sa : StockAll)
    (es : List (String × String × String))
    (h : ∀ e ∈ es, Spec I R (stockStep cfg sets env sa e)) :
    Spec I R (stockLoop cfg sets env sa es) := by
  induction es with
  | nil => exact Spec.skip hR
  | cons e rest ih =>
    have h1 := h e (List.mem_cons_self _ _)
    have h2 := ih (fun x hx => h x (List.mem_cons_of_mem _ hx))
    exact Spec.andThen hR h1 h2

theorem spec_weatherLoop {I : Store → List Category → Prop} {R : Bool → List Attempt → Prop}
    (hR : Sequential R) (cfg : Config) (sets : Settings) (env : Env)
    (infoData : Option (List Info)) (ws : List Weather)
    (h : ∀ w ∈ ws, Spec I R (weatherStep cfg sets env infoData w)) :
    Spec I R (weatherLoop cfg sets env infoData ws) := by
  induction ws with
  | nil => exact Spec.skip hR
  | cons w rest ih =>
    have h1 := h w (List.mem_cons_self _ _)
    have h2 := ih (fun x hx => h x (List.mem_cons_of_mem _ hx))
    exact Spec.andThen hR h1 h2

/-- What the delivery loop does to the memory. -/
theorem deliverBlock_mem (env : Env) (sets : Settings)
    (mk : String → (String → Option String) → Option Attempt) (m : Mem) :
    (deliverBlock env sets mk m).mem.lastState = m.lastState ∧
    (deliverBlock env sets mk m).mem.visited = m.visited ∧
    (deliverBlock env sets mk m).mem.log = m.log ++ (deliver env mk sets.channelsData []).2 ∧
    (deliverBlock env sets mk m).isDone = (deliver env mk sets.channelsData []).1 := by
  unfold deliverBlock
  rw [deliver_append]
  cases h : (deliver env mk sets.channelsData []).1 <;>
    simp [Outcome.mem, Outcome.isDone]

theorem spec_deliverBlock {I : Store → List Category → Prop} {R : Bool → List Attempt → Prop}
    (env : Env) (sets : Settings) (mk : String → (String → Option String) → Option Attempt)
    (h : R (deliver env mk sets.channelsData []).1 (deliver env mk sets.channelsData []).2) :
    Spec I R (deliverBlock env sets mk) := by
  intro m hI
  obtain ⟨h1, h2, h3, h4⟩ := deliverBlock_mem env sets mk m
  rw [h1, h2, h4]
  exact ⟨hI, _, h3, h⟩

/-- Membership properties of the added attempts are kept by sequencing. -/
theorem sequential_forall (G : Attempt → Prop) : Sequential (fun _ new => ∀ a ∈ new, G a) where
  nil := by simp
  seq := by
    intro d n1 n2 h1 h2 a ha
    rcases List.mem_append.1 ha with h | h
    · exact h1 a h
    · exact h2 a h

/-! ## Rules for the blocks of the cycle -/

theorem stockDeliver_mem {cfg : Config} {sets : Settings} {env : Env}
    {e : String × String × String} {first : Item} {items : List Item} {a : Attempt}
    (ha : a ∈ (stockDeliver cfg sets env e first items).2) :
    ∃ embed, chooseEmbed cfg env.embedNow e.1 e.2.2 first items = some embed ∧
      a ∈ (deliver env (attemptFor env sets (.stock e.1 e.2.1)
        (fun gId => listPings sets gId (.stock e.1 e.2.1) items) contentOfList embed)
        sets.channelsData []).2 := by
  unfold stockDeliver at ha
  cases hemb : chooseEmbed cfg env.embedNow e.1 e.2.2 first items with
  | none =>
    rw [hemb] at ha
    cases ha
  | some embed =>
    rw [hemb] at ha
    exact ⟨embed, rfl, ha⟩

theorem merchantDeliver_mem {cfg : Config} {sets : Settings} {env : Env} {tm : Merchant}
    {a : Attempt} (ha : a ∈ (merchantDeliver cfg sets env tm).2) :
    ∃ eb, built (createMerchantEmbed cfg env.embedNow tm.merchantName tm.stock) = some eb ∧
      a ∈ (deliver env (attemptFor env sets .merchant
        (fun gId => listPings sets gId .merchant tm.stock) contentOfList eb)
        sets.channelsData []).2 := by
  unfold merchantDeliver at ha
  cases hemb : built (createMerchantEmbed cfg env.embedNow tm.merchantName tm.stock) with
  | none =>
    rw [hemb] at ha
    cases ha
  | some eb =>
    rw [hemb] at ha
    exact ⟨eb, rfl, ha⟩

/-- A property of the result of `stockDeliver` holds when it holds without embed and for
the loop with every embed that is built. -/
theorem stockDeliver_cases {cfg : Config} {sets : Settings} {env : Env}
    {e : String × String × String} {first : Item} {items : List Item}
    (P : Bool → List Attempt → Prop) (hnone : P false [])
    (hsome : ∀ embed, chooseEmbed cfg env.embedNow e.1 e.2.2 first items = some embed →
      P (deliver env (attemptFor env sets (.stock e.1 e.2.1)
          (fun gId => listPings sets gId (.stock e.1 e.2.1) items) contentOfList embed)
          sets.channelsData []).1
        (deliver env (attemptFor env sets (.stock e.1 e.2.1)
          (fun gId => listPings sets gId (.stock e.1 e.2.1) items) contentOfList embed)
          sets.channelsData []).2) :
    P (stockDeliver cfg sets env e first items).1 (stockDeliver cfg sets env e first items).2 := by
  unfold stockDeliver
  cases hemb : chooseEmbed cfg env.embedNow e.1 e.2.2 first items with
  | none => exact hnone
  | some embed => exact hsome embed hemb

theorem merchantDeliver_cases {cfg : Config} {sets : Settings} {env : Env} {tm : Merchant}
    (P : Bool → List Attempt → Prop) (hnone : P false [])
    (hsome : ∀ eb, built (createMerchantEmbed cfg env.embedNow tm.merchantName tm.stock)
        = some eb →
      P (deliver env (attemptFor env sets .merchant
          (fun gId => listPings sets gId .merchant tm.stock) contentOfList eb)
          sets.channelsData []).1
        (deliver env (attemptFor env sets .merchant
          (fun gId => listPings sets gId .merchant tm.stock) contentOfList eb)
          sets.channelsData []).2) :
    P (merchantDeliver cfg sets env tm).1 (merchantDeliver cfg sets env tm).2 := by
  unfold merchantDeliver
  cases hemb : built (createMerchantEmbed cfg env.embedNow tm.merchantName tm.stock) with
  | none => exact hnone
  | some eb => exact hsome eb hemb

theorem built_eq {e eb : Embed} (h : built e = some eb) :
    eb = e ∧ e.title ≠ "" ∧ e.description ≠ "" := by
  unfold built at h
  split at h
  · next hok =>
    injection h with h
    exact ⟨h.symm, hok.1, hok.2⟩
  · cases h

/-- Rule for one stock category: unchanged, changed but silent, changed and sent. -/
theorem spec_stockStep {I : Store → List Category → Prop} {R : Bool → List Attempt → Prop}
    (hR : Sequential R) (cfg : Config) (sets : Settings) (env : Env) (sa : StockAll)
    (e : String × String × String)
    (hsame : ∀ ls vis, I ls vis →
      ls e.2.1 = some (stringifyItems ((sa.lists e.2.1).getD [])) →
      I ls (vis ++ [.stock e.1 e.2.1]))
    (hquiet : ∀ ls vis, I ls vis →
      ls e.2.1 ≠ some (stringifyItems ((sa.lists e.2.1).getD [])) →
      ((sa.lists e.2.1).getD [] = [] ∨
        (e.1 ≠ "announcement" ∧ expiryOf ((sa.lists e.2.1).getD []) < env.stockNow)) →
      I (ls.set e.2.1 (stringifyItems ((sa.lists e.2.1).getD []))) (vis ++ [.stock e.1 e.2.1]))
    (hsend : ∀ ls vis first rest, I ls vis →
      ls e.2.1 ≠ some (stringifyItems ((sa.lists e.2.1).getD [])) →
      (sa.lists e.2.1).getD [] = first :: rest →
      (e.1 = "announcement" ∨ env.stockNow ≤ expiryOf ((sa.lists e.2.1).getD [])) →
      I (ls.set e.2.1 (stringifyItems ((sa.lists e.2.1).getD []))) (vis ++ [.stock e.1 e.2.1]) ∧
      R (stockDeliver cfg sets env e first ((sa.lists e.2.1).getD [])).1
        (stockDeliver cfg sets env e first ((sa.lists e.2.1).getD [])).2) :
    Spec I R (stockStep cfg sets env sa e) := by
  intro m hI
  unfold stockStep
  simp only []
  by_cases hsm : m.lastState e.2.1 = some (stringifyItems ((sa.lists e.2.1).getD []))
  · rw [if_pos hsm]
    exact ⟨hsame _ _ hI hsm, [], by simp [Outcome.mem], hR.nil⟩
  · rw [if_neg hsm]
    cases hitems : (sa.lists e.2.1).getD [] with
    | nil =>
      simp only []
      have := hquiet _ _ hI hsm (Or.inl hitems)
      rw [hitems] at this
      exact ⟨this, [], by simp [Outcome.mem], hR.nil⟩
    | cons first rest =>
      simp only []
      by_cases hexp : e.1 ≠ "announcement" ∧ expiryOf (first :: rest) < env.stockNow
      · rw [if_pos hexp]
        have := hquiet _ _ hI hsm (Or.inr (by rw [hitems]; exact hexp))
        rw [hitems] at this
        exact ⟨this, [], by simp [Outcome.mem], hR.nil⟩
      · rw [if_neg hexp]
        have hact : e.1 = "announcement" ∨ env.stockNow ≤ expiryOf ((sa.lists e.2.1).getD []) := by
          rw [hitems]
          by_cases hk : e.1 = "announcement"
          · exact Or.inl hk
          · right
            by_contra hlt
            exact hexp ⟨hk, Nat.lt_of_not_le hlt⟩
        obtain ⟨h1, h2⟩ := hsend _ _ first rest hI hsm hitems hact
        rw [hitems] at h1 h2
        unfold stockDeliver at h2
        cases hemb : chooseEmbed cfg env.embedNow e.1 e.2.2 first (first :: rest) with
        | none =>
          rw [hemb] at h2
          exact ⟨h1, [], by simp [Outcome.mem], h2⟩
        | some embed =>
          rw [hemb] at h2
          exact spec_deliverBlock (I := fun ls vis =>
              ls = m.lastState.set e.2.1 (stringifyItems (first :: rest)) ∧
              vis = m.visited ++ [.stock e.1 e.2.1]) env sets _ h2 _ ⟨rfl, rfl⟩
            |>.imp (fun h => by rw [h.1, h.2]; exact h1) id

/-- Rule for one weather entry: the snapshots are not touched. -/
theorem spec_weatherStep {I : Store → List Category → Prop} {R : Bool → List Attempt → Prop}
    (hR : Sequential R) (cfg : Config) (sets : Settings) (env : Env)
    (infoData : Option (List Info)) (w : Weather)
    (hthrow : env.weatherNow ≤ weatherExpiry w → infoData = none → R false [])
    (hsend : ∀ info, env.weatherNow ≤ weatherExpiry w → infoData = some info →
      R (weatherDeliver cfg sets env info w).1 (weatherDeliver cfg sets env info w).2) :
    Spec I R (weatherStep cfg sets env infoData w) := by
  intro m hI
  unfold weatherStep
  by_cases hexp : weatherExpiry w < env.weatherNow
  · rw [if_pos hexp]
    exact ⟨hI, [], by simp [Outcome.mem], hR.nil⟩
  · rw [if_neg hexp]
    have hle : env.weatherNow ≤ weatherExpiry w := Nat.le_of_not_lt hexp
    cases hinfo : infoData with
    | none =>
      simp only []
      exact ⟨hI, [], by simp [Outcome.mem], hthrow hle hinfo⟩
    | some info =>
      simp only []
      exact spec_deliverBlock env sets _ (hsend info hle hinfo) m hI

/-- Rule for the weather block. -/
theorem spec_weatherBlock {I : Store → List Category → Prop} {R : Bool → List Attempt → Prop}
    (hR : Sequential R) (cfg : Config) (sets : Settings) (env : Env) (f : Fetched)
    (hsame : ∀ ls vis ws, f.wd.bind (fun wd => wd.weather) = some ws → I ls vis →
      ls "weather" = some (stringifyWeather (ws.filter (fun w => w.active))) →
      I ls (vis ++ [.weather]))
    (hchg : ∀ ls vis ws, f.wd.bind (fun wd => wd.weather) = some ws → I ls vis →
      ls "weather" ≠ some (stringifyWeather (ws.filter (fun w => w.active))) →
      I (ls.set "weather" (stringifyWeather (ws.filter (fun w => w.active))))
        (vis ++ [.weather]) ∧
      ∀ w ∈ ws, w.active = true → env.weatherNow ≤ weatherExpiry w →
        (f.infoData = none → R false []) ∧
        (∀ info, f.infoData = some info →
          R (weatherDeliver cfg sets env info w).1 (weatherDeliver cfg sets env info w).2)) :
    Spec I R (weatherBlock cfg sets env f) := by
  intro m hI
  unfold weatherBlock
  cases hws : f.wd.bind (fun wd => wd.weather) with
  | none =>
    simp only []
    exact ⟨hI, [], by simp [Outcome.mem], hR.nil⟩
  | some ws =>
    simp only []
    by_cases hsm : m.lastState "weather" = some (stringifyWeather (ws.filter (fun w => w.active)))
    · rw [if_pos hsm]
      exact ⟨hsame _ _ ws hws hI hsm, [], by simp [Outcome.mem], hR.nil⟩
    · rw [if_neg hsm]
      obtain ⟨h1, h2⟩ := hchg _ _ ws hws hI hsm
      have hloop := spec_weatherLoop (I := fun ls vis =>
          ls = m.lastState.set "weather" (stringifyWeather (ws.filter (fun w => w.active))) ∧
          vis = m.visited ++ [.weather]) hR cfg sets env f.infoData
          (ws.filter (fun w => w.active)) (by
            intro w hw
            rw [List.mem_filter] at hw
            exact spec_weatherStep hR cfg sets env f.infoData w
              (fun hle hn => (h2 w hw.1 hw.2 hle).1 hn)
              (fun info hle hs => (h2 w hw.1 hw.2 hle).2 info hs))
      exact (hloop _ ⟨rfl, rfl⟩).imp (fun h => by rw [h.1, h.2]; exact h1) id

/-- Rule for the merchant block. -/
theorem spec_merchantBlock {I : Store → List Category → Prop} {R : Bool → List Attempt → Prop}
    (hR : Sequential R) (cfg : Config) (sets : Settings) (env : Env) (f : Fetched)
    (hsame : ∀ ls vis sa tm, f.stockAll = some sa → sa.travelingmerchant_stock = some tm →
      tm.stock ≠ [] → I ls vis → ls "tm" = some (stringifyMerchant tm) →
      I ls (vis ++ [.merchant]))
    (hquiet : ∀ ls vis sa tm, f.stockAll = some sa → sa.travelingmerchant_stock = some tm →
      tm.stock ≠ [] → I ls vis → ls "tm" ≠ some (stringifyMerchant tm) →
      expiryOf tm.stock < env.merchantNow →
      I (ls.set "tm" (stringifyMerchant tm)) (vis ++ [.merchant]))
    (hsend : ∀ ls vis sa tm, f.stockAll = some sa → sa.travelingmerchant_stock = some tm →
      tm.stock ≠ [] → I ls vis → ls "tm" ≠ some (stringifyMerchant tm) →
      env.merchantNow ≤ expiryOf tm.stock →
      I (ls.set "tm" (stringifyMerchant tm)) (vis ++ [.merchant]) ∧
      R (merchantDeliver cfg sets env tm).1 (merchantDeliver cfg sets env tm).2) :
    Spec I R (merchantBlock cfg sets env f) := by
  intro m hI
  unfold merchantBlock
  cases hsa : f.stockAll with
  | none =>
    simp only [Option.bind]
    exact ⟨hI, [], by simp [Outcome.mem], hR.nil⟩
  | some sa =>
    cases htm : sa.travelingmerchant_stock with
    | none =>
      simp only [Option.bind, htm]
      exact ⟨hI, [], by simp [Outcome.mem], hR.nil⟩
    | some tm =>
      simp only [Option.bind, htm]
      by_cases hlen : tm.stock.length = 0
      · rw [if_pos hlen]
        exact ⟨hI, [], by simp [Outcome.mem], hR.nil⟩
      · rw [if_neg hlen]
        have hne : tm.stock ≠ [] := fun h => hlen (by rw [h]; rfl)
        by_cases hsm : m.lastState "tm" = some (stringifyMerchant tm)
        · rw [if_pos hsm]
          exact ⟨hsame _ _ sa tm hsa htm hne hI hsm, [], by simp [Outcome.mem], hR.nil⟩
        · rw [if_neg hsm]
          by_cases hact : expiryOf tm.stock ≥ env.merchantNow
          · rw [if_pos hact]
            obtain ⟨h1, h2⟩ := hsend _ _ sa tm hsa htm hne hI hsm hact
            unfold merchantDeliver at h2
            cases hemb : built (createMerchantEmbed cfg env.embedNow tm.merchantName tm.stock) with
            | none =>
              rw [hemb] at h2
              exact ⟨h1, [], by simp [Outcome.mem], h2⟩
            | some eb =>
              rw [hemb] at h2
              exact spec_deliverBlock (I := fun ls vis =>
                  ls = m.lastState.set "tm" (stringifyMerchant tm) ∧
                  vis = m.visited ++ [.merchant]) env sets _ h2 _ ⟨rfl, rfl⟩
                |>.imp (fun h => by rw [h.1, h.2]; exact h1) id
          · rw [if_neg hact]
            exact ⟨hquiet _ _ sa tm hsa htm hne hI hsm (Nat.lt_of_not_le hact), [],
              by simp [Outcome.mem], hR.nil⟩

/-- Rule for the stock block. -/
theorem spec_stockBlock {I : Store → List Category → Prop} {R : Bool → List Attempt → Prop}
    (hR : Sequential R) (cfg : Config) (sets : Settings) (env : Env) (f : Fetched)
    (h : ∀ sa, f.stockAll = some sa → ∀ e ∈ cfg.STOCK_CATEGORY,
      Spec I R (stockStep cfg sets env sa e)) :
    Spec I R (stockBlock cfg sets env f) := by
  intro m hI
  unfold stockBlock
  cases hsa : f.stockAll with
  | none =>
    simp only []
    exact ⟨hI, [], by simp [Outcome.mem], hR.nil⟩
  | some sa =>
    simp only []
    exact spec_stockLoop hR cfg sets env sa _ (h sa hsa) m hI

/-- Rule for the statements of the `try` block. -/
theorem spec_tryBlock {I : Store → List Category → Prop} {R : Bool → List Attempt → Prop}
    (hR : Sequential R) (cfg : Config) (sets : Settings) (env : Env) (f : Fetched)
    (h1 : Spec I R (stockBlock cfg sets env f)) (h2 : Spec I R (weatherBlock cfg sets env f))
    (h3 : Spec I R (merchantBlock cfg sets env f)) :
    Spec I R (tryBlock cfg sets env f) :=
  Spec.andThen hR (Spec.andThen hR h1 h2) h3

/-! ## From the `try` block to `checkAll` -/

theorem saveAll_lastState (env : Env) (s : State) : (saveAll env s).lastState = s.lastState := by
  unfold saveAll
  split <;> rfl

theorem checkAll_busy (cfg : Config) (sets : Settings) (env : Env) (f : Fetched) (s : State)
    (h : s.isChecking = true) :
    checkAll cfg sets env f s
      = { st := s, log := [], visited := [], fetched := false, caught := false } := by
  unfold checkAll
  rw [if_pos h]

/-- A specification of the `try` block is a specification of a cycle started when idle. -/
theorem checkAll_spec {I : Store → List Category → Prop} {R : Bool → List Attempt → Prop}
    {cfg : Config} {sets : Settings} {env : Env} {f : Fetched}
    (h : Spec I R (tryBlock cfg sets env f)) (s : State) (hs : s.isChecking = false)
    (hI : I s.lastState []) :
    I (checkAll cfg sets env f s).st.lastState (checkAll cfg sets env f s).visited ∧
    R (!(checkAll cfg sets env f s).caught) (checkAll cfg sets env f s).log := by
  obtain ⟨h1, new, h2, h3⟩ := h { lastState := s.lastState, log := [], visited := [] } hI
  unfold checkAll
  rw [if_neg (by simp [hs])]
  cases ht : tryBlock cfg sets env f { lastState := s.lastState, log := [], visited := [] } with
  | done m =>
    rw [ht] at h1 h2 h3
    simp only [Outcome.mem, List.nil_append] at h1 h2
    simp only [saveAll_lastState, Bool.not_false]
    rw [h2]
    exact ⟨h1, h3⟩
  | threw m =>
    rw [ht] at h1 h2 h3
    simp only [Outcome.mem, List.nil_append] at h1 h2
    simp only [Bool.not_true]
    rw [h2]
    exact ⟨h1, h3⟩

/-- The results of a cycle started when idle are those of its `try` block. -/
theorem checkAll_idle (cfg : Config) (sets : Settings) (env : Env) (f : Fetched) (s : State)
    (hs : s.isChecking = false) :
    (checkAll cfg sets env f s).log = (tryBlock cfg sets env f (startMem s)).mem.log ∧
    (checkAll cfg sets env f s).st.lastState
      = (tryBlock cfg sets env f (startMem s)).mem.lastState ∧
    (checkAll cfg sets env f s).visited = (tryBlock cfg sets env f (startMem s)).mem.visited ∧
    (checkAll cfg sets env f s).caught = !(tryBlock cfg sets env f (startMem s)).isDone ∧
    (checkAll cfg sets env f s).st.isChecking = false := by
  unfold checkAll startMem
  rw [if_neg (by simp [hs])]
  cases tryBlock cfg sets env f { lastState := s.lastState, log := [], visited := [] } with
  | done m => simp [Outcome.mem, Outcome.isDone, saveAll_lastState]
  | threw m => simp [Outcome.mem, Outcome.isDone]

/-! ## Where an attempt comes from -/

theorem deliver_sentBy {env : Env} {sets : Settings} {cat : Category}
    {pings : String → List String} {content : List String → Option String} {embed : Embed}
    {a : Attempt}
    (h : a ∈ (deliver env (attemptFor env sets cat pings content embed) sets.channelsData []).2) :
    a.category = cat ∧ SentBy sets env a := by
  obtain ⟨gId, chs, hin, hmk⟩ := deliver_mem env _ _ a h
  obtain ⟨h1, h2, h3⟩ := attemptFor_category hmk
  refine ⟨h1, chs, ?_, ?_⟩
  · rw [h2]; exact hin
  · rw [h1]; exact h3

theorem stockDeliver_sentBy {cfg : Config} {sets : Settings} {env : Env}
    {e : String × String × String} {first : Item} {items : List Item} {a : Attempt}
    (h : a ∈ (stockDeliver cfg sets env e first items).2) :
    a.category = .stock e.1 e.2.1 ∧ SentBy sets env a := by
  obtain ⟨embed, -, ha⟩ := stockDeliver_mem h
  exact deliver_sentBy ha

theorem merchantDeliver_sentBy {cfg : Config} {sets : Settings} {env : Env} {tm : Merchant}
    {a : Attempt} (h : a ∈ (merchantDeliver cfg sets env tm).2) :
    a.category = .merchant ∧ SentBy sets env a := by
  obtain ⟨eb, -, ha⟩ := merchantDeliver_mem h
  exact deliver_sentBy ha

theorem tryBlock_origin (cfg : Config) (sets : Settings) (env : Env) (f : Fetched) :
    Spec (fun _ _ => True) (fun _ new => ∀ a ∈ new, Origin cfg sets env f a)
      (tryBlock cfg sets env f) := by
  have hR := sequential_forall (Origin cfg sets env f)
  apply spec_tryBlock hR
  · apply spec_stockBlock hR
    intro sa hsa e he
    apply spec_stockStep hR
    · intros; trivial
    · intros; trivial
    · intro ls vis first rest _ _ hitems hact
      refine ⟨trivial, ?_⟩
      intro a ha
      obtain ⟨hc, hs⟩ := stockDeliver_sentBy ha
      refine ⟨hs, ?_⟩
      rw [hc]
      exact ⟨sa, e.2.2, hsa, he, by rw [hitems]; simp, hact⟩
  · apply spec_weatherBlock hR
    · intros; trivial
    · intro ls vis ws hws _ _
      refine ⟨trivial, ?_⟩
      intro w hw hactive hle
      refine ⟨fun _ => by simp, ?_⟩
      intro info hinfo a ha
      obtain ⟨hc, hs⟩ := deliver_sentBy ha
      refine ⟨hs, ?_⟩
      rw [hc]
      exact ⟨ws, w, hws, by simp [hinfo], hw, hactive, hle⟩
  · apply spec_merchantBlock hR
    · intros; trivial
    · intros; trivial
    · intro ls vis sa tm hsa htm hne _ _ hle
      refine ⟨trivial, ?_⟩
      intro a ha
      obtain ⟨hc, hs⟩ := merchantDeliver_sentBy ha
      refine ⟨hs, ?_⟩
      rw [hc]
      exact ⟨sa, tm, hsa, htm, hne, hle⟩

/-- Every call of `send` made by a cycle has an origin. -/
theorem checkAll_origin (cfg : Config) (sets : Settings) (env : Env) (f : Fetched) (s : State)
    (a : Attempt) (h : a ∈ (checkAll cfg sets env f s).log) : Origin cfg sets env f a := by
  by_cases hs : s.isChecking = true
  · rw [checkAll_busy _ _ _ _ _ hs] at h
    simp at h
  · exact (checkAll_spec (tryBlock_origin cfg sets env f) s (by simpa using hs) trivial).2 a h

/-! ## The snapshot of a compared category -/

theorem Store.set_same (s : Store) (k v : String) : s.set k v k = some v := by
  simp [Store.set]

theorem Store.set_other (s : Store) (k v x : String) (h : x ≠ k) : s.set k v x = s x := by
  simp [Store.set, h]

theorem fetchedJson_stock {f : Fetched} {sa : StockAll} (h : f.stockAll = some sa)
    (key apiKey : String) :
    fetchedJson f (.stock key apiKey) = some (stringifyItems ((sa.lists apiKey).getD [])) := by
  simp [fetchedJson, payloadOf, h, Payload.stringify]

theorem fetchedJson_weather {f : Fetched} {ws : List Weather}
    (h : f.wd.bind (fun wd => wd.weather) = some ws) :
    fetchedJson f .weather = some (stringifyWeather (ws.filter (fun w => w.active))) := by
  simp only [fetchedJson, payloadOf, h]
  rfl

theorem fetchedJson_merchant {f : Fetched} {sa : StockAll} {tm : Merchant}
    (h : f.stockAll = some sa) (htm : sa.travelingmerchant_stock = some tm)
    (hne : tm.stock ≠ []) :
    fetchedJson f .merchant = some (stringifyMerchant tm) := by
  have : tm.stock.length ≠ 0 := fun h0 => hne (List.length_eq_zero.1 h0)
  simp only [fetchedJson, payloadOf, h, htm, Option.bind, if_neg this]
  rfl

/-- Writing the fetched serialization of a sound category keeps `Inv`, also after the
category is added to the trace. -/
theorem Inv.set {f : Fetched} {ls : Store} {vis : List Category} (h : Inv f ls vis)
    (cat : Category) (hs : cat.Sound) (j : String) (hj : fetchedJson f cat = some j) :
    Inv f (ls.set cat.stateKey j) (vis ++ [cat]) := by
  intro c hc
  have key : ∀ c : Category, c.Sound → (fetchedJson f c).isSome = true →
      (c.stateKey ≠ cat.stateKey → ls c.stateKey = fetchedJson f c) →
      (ls.set cat.stateKey j) c.stateKey = fetchedJson f c := by
    intro c hcs hcj hother
    by_cases hk : c.stateKey = cat.stateKey
    · rw [hk, Store.set_same, ← hj]
      cases c <;> cases cat <;>
        simp_all [Category.stateKey, Category.Sound, fetchedJson, payloadOf]
    · rw [Store.set_other _ _ _ _ hk]
      exact hother hk
  rcases List.mem_append.1 hc with hc | hc
  · obtain ⟨h1, h2, h3⟩ := h c hc
    exact ⟨h1, h2, key c h1 h2 (fun _ => h3)⟩
  · rw [List.mem_singleton] at hc
    subst hc
    refine ⟨hs, by simp [hj], ?_⟩
    rw [Store.set_same, hj]

/-- Finding the fetched serialization already stored keeps `Inv`. -/
theorem Inv.same {f : Fetched} {ls : Store} {vis : List Category} (h : Inv f ls vis)
    (cat : Category) (hs : cat.Sound) (j : String) (hj : fetchedJson f cat = some j)
    (hls : ls cat.stateKey = some j) :
    Inv f ls (vis ++ [cat]) := by
  intro c hc
  rcases List.mem_append.1 hc with hc | hc
  · exact h c hc
  · rw [List.mem_singleton] at hc
    subst hc
    exact ⟨hs, by simp [hj], by rw [hls, hj]⟩

theorem tryBlock_inv (cfg : Config) (sets : Settings) (env : Env) (f : Fetched)
    (hsep : KeysSeparate cfg) :
    Spec (Inv f) (fun _ _ => True) (tryBlock cfg sets env f) := by
  have hR : Sequential (fun (_ : Bool) (_ : List Attempt) => True) := ⟨trivial, fun _ _ _ _ _ => trivial⟩
  apply spec_tryBlock hR
  · apply spec_stockBlock hR
    intro sa hsa e he
    have hs : (Category.stock e.1 e.2.1).Sound := hsep e he
    have hj := fetchedJson_stock hsa e.1 e.2.1
    apply spec_stockStep hR
    · intro ls vis hI hsm
      exact hI.same _ hs _ hj hsm
    · intro ls vis hI _ _
      exact hI.set _ hs _ hj
    · intro ls vis first rest hI _ _ _
      exact ⟨hI.set _ hs _ hj, trivial⟩
  · apply spec_weatherBlock hR
    · intro ls vis ws hws hI hsm
      exact hI.same .weather trivial _ (fetchedJson_weather hws) hsm
    · intro ls vis ws hws hI _
      exact ⟨hI.set .weather trivial _ (fetchedJson_weather hws), fun _ _ _ _ =>
        ⟨fun _ => trivial, fun _ _ => trivial⟩⟩
  · apply spec_merchantBlock hR
    · intro ls vis sa tm hsa htm hne hI hsm
      exact hI.same .merchant trivial _ (fetchedJson_merchant hsa htm hne) hsm
    · intro ls vis sa tm hsa htm hne hI _ _
      exact hI.set .merchant trivial _ (fetchedJson_merchant hsa htm hne)
    · intro ls vis sa tm hsa htm hne hI _ _
      exact ⟨hI.set .merchant trivial _ (fetchedJson_merchant hsa htm hne), trivial⟩

/-- After a cycle, every category it compared has its fetched payload as snapshot. -/
theorem checkAll_inv (cfg : Config) (sets : Settings) (env : Env) (f : Fetched) (s : State)
    (hsep : KeysSeparate cfg) :
    Inv f (checkAll cfg sets env f s).st.lastState (checkAll cfg sets env f s).visited := by
  by_cases hs : s.isChecking = true
  · rw [checkAll_busy _ _ _ _ _ hs]
    intro c hc
    simp at hc
  · exact (checkAll_spec (tryBlock_inv cfg sets env f hsep) s (by simpa using hs)
      (by intro c hc; simp at hc)).1

/-! ## An unchanged category is silent -/

/-- A category whose snapshot key is the API key of a stock entry outside the reserved
keys has the serialization of that entry. -/
theorem fetchedJson_of_stateKey {f : Fetched} {sa : StockAll} (hsa : f.stockAll = some sa)
    {cat : Category} {apiKey : String} (hk : cat.stateKey = apiKey)
    (h1 : apiKey ≠ "weather") (h2 : apiKey ≠ "tm") :
    fetchedJson f cat = some (stringifyItems ((sa.lists apiKey).getD [])) := by
  cases cat with
  | stock k a =>
    simp only [Category.stateKey] at hk
    subst hk
    exact fetchedJson_stock hsa k a
  | weather => exact absurd hk.symm h1
  | merchant => exact absurd hk.symm h2

theorem stockStep_unchanged (cfg : Config) (sets : Settings) (env : Env) (f : Fetched)
    (sa : StockAll) (hsa : f.stockAll = some sa) (e : String × String × String)
    (he1 : e.2.1 ≠ "weather") (he2 : e.2.1 ≠ "tm") (cat : Category) (j : String)
    (hj : fetchedJson f cat = some j) :
    Spec (fun ls _ => ls cat.stateKey = some j) (fun _ new => ∀ a ∈ new, a.category ≠ cat)
      (stockStep cfg sets env sa e) := by
  have hR := sequential_forall (fun a => a.category ≠ cat)
  have hclash : ∀ ls : Store, ls cat.stateKey = some j →
      ls e.2.1 ≠ some (stringifyItems ((sa.lists e.2.1).getD [])) →
      cat.stateKey ≠ e.2.1 := by
    intro ls hI hne hk
    have := fetchedJson_of_stateKey hsa hk he1 he2
    rw [hj] at this
    rw [hk, this] at hI
    exact hne hI
  apply spec_stockStep hR
  · intro ls vis hI _
    exact hI
  · intro ls vis hI hne _
    show (ls.set _ _) cat.stateKey = some j
    rw [Store.set_other _ _ _ _ (hclash ls hI hne)]
    exact hI
  · intro ls vis first rest hI hne _ _
    refine ⟨?_, ?_⟩
    · show (ls.set _ _) cat.stateKey = some j
      rw [Store.set_other _ _ _ _ (hclash ls hI hne)]
      exact hI
    · intro a ha hcat
      obtain ⟨hc, -⟩ := stockDeliver_sentBy ha
      apply hclash ls hI hne
      rw [← hcat, hc]
      rfl

theorem weatherBlock_unchanged (cfg : Config) (sets : Settings) (env : Env) (f : Fetched)
    (cat : Category) (hs : cat.Sound) (j : String) (hj : fetchedJson f cat = some j) :
    Spec (fun ls _ => ls cat.stateKey = some j) (fun _ new => ∀ a ∈ new, a.category ≠ cat)
      (weatherBlock cfg sets env f) := by
  have hR := sequential_forall (fun a => a.category ≠ cat)
  apply spec_weatherBlock hR
  · intro ls vis ws _ hI _
    exact hI
  · intro ls vis ws hws hI hne
    have hk : cat.stateKey ≠ "weather" := by
      intro hk
      cases cat with
      | stock k a => exact hs.1 hk
      | weather =>
        rw [fetchedJson_weather hws] at hj
        rw [← hj] at hI
        exact hne hI
      | merchant => simp [Category.stateKey] at hk
    refine ⟨?_, ?_⟩
    · show (ls.set _ _) cat.stateKey = some j
      rw [Store.set_other _ _ _ _ hk]
      exact hI
    · intro w _ _ _
      refine ⟨fun _ => by simp, ?_⟩
      intro info _ a ha hcat
      obtain ⟨hc, -⟩ := deliver_sentBy ha
      apply hk
      rw [← hcat, hc]
      rfl

theorem merchantBlock_unchanged (cfg : Config) (sets : Settings) (env : Env) (f : Fetched)
    (cat : Category) (hs : cat.Sound) (j : String) (hj : fetchedJson f cat = some j) :
    Spec (fun ls _ => ls cat.stateKey = some j) (fun _ new => ∀ a ∈ new, a.category ≠ cat)
      (merchantBlock cfg sets env f) := by
  have hR := sequential_forall (fun a => a.category ≠ cat)
  have hk : ∀ (ls : Store) (sa : StockAll) (tm : Merchant), f.stockAll = some sa →
      sa.travelingmerchant_stock = some tm → tm.stock ≠ [] → ls cat.stateKey = some j →
      ls "tm" ≠ some (stringifyMerchant tm) → cat.stateKey ≠ "tm" := by
    intro ls sa tm hsa htm hne hI hdiff hk
    cases cat with
    | stock k a => exact hs.2 hk
    | weather => simp [Category.stateKey] at hk
    | merchant =>
      rw [fetchedJson_merchant hsa htm hne] at hj
      rw [← hj] at hI
      exact hdiff hI
  apply spec_merchantBlock hR
  · intro ls vis sa tm _ _ _ hI _
    exact hI
  · intro ls vis sa tm hsa htm hne hI hdiff _
    show (ls.set _ _) cat.stateKey = some j
    rw [Store.set_other _ _ _ _ (hk ls sa tm hsa htm hne hI hdiff)]
    exact hI
  · intro ls vis sa tm hsa htm hne hI hdiff _
    refine ⟨?_, ?_⟩
    · show (ls.set _ _) cat.stateKey = some j
      rw [Store.set_other _ _ _ _ (hk ls sa tm hsa htm hne hI hdiff)]
      exact hI
    · intro a ha hcat
      obtain ⟨hc, -⟩ := merchantDeliver_sentBy ha
      apply hk ls sa tm hsa htm hne hI hdiff
      rw [← hcat, hc]
      rfl

theorem tryBlock_unchanged (cfg : Config) (sets : Settings) (env : Env) (f : Fetched)
    (hsep : KeysSeparate cfg) (cat : Category) (hs : cat.Sound) (j : String)
    (hj : fetchedJson f cat = some j) :
    Spec (fun ls _ => ls cat.stateKey = some j) (fun _ new => ∀ a ∈ new, a.category ≠ cat)
      (tryBlock cfg sets env f) := by
  have hR := sequential_forall (fun a => a.category ≠ cat)
  apply spec_tryBlock hR
  · apply spec_stockBlock hR
    intro sa hsa e he
    exact stockStep_unchanged cfg sets env f sa hsa e (hsep e he).1 (hsep e he).2 cat j hj
  · exact weatherBlock_unchanged cfg sets env f cat hs j hj
  · exact merchantBlock_unchanged cfg sets env f cat hs j hj

/-- A cycle sends nothing for a category whose snapshot is its fetched serialization. -/
theorem checkAll_unchanged (cfg : Config) (sets : Settings) (env : Env) (f : Fetched)
    (s : State) (hsep : KeysSeparate cfg) (cat : Category) (hs : cat.Sound) (j : String)
    (hj : fetchedJson f cat = some j) (hls : s.lastState cat.stateKey = some j) :
    ∀ a ∈ (checkAll cfg sets env f s).log, a.category ≠ cat := by
  by_cases hb : s.isChecking = true
  · rw [checkAll_busy _ _ _ _ _ hb]
    intro a ha
    simp at ha
  · exact (checkAll_spec (tryBlock_unchanged cfg sets env f hsep cat hs j hj) s
      (by simpa using hb) hls).2

/-! ## The categories compared by a completed cycle -/

theorem stockStep_visited (cfg : Config) (sets : Settings) (env : Env) (sa : StockAll)
    (e : String × String × String) (m : Mem) :
    (stockStep cfg sets env sa e m).mem.visited = m.visited ++ [.stock e.1 e.2.1] := by
  unfold stockStep
  simp only []
  split
  · rfl
  · split
    · rfl
    · split
      · rfl
      · split
        · rfl
        · rw [(deliverBlock_mem env sets _ _).2.1]

theorem stockLoop_visited (cfg : Config) (sets : Settings) (env : Env) (sa : StockAll)
    (es : List (String × String × String)) (m m1 : Mem)
    (h : stockLoop cfg sets env sa es m = .done m1) :
    m1.visited = m.visited ++ es.map (fun e => Category.stock e.1 e.2.1) := by
  induction es generalizing m with
  | nil =>
    simp only [stockLoop, Outcome.done.injEq] at h
    subst h
    simp
  | cons e rest ih =>
    simp only [stockLoop] at h
    have hv := stockStep_visited cfg sets env sa e m
    cases hs : stockStep cfg sets env sa e m with
    | threw m2 => rw [hs] at h; simp [Outcome.andThen] at h
    | done m2 =>
      rw [hs] at h hv
      simp only [Outcome.andThen] at h
      simp only [Outcome.mem] at hv
      rw [ih m2 h, hv]
      simp

theorem weatherLoop_visited (cfg : Config) (sets : Settings) (env : Env)
    (infoData : Option (List Info)) (ws : List Weather) (m : Mem) :
    (weatherLoop cfg sets env infoData ws m).mem.visited = m.visited := by
  induction ws generalizing m with
  | nil => rfl
  | cons w rest ih =>
    simp only [weatherLoop]
    have hstep : (weatherStep cfg sets env infoData w m).mem.visited = m.visited := by
      unfold weatherStep
      split
      · rfl
      · split
        · rfl
        · rw [(deliverBlock_mem env sets _ _).2.1]
    cases hs : weatherStep cfg sets env infoData w m with
    | threw m2 => rw [hs] at hstep; exact hstep
    | done m2 =>
      rw [hs] at hstep
      simp only [Outcome.andThen]
      rw [ih m2]
      exact hstep

theorem weatherBlock_visited (cfg : Config) (sets : Settings) (env : Env) (f : Fetched)
    (m : Mem) :
    (weatherBlock cfg sets env f m).mem.visited
      = m.visited ++ [Category.weather].filter (fun c => (payloadOf f c).isSome) := by
  unfold weatherBlock
  cases hws : f.wd.bind (fun wd => wd.weather) with
  | none => simp [payloadOf, hws, Outcome.mem]
  | some ws =>
    simp only []
    split
    · simp [payloadOf, hws, Outcome.mem]
    · rw [weatherLoop_visited]
      simp [payloadOf, hws]

theorem merchantBlock_visited (cfg : Config) (sets : Settings) (env : Env) (f : Fetched)
    (m : Mem) :
    (merchantBlock cfg sets env f m).mem.visited
      = m.visited ++ [Category.merchant].filter (fun c => (payloadOf f c).isSome) := by
  unfold merchantBlock
  cases htm : f.stockAll.bind (fun sa => sa.travelingmerchant_stock) with
  | none => simp [payloadOf, htm, Outcome.mem]
  | some tm =>
    simp only []
    by_cases hlen : tm.stock.length = 0
    · simp [payloadOf, htm, List.length_eq_zero.1 hlen, Outcome.mem]
    · rw [if_neg hlen]
      have hne : tm.stock ≠ [] := fun h0 => hlen (by rw [h0]; rfl)
      have hp : (payloadOf f .merchant).isSome = true := by simp [payloadOf, htm, hne]
      split
      · simp [hp, Outcome.mem]
      · split
        · split
          · simp [hp, Outcome.mem]
          · rw [(deliverBlock_mem env sets _ _).2.1]
            simp [hp]
        · simp [hp, Outcome.mem]

/-- A cycle that starts when idle and ends without an exception compares, in order,
exactly the categories whose payload was fetched. -/
theorem checkAll_visited_of_completed (cfg : Config) (sets : Settings) (env : Env)
    (f : Fetched) (s : State) (hidle : s.isChecking = false)
    (hdone : (checkAll cfg sets env f s).caught = false) :
    (checkAll cfg sets env f s).visited
      = (categories cfg).filter (fun c => (payloadOf f c).isSome) := by
  obtain ⟨-, -, hvis, hcaught, -⟩ := checkAll_idle cfg sets env f s hidle
  rw [hdone] at hcaught
  rw [hvis]
  unfold tryBlock at hcaught ⊢
  cases h1 : stockBlock cfg sets env f (startMem s) with
  | threw m1 => rw [h1] at hcaught; simp [Outcome.andThen, Outcome.isDone] at hcaught
  | done m1 =>
    rw [h1] at hcaught
    simp only [Outcome.andThen] at hcaught ⊢
    have hv2 := weatherBlock_visited cfg sets env f m1
    cases h2 : weatherBlock cfg sets env f m1 with
    | threw m2 => rw [h2] at hcaught; simp [Outcome.isDone] at hcaught
    | done m2 =>
      rw [h2] at hv2
      simp only [Outcome.mem] at hv2
      rw [merchantBlock_visited, hv2]
      have hv1 : m1.visited = (cfg.STOCK_CATEGORY.map (fun e => Category.stock e.1 e.2.1)).filter
          (fun c => (payloadOf f c).isSome) := by
        unfold stockBlock at h1
        cases hsa : f.stockAll with
        | none =>
          rw [hsa] at h1
          simp only [Outcome.done.injEq] at h1
          subst h1
          symm
          simp only [startMem]
          rw [List.filter_eq_nil_iff]
          intro c hc
          rw [List.mem_map] at hc
          obtain ⟨e, -, rfl⟩ := hc
          simp [payloadOf, hsa]
        | some sa =>
          rw [hsa] at h1
          rw [stockLoop_visited cfg sets env sa _ _ _ h1]
          simp only [startMem, List.nil_append]
          symm
          rw [List.filter_eq_self]
          intro c hc
          rw [List.mem_map] at hc
          obtain ⟨e, -, rfl⟩ := hc
          simp [payloadOf, hsa]
      rw [hv1, categories, List.filter_append]
      simp only [List.filter_cons, List.filter_nil, List.append_assoc]
      split <;> simp

/-! ## What a cycle compares and what it leaves alone -/

theorem tryBlock_frame (cfg : Config) (sets : Settings) (env : Env) (f : Fetched)
    (s0 : Store) :
    Spec (fun ls vis => ∀ k, (∀ cat ∈ vis, cat.stateKey ≠ k) → ls k = s0 k) (fun _ _ => True)
      (tryBlock cfg sets env f) := by
  have hR : Sequential (fun (_ : Bool) (_ : List Attempt) => True) :=
    ⟨trivial, fun _ _ _ _ _ => trivial⟩
  have hgrow : ∀ (ls : Store) (vis : List Category) (cat : Category),
      (∀ k, (∀ c ∈ vis, c.stateKey ≠ k) → ls k = s0 k) →
      ∀ k, (∀ c ∈ vis ++ [cat], c.stateKey ≠ k) → ls k = s0 k := by
    intro ls vis cat hI k hk
    exact hI k (fun c hc => hk c (List.mem_append_left _ hc))
  have hset : ∀ (ls : Store) (vis : List Category) (cat : Category) (j : String),
      (∀ k, (∀ c ∈ vis, c.stateKey ≠ k) → ls k = s0 k) →
      ∀ k, (∀ c ∈ vis ++ [cat], c.stateKey ≠ k) → (ls.set cat.stateKey j) k = s0 k := by
    intro ls vis cat j hI k hk
    have hne : k ≠ cat.stateKey := fun h => hk cat (by simp) h.symm
    rw [Store.set_other _ _ _ _ hne]
    exact hgrow ls vis cat hI k hk
  apply spec_tryBlock hR
  · apply spec_stockBlock hR
    intro sa _ e _
    apply spec_stockStep hR
    · intro ls vis hI _
      exact hgrow ls vis _ hI
    · intro ls vis hI _ _
      exact hset ls vis (.stock e.1 e.2.1) _ hI
    · intro ls vis first rest hI _ _ _
      exact ⟨hset ls vis (.stock e.1 e.2.1) _ hI, trivial⟩
  · apply spec_weatherBlock hR
    · intro ls vis ws _ hI _
      exact hgrow ls vis _ hI
    · intro ls vis ws _ hI _
      exact ⟨hset ls vis .weather _ hI, fun _ _ _ _ => ⟨fun _ => trivial, fun _ _ => trivial⟩⟩
  · apply spec_merchantBlock hR
    · intro ls vis sa tm _ _ _ hI _
      exact hgrow ls vis _ hI
    · intro ls vis sa tm _ _ _ hI _ _
      exact hset ls vis .merchant _ hI
    · intro ls vis sa tm _ _ _ hI _ _
      exact ⟨hset ls vis .merchant _ hI, trivial⟩

/-- A cycle changes the snapshot of a key only when it compares a category with that
snapshot key. -/
theorem checkAll_frame (cfg : Config) (sets : Settings) (env : Env) (f : Fetched) (s : State)
    (k : String) (hk : ∀ cat ∈ (checkAll cfg sets env f s).visited, cat.stateKey ≠ k) :
    (checkAll cfg sets env f s).st.lastState k = s.lastState k := by
  by_cases hb : s.isChecking = true
  · rw [checkAll_busy _ _ _ _ _ hb]
  · exact (checkAll_spec (tryBlock_frame cfg sets env f s.lastState) s (by simpa using hb)
      (fun _ _ => rfl)).1 k hk

theorem tryBlock_visited (cfg : Config) (sets : Settings) (env : Env) (f : Fetched) :
    Spec (fun _ vis => ∀ cat ∈ vis, (payloadOf f cat).isSome = true ∧ cat.Listed cfg)
      (fun _ _ => True) (tryBlock cfg sets env f) := by
  have hR : Sequential (fun (_ : Bool) (_ : List Attempt) => True) :=
    ⟨trivial, fun _ _ _ _ _ => trivial⟩
  have hgrow : ∀ (vis : List Category) (cat : Category),
      (payloadOf f cat).isSome = true → cat.Listed cfg →
      (∀ c ∈ vis, (payloadOf f c).isSome = true ∧ c.Listed cfg) →
      ∀ c ∈ vis ++ [cat], (payloadOf f c).isSome = true ∧ c.Listed cfg := by
    intro vis cat h1 h2 hI c hc
    rcases List.mem_append.1 hc with h | h
    · exact hI c h
    · rw [List.mem_singleton] at h
      subst h
      exact ⟨h1, h2⟩
  apply spec_tryBlock hR
  · apply spec_stockBlock hR
    intro sa hsa e he
    have h1 : (payloadOf f (.stock e.1 e.2.1)).isSome = true := by simp [payloadOf, hsa]
    have h2 : (Category.stock e.1 e.2.1).Listed cfg := ⟨e.2.2, he⟩
    apply spec_stockStep hR
    · intro ls vis hI _
      exact hgrow vis _ h1 h2 hI
    · intro ls vis hI _ _
      exact hgrow vis _ h1 h2 hI
    · intro ls vis first rest hI _ _ _
      exact ⟨hgrow vis _ h1 h2 hI, trivial⟩
  · apply spec_weatherBlock hR
    · intro ls vis ws hws hI _
      exact hgrow vis .weather (by simp [payloadOf, hws]) trivial hI
    · intro ls vis ws hws hI _
      exact ⟨hgrow vis .weather (by simp [payloadOf, hws]) trivial hI,
        fun _ _ _ _ => ⟨fun _ => trivial, fun _ _ => trivial⟩⟩
  · have hp : ∀ (sa : StockAll) (tm : Merchant), f.stockAll = some sa →
        sa.travelingmerchant_stock = some tm → tm.stock ≠ [] →
        (payloadOf f .merchant).isSome = true := by
      intro sa tm hsa htm hne
      simp [payloadOf, hsa, htm, hne]
    apply spec_merchantBlock hR
    · intro ls vis sa tm hsa htm hne hI _
      exact hgrow vis .merchant (hp sa tm hsa htm hne) trivial hI
    · intro ls vis sa tm hsa htm hne hI _ _
      exact hgrow vis .merchant (hp sa tm hsa htm hne) trivial hI
    · intro ls vis sa tm hsa htm hne hI _ _
      exact ⟨hgrow vis .merchant (hp sa tm hsa htm hne) trivial hI, trivial⟩

/-- A cycle compares only listed categories whose payload was fetched. -/
theorem checkAll_visited (cfg : Config) (sets : Settings) (env : Env) (f : Fetched) (s : State)
    (cat : Category) (h : cat ∈ (checkAll cfg sets env f s).visited) :
    (payloadOf f cat).isSome = true ∧ cat.Listed cfg := by
  by_cases hb : s.isChecking = true
  · rw [checkAll_busy _ _ _ _ _ hb] at h
    simp at h
  · exact (checkAll_spec (tryBlock_visited cfg sets env f) s (by simpa using hb)
      (by intro c hc; simp at hc)).1 cat h

/-! ## C1: idempotence of the change detector -/

/-- C1: change-detector idempotence. If a cycle compared the payload of a category with
its snapshot, the next cycle that fetches the identical payload for that category makes
no call of `send` for it, whatever the destinations, roles, clock readings and delivery
outcomes of the two cycles are. The API keys of `STOCK_CATEGORY` are assumed not to be
the snapshot keys `weather` and `tm` of the two other blocks. -/
theorem C1_idempotent_on_identical_payload (cfg : Config) (sets1 sets2 : Settings)
    (env1 env2 : Env) (f1 f2 : Fetched) (s0 : State) (cat : Category)
    (hsep : KeysSeparate cfg)
    (hprocessed : cat ∈ (checkAll cfg sets1 env1 f1 s0).visited)
    (hidentical : payloadOf f2 cat = payloadOf f1 cat) :
    (checkAll cfg sets2 env2 f2 (checkAll cfg sets1 env1 f1 s0).st).log.filter
      (fun a => a.category = cat) = [] := by
  obtain ⟨hs, hsome, hls⟩ := checkAll_inv cfg sets1 env1 f1 s0 hsep cat hprocessed
  obtain ⟨j, hj⟩ := Option.isSome_iff_exists.1 hsome
  have hj2 : fetchedJson f2 cat = some j := by
    rw [← hj]
    simp only [fetchedJson, hidentical]
  rw [hj] at hls
  have := checkAll_unchanged cfg sets2 env2 f2 _ hsep cat hs j hj2 hls
  rw [List.filter_eq_nil_iff]
  intro a ha
  simpa using this a ha

/-- Witness of C1: the carrot list is notified to two guilds by a first cycle and to
none by a second cycle fetching the same list. -/
theorem C1_idempotent_witness :
    KeysSeparate exCfg ∧
    Category.stock "seed" "seed_stock" ∈ (checkAll exCfg exSets exEnv exFetch exState).visited ∧
    (checkAll exCfg exSets exEnv exFetch exState).log.length = 2 ∧
    (checkAll exCfg exSets exEnv exFetch
      (checkAll exCfg exSets exEnv exFetch exState).st).log.filter
        (fun a => a.category = Category.stock "seed" "seed_stock") = [] :=
  ⟨by decide, by decide, by decide,
    C1_idempotent_on_identical_payload exCfg exSets exSets exEnv exEnv exFetch exFetch exState
      (Category.stock "seed" "seed_stock") (by decide) (by decide) rfl⟩

/-! ## C2: changed but expired -/

theorem mem_categories_of_listed {cfg : Config} {cat : Category} (h : cat.Listed cfg) :
    cat ∈ categories cfg := by
  unfold categories
  cases cat with
  | stock key apiKey =>
    obtain ⟨title, ht⟩ := h
    exact List.mem_append_left _ (List.mem_map.2 ⟨(key, apiKey, title), ht, rfl⟩)
  | weather => simp
  | merchant => simp

/-- A cycle started when idle that ends without a caught exception has compared every
listed category whose payload was fetched. -/
theorem checkAll_compared_of_completed (cfg : Config) (sets : Settings) (env : Env)
    (f : Fetched) (s : State) (cat : Category) (p : Payload)
    (hidle : s.isChecking = false) (hdone : (checkAll cfg sets env f s).caught = false)
    (hlisted : cat.Listed cfg) (hpayload : payloadOf f cat = some p) :
    cat ∈ (checkAll cfg sets env f s).visited := by
  rw [checkAll_visited_of_completed cfg sets env f s hidle hdone, List.mem_filter]
  exact ⟨mem_categories_of_listed hlisted, by rw [hpayload]; rfl⟩

/-- A cycle sends nothing for a category that checks the expiry and whose fetched payload
is expired. -/
theorem checkAll_expired_silent (cfg : Config) (sets : Settings) (env : Env) (f : Fetched)
    (s : State) (cat : Category) (p : Payload) (hkind : cat.checksExpiry)
    (hpayload : payloadOf f cat = some p) :
    ∀ a ∈ (checkAll cfg sets env f s).log, a.category = cat →
      cat.now env ≤ expiryOf p.itemList := by
  intro a ha hcat
  obtain ⟨-, hact⟩ := checkAll_origin cfg sets env f s a ha
  rw [hcat] at hact
  cases cat with
  | stock key apiKey =>
    obtain ⟨sa, title, hsa, -, -, hor⟩ := hact
    simp only [payloadOf, hsa, Option.map_some', Option.some.injEq] at hpayload
    subst hpayload
    rcases hor with h | h
    · exact absurd h hkind
    · exact h
  | weather => exact absurd hkind id
  | merchant =>
    obtain ⟨sa, tm, hsa, htm, hne, hle⟩ := hact
    have hlen : tm.stock.length ≠ 0 := fun h0 => hne (List.length_eq_zero.1 h0)
    simp only [payloadOf, hsa, htm, Option.bind, if_neg hlen, Option.some.injEq] at hpayload
    subst hpayload
    exact hle

/-- C2, refuted as stated: the gear list is non-empty, differs from the absent snapshot
and ended at 500, before the clock reading 1000; but the delivery of the seed
notification to guild `g1`, earlier in the same cycle, raises. The exception ends the
cycle before the gear list is compared: its snapshot stays absent. -/
theorem C2_expired_behind_error_counterexample :
    payloadOf exFetchOld (.stock "gear" "gear_stock") = some (.items exGearOld) ∧
    exGearOld ≠ [] ∧
    exState.lastState "gear_stock" ≠ some (stringifyItems exGearOld) ∧
    expiryOf exGearOld < exEnvFail.stockNow ∧
    (checkAll exCfg exSets exEnvFail exFetchOld exState).caught = true ∧
    (checkAll exCfg exSets exEnvFail exFetchOld exState).st.lastState "gear_stock" = none ∧
    (checkAll exCfg exSets exEnv exFetchOld exState).st.lastState "gear_stock"
      = some "[\x7b\"display_name\":\"Trowel\",\"quantity\":1,\"end_date_unix\":500\x7d]" := by
  decide

/-- C2, amended: changed-but-expired suppression. For a stock category other than the
announcements and for the traveling merchant, when the largest `end_date_unix` of the
fetched payload is strictly before the clock reading, the cycle makes no call of `send`
for the category; and when the cycle reaches the comparison of the payload with the
snapshot, the snapshot of the category becomes the serialization of the payload. The
cycle reaches the comparison of every listed category in particular when it starts idle
and ends without a caught exception. The API keys of `STOCK_CATEGORY` are assumed not to
be the snapshot keys `weather` and `tm`. -/
theorem C2_changed_but_expired (cfg : Config) (sets : Settings) (env : Env) (f : Fetched)
    (s : State) (cat : Category) (p : Payload)
    (hsep : KeysSeparate cfg)
    (hkind : cat.checksExpiry)
    (hpayload : payloadOf f cat = some p)
    (hexpired : expiryOf p.itemList < cat.now env) :
    (checkAll cfg sets env f s).log.filter (fun a => a.category = cat) = [] ∧
    (cat ∈ (checkAll cfg sets env f s).visited →
      (checkAll cfg sets env f s).st.lastState cat.stateKey = some p.stringify) ∧
    (s.isChecking = false → (checkAll cfg sets env f s).caught = false → cat.Listed cfg →
      (checkAll cfg sets env f s).st.lastState cat.stateKey = some p.stringify) := by
  have hsnap : cat ∈ (checkAll cfg sets env f s).visited →
      (checkAll cfg sets env f s).st.lastState cat.stateKey = some p.stringify := by
    intro hcompared
    obtain ⟨-, -, hls⟩ := checkAll_inv cfg sets env f s hsep cat hcompared
    rw [hls, fetchedJson, hpayload]
    rfl
  refine ⟨?_, hsnap, fun hidle hdone hlisted =>
    hsnap (checkAll_compared_of_completed cfg sets env f s cat p hidle hdone hlisted hpayload)⟩
  rw [List.filter_eq_nil_iff]
  intro a ha hcat
  have hcat : a.category = cat := by simpa using hcat
  have hle := checkAll_expired_silent cfg sets env f s cat p hkind hpayload a ha hcat
  omega

/-- Witness of C2 as amended: at time 5000 the carrot list, which ended at 4600, is stored
and not notified; at time 1000 the offer of the merchant, which ended at 500, is stored
and not notified to guild `g1`, which has a merchant channel and is notified of the same
offer at time 400. -/
theorem C2_changed_but_expired_witness :
    ((checkAll exCfg exSets exEnvLate exFetch exState).log.filter
        (fun a => a.category = Category.stock "seed" "seed_stock") = [] ∧
      (checkAll exCfg exSets exEnvLate exFetch exState).st.lastState "seed_stock"
        = some "[\x7b\"display_name\":\"Carrot\",\"quantity\":3,\"end_date_unix\":4600\x7d]") ∧
    ((checkAll exCfg exSetsSky exEnv exFetchSky exState).log.filter
        (fun a => a.category = Category.merchant) = [] ∧
      (checkAll exCfg exSetsSky exEnv exFetchSky exState).st.lastState "tm"
        = some ("\x7b\"merchantName\":\"Sky\",\"stock\":[\x7b\"display_name\":\"Star\"," ++
            "\"quantity\":1,\"end_date_unix\":500\x7d]\x7d")) ∧
    (checkAll exCfg exSetsSky exEnvEarly exFetchSky exState).log.map
        (fun a => (a.category, a.guild, a.embed.title, a.embed.description))
      = [(Category.merchant, "g1", " Sky", "Star")] :=
  have h1 := C2_changed_but_expired exCfg exSets exEnvLate exFetch exState
    (Category.stock "seed" "seed_stock") (Payload.items exCarrot)
    (by decide) (by decide) rfl (by decide)
  have h2 := C2_changed_but_expired exCfg exSetsSky exEnv exFetchSky exState
    Category.merchant (Payload.merchant exSky) (by decide) (by decide) (by decide) (by decide)
  ⟨⟨h1.1, (h1.2.2 rfl (by decide) ⟨"Seeds", by decide⟩).trans (by decide)⟩,
    ⟨h2.1, (h2.2.2 rfl (by decide) trivial).trans (by decide)⟩, by decide⟩

/-! ## C3: changed and active -/

theorem Outcome.done_andThen (m : Mem) (k : Mem → Outcome) : (Outcome.done m).andThen k = k m :=
  rfl

theorem stockLoop_cons (cfg : Config) (sets : Settings) (env : Env) (sa : StockAll)
    (e : String × String × String) (rest : List (String × String × String)) (m : Mem) :
    stockLoop cfg sets env sa (e :: rest) m
      = (stockStep cfg sets env sa e m).andThen (stockLoop cfg sets env sa rest) :=
  rfl

theorem stockLoop_append (cfg : Config) (sets : Settings) (env : Env) (sa : StockAll)
    (l1 l2 : List (String × String × String)) (m : Mem) :
    stockLoop cfg sets env sa (l1 ++ l2) m
      = (stockLoop cfg sets env sa l1 m).andThen (stockLoop cfg sets env sa l2) := by
  induction l1 generalizing m with
  | nil => simp [stockLoop, Outcome.andThen]
  | cons e rest ih =>
    simp only [List.cons_append, stockLoop]
    cases stockStep cfg sets env sa e m with
    | done m1 => simp only [Outcome.andThen]; exact ih m1
    | threw m1 => simp only [Outcome.andThen]

/-- A loop that reports success made every attempt. -/
theorem deliver_true (env : Env) (mk : String → (String → Option String) → Option Attempt)
    (chans : List (String × (String → Option String)))
    (h : (deliver env mk chans []).1 = true) :
    (deliver env mk chans []).2 = chans.filterMap (fun p => mk p.1 p.2) := by
  induction chans with
  | nil => simp [deliver]
  | cons p rest ih =>
    obtain ⟨gId, chs⟩ := p
    simp only [deliver] at h ⊢
    cases hmk : mk gId chs with
    | none =>
      rw [hmk] at h
      simp only [List.filterMap_cons, hmk]
      exact ih h
    | some a =>
      rw [hmk] at h
      by_cases hf : env.sendFails a = true
      · simp [hf] at h
      · simp only [hf, Bool.false_eq_true, if_false, List.nil_append] at h ⊢
        rw [deliver_append] at h ⊢
        simp only [List.filterMap_cons, hmk]
        rw [ih h]
        rfl

/-- The attempts of the loop of a stock category are its messages. -/
theorem stockAttempts_eq (sets : Settings) (env : Env) (key apiKey : String)
    (items : List Item) (embed : Embed) (chans : List (String × (String → Option String))) :
    chans.filterMap (fun p => attemptFor env sets (.stock key apiKey)
        (fun gId => listPings sets gId (.stock key apiKey) items) contentOfList embed p.1 p.2)
      = (chans.filter fun p =>
          match p.2 (key ++ "_channel_id") with
          | some id => env.channelCache id
          | none => false).map fun p =>
          { category := .stock key apiKey
            guild := p.1
            path := match sets.webhooksData p.1 key with
              | some hook => .webhook hook
              | none => .channel ((p.2 (key ++ "_channel_id")).getD "")
            content := contentOfList (listPings sets p.1 (.stock key apiKey) items)
            embed := embed
            username := getWebhookUsername sets key } := by
  induction chans with
  | nil => rfl
  | cons p t ih =>
    rw [List.filterMap_cons, List.filter_cons]
    cases hch : p.2 (key ++ "_channel_id") with
    | none =>
      simpa [attemptFor, resolveChannel, Category.channelField, Category.configKey, hch] using ih
    | some id =>
      by_cases hc : env.channelCache id = true
      · simpa [attemptFor, resolveChannel, Category.channelField, Category.configKey, hch, hc]
          using ih
      · simpa [attemptFor, resolveChannel, Category.channelField, Category.configKey, hch, hc]
          using ih

/-- The step of a changed and active stock category that ends normally: its embed was
built and every destination got its message. -/
theorem stockStep_done (cfg : Config) (sets : Settings) (env : Env) (sa : StockAll)
    (key apiKey title : String) (first : Item) (rest : List Item) (m m2 : Mem)
    (hitems : (sa.lists apiKey).getD [] = first :: rest)
    (hchanged : m.lastState apiKey ≠ some (stringifyItems (first :: rest)))
    (hactive : key = "announcement" ∨ env.stockNow ≤ expiryOf (first :: rest))
    (hdone : stockStep cfg sets env sa (key, apiKey, title) m = .done m2) :
    ∃ embed, chooseEmbed cfg env.embedNow key title first (first :: rest) = some embed ∧
      m2 = { lastState := m.lastState.set apiKey (stringifyItems (first :: rest))
             log := m.log ++ stockMessages sets env key apiKey (first :: rest) embed
             visited := m.visited ++ [.stock key apiKey] } := by
  have hnexp : ¬ (key ≠ "announcement" ∧ expiryOf (first :: rest) < env.stockNow) := by
    rintro ⟨h1, h2⟩
    rcases hactive with h | h
    · exact h1 h
    · exact absurd h2 (Nat.not_lt.2 h)
  unfold stockStep at hdone
  simp only [hitems, if_neg hchanged, if_neg hnexp] at hdone
  cases hemb : chooseEmbed cfg env.embedNow key title first (first :: rest) with
  | none =>
    rw [hemb] at hdone
    cases hdone
  | some embed =>
    rw [hemb] at hdone
    simp only [] at hdone
    refine ⟨embed, rfl, ?_⟩
    unfold deliverBlock at hdone
    rw [deliver_append] at hdone
    have htrue := deliver_true env (attemptFor env sets (.stock key apiKey)
      (fun gId => listPings sets gId (.stock key apiKey) (first :: rest)) contentOfList embed)
      sets.channelsData
    cases hd : (deliver env (attemptFor env sets (.stock key apiKey)
      (fun gId => listPings sets gId (.stock key apiKey) (first :: rest)) contentOfList embed)
      sets.channelsData []).1 with
    | false =>
      rw [hd] at hdone
      cases hdone
    | true =>
      rw [hd] at hdone
      simp only [Outcome.done.injEq] at hdone
      rw [← hdone, htrue hd, stockAttempts_eq]
      rfl

theorem stockMessages_category (sets : Settings) (env : Env) (key apiKey : String)
    (items : List Item) (embed : Embed) :
    ∀ a ∈ stockMessages sets env key apiKey items embed, a.category = .stock key apiKey := by
  intro a ha
  unfold stockMessages at ha
  obtain ⟨p, -, hp⟩ := List.mem_map.1 ha
  rw [← hp]

/-- Stock entries with another API key leave the snapshot of `apiKey` alone and send
nothing for the category of `apiKey`. -/
theorem stockLoop_other (cfg : Config) (sets : Settings) (env : Env) (sa : StockAll)
    (key apiKey : String) (v : Option String) (es : List (String × String × String))
    (hother : ∀ e ∈ es, e.2.1 ≠ apiKey) :
    Spec (fun ls _ => ls apiKey = v) (fun _ new => ∀ a ∈ new, a.category ≠ .stock key apiKey)
      (stockLoop cfg sets env sa es) := by
  have hR := sequential_forall (fun a => a.category ≠ Category.stock key apiKey)
  apply spec_stockLoop hR
  intro e he
  have hne : apiKey ≠ e.2.1 := fun h => hother e he h.symm
  apply spec_stockStep hR
  · intro ls vis hI _
    exact hI
  · intro ls vis hI _ _
    show (ls.set _ _) apiKey = v
    rw [Store.set_other _ _ _ _ hne]
    exact hI
  · intro ls vis first rest hI _ _ _
    refine ⟨?_, ?_⟩
    · show (ls.set _ _) apiKey = v
      rw [Store.set_other _ _ _ _ hne]
      exact hI
    · intro a ha hcat
      obtain ⟨hc, -⟩ := stockDeliver_sentBy ha
      rw [hc] at hcat
      injection hcat with _ h2
      exact hne h2.symm

/-- C3, refuted as stated: the announcements come first in the table and the fetched note
has no message; no call of `send` raises, guild `g1` has an announcement channel and a
seed channel that resolve, both payloads are non-empty and differ from the absent
snapshots, and the carrots are not expired. The creation of the announcement embed
raises, the exception is caught and the cycle has sent nothing: neither the note nor the
carrots, whose snapshot stays absent. -/
theorem C3_dispatch_counterexample :
    (∀ a, exEnvGone.sendFails a = false) ∧
    exFetchNote.stockAll.map (fun sa => (sa.lists "notification", sa.lists "seed_stock"))
      = some (some [{ display_name := "n" }], some exCarrot) ∧
    exState.lastState "notification" = none ∧ exState.lastState "seed_stock" = none ∧
    exEnvGone.stockNow ≤ expiryOf exCarrot ∧
    (stockRecipients exSetsNote exEnvGone "announcement").map (fun p => p.1) = ["g1"] ∧
    (stockRecipients exSetsNote exEnvGone "seed").map (fun p => p.1) = ["g1"] ∧
    (checkAll exCfgNote exSetsNote exEnvGone exFetchNote exState).log = [] ∧
    (checkAll exCfgNote exSetsNote exEnvGone exFetchNote exState).caught = true ∧
    (checkAll exCfgNote exSetsNote exEnvGone exFetchNote exState).st.lastState "seed_stock"
      = none := by
  refine ⟨fun _ => rfl, ?_, rfl, rfl, ?_, ?_, ?_, ?_, ?_, ?_⟩ <;> decide

/-- C3, amended: changed-and-active dispatch in a cycle that ends without exception. For a
stock category whose fetched item list is non-empty, differs in serialization from the
stored snapshot and is an announcement or not expired, a cycle started when idle that
ends without a caught exception (every call of `send` succeeded and every embed was
built) has built the embed of the category and has sent for the category exactly one
message to every guild whose channel field of the category holds an identifier known to
the client, in the order of `channelsData`, each with that embed; and the snapshot is
`JSON.stringify(items)`. The API keys of `STOCK_CATEGORY` are assumed pairwise distinct
and different from the snapshot keys `weather` and `tm`. -/
theorem C3_changed_and_active (cfg : Config) (sets : Settings) (env : Env) (f : Fetched)
    (s : State) (sa : StockAll) (key apiKey title : String) (first : Item) (rest : List Item)
    (hidle : s.isChecking = false)
    (hsa : f.stockAll = some sa)
    (hentry : (key, apiKey, title) ∈ cfg.STOCK_CATEGORY)
    (hdistinct : (cfg.STOCK_CATEGORY.map (fun e => e.2.1)).Nodup)
    (hsep : KeysSeparate cfg)
    (hitems : (sa.lists apiKey).getD [] = first :: rest)
    (hchanged : s.lastState apiKey ≠ some (stringifyItems (first :: rest)))
    (hactive : key = "announcement" ∨ env.stockNow ≤ expiryOf (first :: rest))
    (hcompleted : (checkAll cfg sets env f s).caught = false) :
    ∃ embed, chooseEmbed cfg env.embedNow key title first (first :: rest) = some embed ∧
      (checkAll cfg sets env f s).log.filter (fun a => a.category = .stock key apiKey)
        = stockMessages sets env key apiKey (first :: rest) embed ∧
      ((checkAll cfg sets env f s).log.filter (fun a => a.category = .stock key apiKey)).map
          (fun a => a.guild)
        = (stockRecipients sets env key).map (fun p => p.1) ∧
      (checkAll cfg sets env f s).st.lastState apiKey
        = some (stringifyItems (first :: rest)) := by
  obtain ⟨pre, post, hsplit⟩ := List.append_of_mem hentry
  rw [hsplit, List.map_append, List.map_cons] at hdistinct
  have hpre : ∀ e ∈ pre, e.2.1 ≠ apiKey := by
    intro e he heq
    have h1 := (List.nodup_append.1 hdistinct).2.2
    exact h1 (List.mem_map.2 ⟨e, he, rfl⟩) (by rw [heq]; exact List.mem_cons_self _ _)
  have hsound : (Category.stock key apiKey).Sound := hsep _ hentry
  have hj : fetchedJson f (.stock key apiKey) = some (stringifyItems (first :: rest)) := by
    rw [fetchedJson_stock hsa, hitems]
  obtain ⟨hlog, hls, -, hcaught, -⟩ := checkAll_idle cfg sets env f s hidle
  rw [hcompleted] at hcaught
  have htry0 : tryBlock cfg sets env f (startMem s)
      = (((stockLoop cfg sets env sa pre (startMem s)).andThen
          (stockLoop cfg sets env sa ((key, apiKey, title) :: post))).andThen
          (weatherBlock cfg sets env f)).andThen (merchantBlock cfg sets env f) := by
    unfold tryBlock stockBlock
    simp only [hsa, hsplit]
    rw [stockLoop_append]
  rw [htry0] at hcaught hlog hls
  -- the entries before the category
  obtain ⟨hI1, new1, hlog1, hnew1⟩ :=
    stockLoop_other cfg sets env sa key apiKey (s.lastState apiKey) pre hpre (startMem s) rfl
  cases h1 : stockLoop cfg sets env sa pre (startMem s) with
  | threw m1 =>
    rw [h1] at hcaught
    simp [Outcome.andThen, Outcome.isDone] at hcaught
  | done m1 =>
    rw [h1] at hI1 hlog1
    simp only [Outcome.mem, startMem, List.nil_append] at hI1 hlog1
    rw [h1, Outcome.done_andThen, stockLoop_cons] at hcaught hlog hls
    cases h2 : stockStep cfg sets env sa (key, apiKey, title) m1 with
    | threw m2 =>
      rw [h2] at hcaught
      simp [Outcome.andThen, Outcome.isDone] at hcaught
    | done m2 =>
      rw [h2, Outcome.done_andThen] at hlog hls
      obtain ⟨embed, hemb, hm2⟩ := stockStep_done cfg sets env sa key apiKey title first rest
        m1 m2 hitems (by rw [hI1]; exact hchanged) hactive h2
      -- the entries after the category, the weather and the merchant
      have htail : Spec (fun ls _ => ls (Category.stock key apiKey).stateKey
            = some (stringifyItems (first :: rest)))
          (fun _ new => ∀ a ∈ new, a.category ≠ .stock key apiKey)
          (fun m => ((stockLoop cfg sets env sa post m).andThen
            (weatherBlock cfg sets env f)).andThen (merchantBlock cfg sets env f)) := by
        have hR := sequential_forall (fun a => a.category ≠ Category.stock key apiKey)
        refine Spec.andThen hR (Spec.andThen hR ?_ ?_) ?_
        · apply spec_stockLoop hR
          intro e he
          have hmem : e ∈ cfg.STOCK_CATEGORY := by
            rw [hsplit]
            exact List.mem_append_right _ (List.mem_cons_of_mem _ he)
          exact stockStep_unchanged cfg sets env f sa hsa e (hsep e hmem).1 (hsep e hmem).2
            _ _ hj
        · exact weatherBlock_unchanged cfg sets env f _ hsound _ hj
        · exact merchantBlock_unchanged cfg sets env f _ hsound _ hj
      obtain ⟨hI3, new3, hlog3, hnew3⟩ := htail m2 (by rw [hm2]; exact Store.set_same _ _ _)
      beta_reduce at hI3 hlog3
      have hfilter : (checkAll cfg sets env f s).log.filter
          (fun a => a.category = .stock key apiKey)
          = stockMessages sets env key apiKey (first :: rest) embed := by
        rw [hlog, hlog3, hm2, hlog1, List.filter_append, List.filter_append]
        have e1 : new1.filter (fun a => a.category = Category.stock key apiKey) = [] := by
          rw [List.filter_eq_nil_iff]
          intro a ha
          simpa using hnew1 a ha
        have e3 : new3.filter (fun a => a.category = Category.stock key apiKey) = [] := by
          rw [List.filter_eq_nil_iff]
          intro a ha
          simpa using hnew3 a ha
        have e2 : (stockMessages sets env key apiKey (first :: rest) embed).filter
            (fun a => a.category = Category.stock key apiKey)
            = stockMessages sets env key apiKey (first :: rest) embed := by
          rw [List.filter_eq_self]
          intro a ha
          simpa using stockMessages_category sets env key apiKey _ embed a ha
        rw [e1, e2, e3]
        simp
      refine ⟨embed, hemb, hfilter, ?_, ?_⟩
      · rw [hfilter]
        unfold stockMessages
        rw [List.map_map]
        rfl
      · rw [hls]
        exact hI3

/-- Witness of C3 as amended, the scenario of the specification: from an empty snapshot
store, three carrots ending in an hour are notified to guild `g1`, whose seed channel
resolves, and not to guild `g3`, whose seed channel is unknown to the client; the message
goes to the channel with the mention of the seed role, its body is the line of the
emoji, the name and the quantity, and the serialized list is stored. -/
theorem C3_changed_and_active_witness :
    (checkAll exCfgNote exSetsNote exEnvGone exFetchNoteText exState).caught = false ∧
    (checkAll exCfgNote exSetsNote exEnvGone exFetchNoteText exState).log.map
        (fun a => (a.category, a.guild, a.path, a.content, a.embed.title, a.embed.description))
      = [(.stock "announcement" "notification", "g1", .channel "a1", none, " Announcement",
          "Hello"),
         (.stock "seed" "seed_stock", "g1", .channel "c1", some "<@&r1>", "Seeds",
          "🥕 Carrot x3")] ∧
    (∃ embed, chooseEmbed exCfgNote 1000 "seed" "Seeds"
        { display_name := "Carrot", quantity := some 3, end_date_unix := some 4600 }
        [{ display_name := "Carrot", quantity := some 3, end_date_unix := some 4600 }]
        = some embed ∧
      (checkAll exCfgNote exSetsNote exEnvGone exFetchNoteText exState).log.filter
          (fun a => a.category = .stock "seed" "seed_stock")
        = stockMessages exSetsNote exEnvGone "seed" "seed_stock"
            [{ display_name := "Carrot", quantity := some 3, end_date_unix := some 4600 }]
            embed ∧
      ((checkAll exCfgNote exSetsNote exEnvGone exFetchNoteText exState).log.filter
          (fun a => a.category = .stock "seed" "seed_stock")).map (fun a => a.guild)
        = (stockRecipients exSetsNote exEnvGone "seed").map (fun p => p.1) ∧
      (checkAll exCfgNote exSetsNote exEnvGone exFetchNoteText exState).st.lastState
          "seed_stock"
        = some (stringifyItems
            [{ display_name := "Carrot", quantity := some 3, end_date_unix := some 4600 }])) ∧
    (stockRecipients exSetsNote exEnvGone "seed").map (fun p => p.1) = ["g1"] ∧
    (checkAll exCfgNote exSetsNote exEnvGone exFetchNoteText exState).st.lastState "seed_stock"
      = some "[\x7b\"display_name\":\"Carrot\",\"quantity\":3,\"end_date_unix\":4600\x7d]" :=
  ⟨by decide, by decide,
    C3_changed_and_active exCfgNote exSetsNote exEnvGone exFetchNoteText exState
      { lists := fun k =>
          if k = "notification" then some [{ display_name := "n", message := some "Hello" }]
          else if k = "seed_stock" then some exCarrot else none
        travelingmerchant_stock := none }
      "seed" "seed_stock" "Seeds"
      { display_name := "Carrot", quantity := some 3, end_date_unix := some 4600 } []
      rfl rfl (by decide) (by decide) (by decide) rfl (by decide) (by decide) (by decide),
    by decide, by decide⟩

/-! ## C4: a delivery that raises -/

theorem sequential_failsLast (env : Env) : Sequential (FailsLast env) where
  nil := by simp [FailsLast, AllOk]
  seq := by
    intro d n1 n2 h1 h2
    simp only [FailsLast, if_true] at h1
    unfold FailsLast at h2 ⊢
    cases d with
    | true =>
      simp only [if_true] at h2 ⊢
      intro a ha
      rcases List.mem_append.1 ha with h | h
      · exact h1 a h
      · exact h2 a h
    | false =>
      simp only [Bool.false_eq_true, if_false] at h2 ⊢
      by_cases hn : n2 = []
      · subst hn
        rw [List.append_nil]
        intro a ha
        exact h1 a (List.dropLast_subset _ ha)
      · rw [List.dropLast_append_of_ne_nil _ hn]
        intro a ha
        rcases List.mem_append.1 ha with h | h
        · exact h1 a h
        · exact h2 a h

theorem deliver_failsLast (env : Env) (mk : String → (String → Option String) → Option Attempt)
    (chans : List (String × (String → Option String))) :
    FailsLast env (deliver env mk chans []).1 (deliver env mk chans []).2 := by
  unfold FailsLast
  rcases deliver_fails env mk chans with ⟨h1, h2⟩ | ⟨h1, pre, a, h2, h3, -⟩
  · rw [h1]; exact h2
  · rw [h1, h2]
    simpa using h3

theorem tryBlock_failsLast (cfg : Config) (sets : Settings) (env : Env) (f : Fetched) :
    Spec (fun _ _ => True) (FailsLast env) (tryBlock cfg sets env f) := by
  have hR := sequential_failsLast env
  apply spec_tryBlock hR
  · apply spec_stockBlock hR
    intro sa _ e _
    apply spec_stockStep hR
    · intros; trivial
    · intros; trivial
    · intros
      exact ⟨trivial, stockDeliver_cases (FailsLast env) (by simp [FailsLast, AllOk])
        (fun _ _ => deliver_failsLast env _ _)⟩
  · apply spec_weatherBlock hR
    · intros; trivial
    · intros
      refine ⟨trivial, fun _ _ _ _ => ⟨fun _ => by simp [FailsLast, AllOk], fun _ _ => ?_⟩⟩
      exact deliver_failsLast env _ _
  · apply spec_merchantBlock hR
    · intros; trivial
    · intros; trivial
    · intros
      exact ⟨trivial, merchantDeliver_cases (FailsLast env) (by simp [FailsLast, AllOk])
        (fun _ _ => deliver_failsLast env _ _)⟩

/-- C4, refuted as stated: the delivery of the seed notification to guild `g1` raises;
guild `g3`, which comes later and has a resolvable seed channel, receives no call of
`send`, and the gear category, which comes later and has a changed active payload and
a channel at `g3`, is not processed: its snapshot stays absent. -/
theorem C4_delivery_isolation_counterexample :
    (checkAll exCfg exSets exEnvFail exFetchTwo exState).log.map
        (fun a => (a.category, a.guild, exEnvFail.sendFails a))
      = [(Category.stock "seed" "seed_stock", "g1", true)] ∧
    ("g3", fun k => if k = "seed_channel_id" then some "c3"
        else if k = "gear_channel_id" then some "c4" else none) ∈ exSets.channelsData ∧
    resolveChannel exEnvFail (some "c3") = some "c3" ∧
    payloadOf exFetchTwo (.stock "gear" "gear_stock") = some (.items exGear) ∧
    Category.stock "gear" "gear_stock" ∉
      (checkAll exCfg exSets exEnvFail exFetchTwo exState).visited ∧
    (checkAll exCfg exSets exEnvFail exFetchTwo exState).st.lastState "gear_stock" = none ∧
    ((checkAll exCfg exSets exEnv exFetchTwo exState).log.map
        (fun a => (a.category, a.guild)))
      = [(Category.stock "seed" "seed_stock", "g1"), (Category.stock "seed" "seed_stock", "g3"),
         (Category.stock "gear" "gear_stock", "g3")] := by
  refine ⟨by decide, ?_, by decide, by decide, by decide, by decide, by decide⟩
  simp [exSets]

/-- C4, amended: a delivery that raises ends the cycle. When a call of `send` raises, it
is the last call of the cycle: no delivery is attempted afterwards, neither at the
remaining destinations nor for the remaining categories. All earlier calls did not
raise, the exception is caught inside `checkAll` and the guard `isChecking` is reset. -/
theorem C4_failed_delivery_ends_cycle (cfg : Config) (sets : Settings) (env : Env)
    (f : Fetched) (s : State) (before : List Attempt) (a : Attempt) (after : List Attempt)
    (hlog : (checkAll cfg sets env f s).log = before ++ a :: after)
    (hfail : env.sendFails a = true) :
    after = [] ∧ AllOk env before ∧ (checkAll cfg sets env f s).caught = true ∧
    (checkAll cfg sets env f s).st.isChecking = false := by
  have hidle : s.isChecking = false := by
    by_contra hb
    rw [checkAll_busy _ _ _ _ _ (by simpa using hb)] at hlog
    simp at hlog
  have hspec := (checkAll_spec (tryBlock_failsLast cfg sets env f) s hidle trivial).2
  unfold FailsLast at hspec
  have hmem : a ∈ (checkAll cfg sets env f s).log := by rw [hlog]; simp
  cases hc : (checkAll cfg sets env f s).caught with
  | false =>
    rw [hc] at hspec
    simp only [Bool.not_false, if_true] at hspec
    have := hspec a hmem
    rw [hfail] at this
    exact absurd this (by simp)
  | true =>
    rw [hc, hlog] at hspec
    simp only [Bool.not_true, Bool.false_eq_true, if_false] at hspec
    have hafter : after = [] := by
      by_contra hne
      have hd : (before ++ a :: after).dropLast = before ++ a :: after.dropLast := by
        rw [List.dropLast_append_of_ne_nil _ (by simp), List.dropLast_cons_of_ne_nil hne]
      rw [hd] at hspec
      have := hspec a (by simp)
      rw [hfail] at this
      exact absurd this (by simp)
    subst hafter
    refine ⟨rfl, ?_, rfl, (checkAll_idle cfg sets env f s hidle).2.2.2.2⟩
    have hd : (before ++ [a]).dropLast = before := by simp
    rw [hd] at hspec
    exact hspec

/-- Witness of C4 as amended: the call of `send` for guild `g1` raises and is the only call
of the cycle. -/
theorem C4_failed_delivery_ends_cycle_witness :
    (checkAll exCfg exSets exEnvFail exFetchTwo exState).caught = true ∧
    (checkAll exCfg exSets exEnvFail exFetchTwo exState).st.isChecking = false ∧
    (checkAll exCfg exSets exEnvFail exFetchTwo exState).log.length = 1 :=
  have h := C4_failed_delivery_ends_cycle exCfg exSets exEnvFail exFetchTwo exState []
    { category := .stock "seed" "seed_stock", guild := "g1", path := .channel "c1",
      content := none,
      embed := createStockEmbed exCfg 1000 exCarrot "Seeds",
      username := "GAG Bot" } [] (by decide) (by decide)
  ⟨h.2.2.1, h.2.2.2, by decide⟩

/-! ## C5, C6 and C7: what the snapshot store holds -/

/-- C5, refuted as stated: a changed but expired seed list is stored as snapshot although
no notification was dispatched in the cycle; and when the only delivery attempted for a
changed active seed list raises, the list is stored as well. -/
theorem C5_snapshot_invariant_counterexample :
    (exState.lastState "seed_stock" = none ∧
      (checkAll exCfg exSets exEnvLate exFetch exState).log = [] ∧
      (checkAll exCfg exSets exEnvLate exFetch exState).st.lastState "seed_stock"
        = some (stringifyItems exCarrot)) ∧
    ((checkAll exCfg exSets exEnvFail exFetch exState).log.map
        (fun a => (a.guild, exEnvFail.sendFails a)) = [("g1", true)] ∧
      (checkAll exCfg exSets exEnvFail exFetch exState).st.lastState "seed_stock"
        = some (stringifyItems exCarrot)) := by
  decide

/-- C5, amended: after a cycle, the snapshot of every category whose payload the cycle
compared with its snapshot is the serialization of the payload fetched in that cycle,
whether its notification was dispatched, suppressed or not delivered; the snapshot of a
key that is the snapshot key of no compared category is what it was before the cycle. -/
theorem C5_snapshot_is_last_compared_payload (cfg : Config) (sets : Settings) (env : Env)
    (f : Fetched) (s : State) (hsep : KeysSeparate cfg) :
    (∀ cat ∈ (checkAll cfg sets env f s).visited, ∃ p, payloadOf f cat = some p ∧
      (checkAll cfg sets env f s).st.lastState cat.stateKey = some p.stringify) ∧
    (∀ k, (∀ cat ∈ (checkAll cfg sets env f s).visited, cat.stateKey ≠ k) →
      (checkAll cfg sets env f s).st.lastState k = s.lastState k) := by
  constructor
  · intro cat hcat
    obtain ⟨-, hsome, hls⟩ := checkAll_inv cfg sets env f s hsep cat hcat
    unfold fetchedJson at hsome hls
    cases hp : payloadOf f cat with
    | none => rw [hp] at hsome; simp at hsome
    | some p =>
      rw [hp] at hls
      exact ⟨p, rfl, hls⟩
  · intro k hk
    exact checkAll_frame cfg sets env f s k hk

/-- Witness of C5 as amended: the three stock categories are compared and each has its
fetched payload as snapshot, although nothing was notified. -/
theorem C5_snapshot_is_last_compared_payload_witness :
    (∀ cat ∈ (checkAll exCfg exSets exEnvLate exFetch exState).visited,
      ∃ p, payloadOf exFetch cat = some p ∧
        (checkAll exCfg exSets exEnvLate exFetch exState).st.lastState cat.stateKey
          = some p.stringify) ∧
    (checkAll exCfg exSets exEnvLate exFetch exState).visited
      = [.stock "seed" "seed_stock", .stock "gear" "gear_stock",
         .stock "announcement" "notification"] :=
  ⟨(C5_snapshot_is_last_compared_payload exCfg exSets exEnvLate exFetch exState
      (by decide)).1, by decide⟩

/-- C6: an empty list dispatches nothing. Whatever the stored snapshots are, a cycle makes
no call of `send` for a stock category whose fetched item list is empty or absent from
the answer of the stock API, and none for the traveling merchant when its stock is
empty. -/
theorem C6_empty_list_dispatches_nothing (cfg : Config) (sets : Settings) (env : Env)
    (f : Fetched) (s : State) (sa : StockAll) (hsa : f.stockAll = some sa) :
    (∀ key apiKey, (sa.lists apiKey = some [] ∨ sa.lists apiKey = none) →
      (checkAll cfg sets env f s).log.filter (fun a => a.category = .stock key apiKey) = []) ∧
    ((∀ tm, sa.travelingmerchant_stock = some tm → tm.stock = []) →
      (checkAll cfg sets env f s).log.filter (fun a => a.category = .merchant) = []) := by
  constructor
  · intro key apiKey hempty
    rw [List.filter_eq_nil_iff]
    intro a ha hcat
    have hcat : a.category = .stock key apiKey := by simpa using hcat
    obtain ⟨-, hact⟩ := checkAll_origin cfg sets env f s a ha
    rw [hcat] at hact
    obtain ⟨sa2, title, hsa2, -, hne, -⟩ := hact
    rw [hsa] at hsa2
    injection hsa2 with hsa2
    subst hsa2
    rcases hempty with h | h <;> simp [h] at hne
  · intro hempty
    rw [List.filter_eq_nil_iff]
    intro a ha hcat
    have hcat : a.category = .merchant := by simpa using hcat
    obtain ⟨-, hact⟩ := checkAll_origin cfg sets env f s a ha
    rw [hcat] at hact
    obtain ⟨sa2, tm, hsa2, htm, hne, -⟩ := hact
    rw [hsa] at hsa2
    injection hsa2 with hsa2
    subst hsa2
    exact hne (hempty tm htm)

/-- Witness of C6: an empty seed list, an absent gear list and a merchant without stock
are not notified, with the carrot list as stored seed snapshot. -/
theorem C6_empty_list_dispatches_nothing_witness :
    (checkAll exCfg exSets exEnv exFetchEmpty exStateCarrot).log.filter
        (fun a => a.category = .stock "seed" "seed_stock") = [] ∧
    (checkAll exCfg exSets exEnv exFetchEmpty exStateCarrot).log.filter
        (fun a => a.category = .stock "gear" "gear_stock") = [] ∧
    (checkAll exCfg exSets exEnv exFetchEmpty exStateCarrot).log.filter
        (fun a => a.category = .merchant) = [] :=
  have h := C6_empty_list_dispatches_nothing exCfg exSets exEnv exFetchEmpty exStateCarrot
    exStockEmpty rfl
  ⟨h.1 "seed" "seed_stock" (Or.inl rfl), h.1 "gear" "gear_stock" (Or.inr rfl),
    h.2 (fun tm htm => by
      have : tm = { merchantName := "Sky", stock := [] } := by
        injection htm with htm
        exact htm.symm
      rw [this])⟩

/-- C7, refuted as stated: with the carrot list as stored seed snapshot, a cycle that
fetches an empty seed list replaces the snapshot by the serialization of the empty list,
and the following cycle, which fetches the carrot list again, notifies again. -/
theorem C7_empty_list_store_counterexample :
    exStateCarrot.lastState "seed_stock" = some (stringifyItems exCarrot) ∧
    (checkAll exCfg exSets exEnv exFetchEmpty exStateCarrot).st.lastState "seed_stock"
      = some "[]" ∧
    stringifyItems exCarrot ≠ "[]" ∧
    (checkAll exCfg exSets exEnv exFetchEmpty exStateCarrot).log = [] ∧
    ((checkAll exCfg exSets exEnv exFetch
        (checkAll exCfg exSets exEnv exFetchEmpty exStateCarrot).st).log.filter
      (fun a => a.category = .stock "seed" "seed_stock")).map (fun a => a.guild)
      = ["g1", "g3"] := by
  decide

/-- C7, amended: an empty list is stored but not notified. When a cycle compares an empty
fetched item list of a stock category with its snapshot, the snapshot of the category
after the cycle is the serialization `[]` of the empty list, whatever it was before, and
the cycle makes no call of `send` for the category. -/
theorem C7_empty_list_is_stored (cfg : Config) (sets : Settings) (env : Env)
    (f : Fetched) (s : State) (sa : StockAll) (key apiKey : String)
    (hsep : KeysSeparate cfg)
    (hsa : f.stockAll = some sa)
    (hempty : (sa.lists apiKey).getD [] = [])
    (hcompared : Category.stock key apiKey ∈ (checkAll cfg sets env f s).visited) :
    (checkAll cfg sets env f s).st.lastState apiKey = some "[]" ∧
    (checkAll cfg sets env f s).log.filter (fun a => a.category = .stock key apiKey) = [] := by
  constructor
  · obtain ⟨-, -, hls⟩ := checkAll_inv cfg sets env f s hsep _ hcompared
    rw [fetchedJson_stock hsa, hempty] at hls
    exact hls
  · rw [List.filter_eq_nil_iff]
    intro a ha hcat
    have hcat : a.category = .stock key apiKey := by simpa using hcat
    obtain ⟨-, hact⟩ := checkAll_origin cfg sets env f s a ha
    rw [hcat] at hact
    obtain ⟨sa2, title, hsa2, -, hne, -⟩ := hact
    rw [hsa] at hsa2
    injection hsa2 with hsa2
    subst hsa2
    exact hne hempty

/-- Witness of C7 as amended: the empty seed list replaces the stored carrot list. -/
theorem C7_empty_list_is_stored_witness :
    (checkAll exCfg exSets exEnv exFetchEmpty exStateCarrot).st.lastState "seed_stock"
      = some "[]" ∧
    (checkAll exCfg exSets exEnv exFetchEmpty exStateCarrot).log.filter
      (fun a => a.category = .stock "seed" "seed_stock") = [] :=
  C7_empty_list_is_stored exCfg exSets exEnv exFetchEmpty exStateCarrot exStockEmpty
    "seed" "seed_stock" (by decide) rfl rfl (by decide)

/-! ## C8, C9 and C10: failed fetches and missing channels -/

/-- C8: a null fetch mutates nothing. When the stock fetch returns `null`, the cycle
leaves every snapshot but that of the weather unchanged (so every stock category and the
merchant entry `tm`) and every call of `send` it makes is a weather notification. When
the weather fetch returns `null` or has no `weather` property, the cycle leaves the weather
snapshot unchanged and makes no call of `send` for the weather; here no API key of
`STOCK_CATEGORY` is assumed to be the snapshot key `weather`. -/
theorem C8_null_fetch_mutates_nothing (cfg : Config) (sets : Settings) (env : Env)
    (f : Fetched) (s : State) :
    (f.stockAll = none →
      (∀ k, k ≠ "weather" → (checkAll cfg sets env f s).st.lastState k = s.lastState k) ∧
      (∀ a ∈ (checkAll cfg sets env f s).log, a.category = .weather)) ∧
    ((f.wd = none ∨ ∃ wd, f.wd = some wd ∧ wd.weather = none) →
      (∀ e ∈ cfg.STOCK_CATEGORY, e.2.1 ≠ "weather") →
      (checkAll cfg sets env f s).st.lastState "weather" = s.lastState "weather" ∧
      (∀ a ∈ (checkAll cfg sets env f s).log, a.category ≠ .weather)) := by
  constructor
  · intro hnull
    constructor
    · intro k hk
      apply checkAll_frame
      intro cat hcat heq
      obtain ⟨hp, -⟩ := checkAll_visited cfg sets env f s cat hcat
      cases cat with
      | stock key apiKey => simp [payloadOf, hnull] at hp
      | weather => exact hk heq.symm
      | merchant => simp [payloadOf, hnull] at hp
    · intro a ha
      obtain ⟨-, hact⟩ := checkAll_origin cfg sets env f s a ha
      cases hc : a.category with
      | stock key apiKey =>
        rw [hc] at hact
        obtain ⟨sa, -, hsa, -⟩ := hact
        rw [hnull] at hsa
        exact absurd hsa (by simp)
      | weather => rfl
      | merchant =>
        rw [hc] at hact
        obtain ⟨sa, -, hsa, -⟩ := hact
        rw [hnull] at hsa
        exact absurd hsa (by simp)
  · intro hnull hkeys
    have hws : f.wd.bind (fun wd => wd.weather) = none := by
      rcases hnull with h | ⟨wd, h1, h2⟩
      · rw [h]; rfl
      · rw [h1]; exact h2
    constructor
    · apply checkAll_frame
      intro cat hcat heq
      obtain ⟨hp, hl⟩ := checkAll_visited cfg sets env f s cat hcat
      cases cat with
      | stock key apiKey =>
        obtain ⟨title, hmem⟩ := hl
        exact hkeys _ hmem heq
      | weather => simp [payloadOf, hws] at hp
      | merchant => simp [Category.stateKey] at heq
    · intro a ha hc
      obtain ⟨-, hact⟩ := checkAll_origin cfg sets env f s a ha
      rw [hc] at hact
      obtain ⟨ws, -, h, -⟩ := hact
      rw [hws] at h
      exact absurd h (by simp)

/-- Witness of C8: without stock data only the weather snapshot changes and only the
weather is notified; without weather data the weather snapshot stays. -/
theorem C8_null_fetch_mutates_nothing_witness :
    ((∀ k, k ≠ "weather" →
        (checkAll exCfg exSetsWeather exEnv exFetchRainInfo exStateCarrot).st.lastState k
          = exStateCarrot.lastState k) ∧
      (∀ a ∈ (checkAll exCfg exSetsWeather exEnv exFetchRainInfo exStateCarrot).log,
        a.category = .weather)) ∧
    ((checkAll exCfg exSets exEnv exFetch exStateCarrot).st.lastState "weather"
        = exStateCarrot.lastState "weather" ∧
      (∀ a ∈ (checkAll exCfg exSets exEnv exFetch exStateCarrot).log,
        a.category ≠ .weather)) ∧
    (checkAll exCfg exSetsWeather exEnv exFetchRainInfo exStateCarrot).log.length = 1 :=
  ⟨(C8_null_fetch_mutates_nothing exCfg exSetsWeather exEnv exFetchRainInfo exStateCarrot).1 rfl,
    (C8_null_fetch_mutates_nothing exCfg exSets exEnv exFetch exStateCarrot).2 (Or.inl rfl)
      (by decide),
    by decide⟩

/-- C9, the code at the failing input: the weather changed to an active, non-expired
rain while the info fetch returned `null`. The cycle stores the new weather snapshot,
then raises at `infoData.find` before any call of `send`; the exception is caught, the
save is skipped. The next cycle fetches the same weather, now with the info data, finds
the snapshot unchanged and sends nothing: the rain is never notified. With the info data
in the first cycle the notification is sent. -/
theorem C9_info_failure_loses_weather :
    exState.lastState "weather" = none ∧
    weatherExpiry exRain ≥ exEnv.weatherNow ∧
    (checkAll exCfg exSetsWeather exEnv exFetchRain exState).log = [] ∧
    (checkAll exCfg exSetsWeather exEnv exFetchRain exState).caught = true ∧
    (checkAll exCfg exSetsWeather exEnv exFetchRain exState).st.lastState "weather"
      = some (stringifyWeather [exRain]) ∧
    (checkAll exCfg exSetsWeather exEnv exFetchRain exState).st.saved "weather" = none ∧
    (checkAll exCfg exSetsWeather exEnv exFetchRainInfo
      (checkAll exCfg exSetsWeather exEnv exFetchRain exState).st).log = [] ∧
    (checkAll exCfg exSetsWeather exEnv exFetchRainInfo exState).log.map
      (fun a => (a.category, a.guild, a.embed.description))
      = [(Category.weather, "g1", "Status: Active\nWet")] := by
  decide

/-- C10: no channel, no notification. A guild for which no entry of `channelsData` has
a resolvable channel for a category receives no call of `send` of that category in the
cycle, neither through a webhook nor through a channel, whatever roles and webhooks are
stored for it. -/
theorem C10_no_channel_no_notification (cfg : Config) (sets : Settings) (env : Env)
    (f : Fetched) (s : State) (gId : String) (cat : Category)
    (hnone : ∀ chs, (gId, chs) ∈ sets.channelsData →
      resolveChannel env (chs cat.channelField) = none) :
    (checkAll cfg sets env f s).log.filter (fun a => a.guild = gId ∧ a.category = cat) = [] := by
  rw [List.filter_eq_nil_iff]
  intro a ha hcat
  have hcat : a.guild = gId ∧ a.category = cat := by simpa using hcat
  obtain ⟨⟨chs, hmem, hres⟩, -⟩ := checkAll_origin cfg sets env f s a ha
  rw [hcat.1] at hmem
  rw [hcat.2] at hres
  exact hres (hnone chs hmem)

/-- Witness of C10: guild `g2` has a seed role and a seed webhook but no channel, and
receives nothing while two other guilds are notified. -/
theorem C10_no_channel_no_notification_witness :
    exSets.rolesData "g2" "seed" = some "r2" ∧
    exSets.webhooksData "g2" "seed" = some ⟨"h2", "t2"⟩ ∧
    (checkAll exCfg exSets exEnv exFetch exState).log.filter
      (fun a => a.guild = "g2" ∧ a.category = .stock "seed" "seed_stock") = [] ∧
    (checkAll exCfg exSets exEnv exFetch exState).log.length = 2 :=
  ⟨by decide, by decide,
    C10_no_channel_no_notification exCfg exSets exEnv exFetch exState "g2"
      (.stock "seed" "seed_stock") (by
        intro chs hmem
        simp only [exSets, List.mem_cons, Prod.mk.injEq, List.mem_singleton,
          List.not_mem_nil, or_false] at hmem
        rcases hmem with ⟨h, -⟩ | ⟨-, h⟩ | ⟨h, -⟩
        · exact absurd h (by decide)
        · rw [h]; rfl
        · exact absurd h (by decide)),
    by decide⟩

/-! ## The normal form of keys -/

theorem stripEnds_eq (l : List Char) : stripEnds l = dropTrail (dropLead l) := by
  unfold stripEnds dropTrail dropLead
  cases l with
  | nil => rfl
  | cons c t =>
    by_cases hc : c = '_'
    · subst hc
      simp only [if_true]
      cases hr : t.reverse with
      | nil => rfl
      | cons d u =>
        by_cases hd : d = '_'
        · subst hd; simp
        · simp only [if_neg hd]
          split
          · next heq => simp at heq; exact absurd heq.1 hd
          · rfl
    · simp only [if_neg hc]
      have h1 : (match c :: t with
          | '_' :: t => t
          | x => c :: t) = c :: t := by
        split
        · next heq => simp at heq; exact absurd heq.1 hc
        · rfl
      rw [h1]
      cases hr : (c :: t).reverse with
      | nil => rfl
      | cons d u =>
        by_cases hd : d = '_'
        · subst hd; simp
        · simp only [if_neg hd]
          split
          · next heq => simp at heq; exact absurd heq.1 hd
          · rfl

theorem dropTrail_concat (l : List Char) (x : Char) :
    dropTrail (l ++ [x]) = if x = '_' then l else l ++ [x] := by
  unfold dropTrail
  simp only [List.reverse_append, List.reverse_cons, List.reverse_nil, List.nil_append,
    List.singleton_append, List.reverse_reverse]

theorem dropTrail_cons (x : Char) (l : List Char) (h : l ≠ []) :
    dropTrail (x :: l) = x :: dropTrail l := by
  obtain ⟨l1, y, rfl⟩ := (List.eq_nil_or_concat l).resolve_left h
  rw [List.concat_eq_append, ← List.cons_append, dropTrail_concat, dropTrail_concat]
  split <;> rfl

theorem dropTrail_single (x : Char) : dropTrail [x] = if x = '_' then [] else [x] := by
  have := dropTrail_concat [] x
  simpa using this

theorem isKeyChar_ne_underscore {c : Char} (h : isKeyChar c = true) : c ≠ '_' := by
  intro hc
  subst hc
  exact absurd h (by decide)

theorem replaceRuns_key (b : Bool) {c : Char} (cs : List Char) (h : isKeyChar c = true) :
    replaceRuns b (c :: cs) = c :: replaceRuns false cs := by
  simp [replaceRuns, h]

theorem replaceRuns_true_other {c : Char} (cs : List Char) (h : isKeyChar c = false) :
    replaceRuns true (c :: cs) = replaceRuns true cs := by
  simp [replaceRuns, h]

theorem replaceRuns_false_other {c : Char} (cs : List Char) (h : isKeyChar c = false) :
    replaceRuns false (c :: cs) = '_' :: replaceRuns true cs := by
  simp [replaceRuns, h]

theorem dropLead_replaceRuns (l : List Char) :
    dropLead (replaceRuns false l) = replaceRuns true l := by
  cases l with
  | nil => rfl
  | cons c cs =>
    cases h : isKeyChar c with
    | true =>
      rw [replaceRuns_key false cs h, replaceRuns_key true cs h]
      simp [dropLead, isKeyChar_ne_underscore h]
    | false =>
      rw [replaceRuns_false_other cs h, replaceRuns_true_other cs h]
      simp [dropLead]

theorem keyRuns_other {c : Char} (cs : List Char) (h : isKeyChar c = false) :
    keyRuns (c :: cs) = keyRuns cs := by
  simp [keyRuns, h]

theorem consRun_ne_nil (c : Char) (rs : List (List Char)) : consRun c rs ≠ [] := by
  cases rs <;> simp [consRun]

theorem keyRuns_key_ne_nil {c : Char} (cs : List Char) (h : isKeyChar c = true) :
    keyRuns (c :: cs) ≠ [] := by
  simp only [keyRuns, h, if_true]
  split
  · exact consRun_ne_nil _ _
  · simp

theorem keyRuns_ne_nil_of_starts {l : List Char} (h : startsWithKey l = true) :
    keyRuns l ≠ [] := by
  cases l with
  | nil => simp [startsWithKey] at h
  | cons c cs => exact keyRuns_key_ne_nil cs h

theorem replaceRuns_true_eq_nil (l : List Char) :
    replaceRuns true l = [] ↔ keyRuns l = [] := by
  induction l with
  | nil => simp [replaceRuns, keyRuns]
  | cons c cs ih =>
    cases h : isKeyChar c with
    | true =>
      rw [replaceRuns_key true cs h]
      simp [keyRuns_key_ne_nil cs h]
    | false =>
      rw [replaceRuns_true_other cs h, keyRuns_other cs h]
      exact ih

theorem replaceRuns_starts {l : List Char} (h : startsWithKey l = true) :
    replaceRuns false l = replaceRuns true l ∧ replaceRuns true l ≠ [] := by
  cases l with
  | nil => simp [startsWithKey] at h
  | cons c cs =>
    have hc : isKeyChar c = true := h
    rw [replaceRuns_key false cs hc, replaceRuns_key true cs hc]
    simp

theorem intercalate_nil (sep : List Char) : List.intercalate sep [] = [] := rfl

theorem intercalate_single (sep r : List Char) : List.intercalate sep [r] = r := by
  simp [List.intercalate, List.intersperse]

theorem intercalate_cons_cons (sep r r2 : List Char) (rs : List (List Char)) :
    List.intercalate sep (r :: r2 :: rs) = r ++ sep ++ List.intercalate sep (r2 :: rs) := by
  simp [List.intercalate, List.intersperse]

theorem intercalate_consRun (sep : List Char) (c : Char) (r : List Char)
    (rs : List (List Char)) :
    List.intercalate sep (consRun c (r :: rs)) = c :: List.intercalate sep (r :: rs) := by
  cases rs with
  | nil => simp [consRun, intercalate_single]
  | cons r2 rs => simp [consRun, intercalate_cons_cons]

/-- Without the underscore at its end, the replacement started inside a run is the join
of the key runs. -/
theorem dropTrail_replaceRuns (l : List Char) :
    dropTrail (replaceRuns true l) = List.intercalate ['_'] (keyRuns l) := by
  induction l with
  | nil => rfl
  | cons c cs ih =>
    cases h : isKeyChar c with
    | false =>
      rw [replaceRuns_true_other cs h, keyRuns_other cs h]
      exact ih
    | true =>
      rw [replaceRuns_key true cs h]
      have hc : c ≠ '_' := isKeyChar_ne_underscore h
      cases hs : startsWithKey cs with
      | true =>
        obtain ⟨h1, h2⟩ := replaceRuns_starts hs
        rw [h1, dropTrail_cons c _ h2, ih]
        simp only [keyRuns, h, hs, if_true]
        cases hk : keyRuns cs with
        | nil => exact absurd hk (keyRuns_ne_nil_of_starts hs)
        | cons r rs => rw [intercalate_consRun]
      | false =>
        simp only [keyRuns, h, hs, if_true, Bool.false_eq_true, if_false]
        cases cs with
        | nil =>
          simp [replaceRuns, keyRuns, dropTrail_single, hc, intercalate_single]
        | cons d ds =>
          have hd : isKeyChar d = false := hs
          rw [replaceRuns_false_other ds hd]
          rw [replaceRuns_true_other ds hd] at ih
          cases hk : keyRuns (d :: ds) with
          | nil =>
            have hnil : replaceRuns true ds = [] := by
              rw [replaceRuns_true_eq_nil, ← keyRuns_other ds hd]
              exact hk
            rw [hnil, dropTrail_cons c _ (by simp), dropTrail_single]
            simp [intercalate_single]
          | cons r rs =>
            have hne : replaceRuns true ds ≠ [] := by
              intro hnil
              rw [replaceRuns_true_eq_nil, ← keyRuns_other ds hd, hk] at hnil
              simp at hnil
            rw [dropTrail_cons c _ (by simp), dropTrail_cons '_' _ hne, ih, hk,
              intercalate_cons_cons]
            simp

/-- The characters of `normalizeKey` are the key runs of the lowercased input joined by
underscores. -/
theorem normalizeChars_eq (l : List Char) :
    normalizeChars l = List.intercalate ['_'] (keyRuns (toLowerCase l)) := by
  unfold normalizeChars
  rw [stripEnds_eq, dropLead_replaceRuns, dropTrail_replaceRuns]

theorem isKeyChar_iff (c : Char) :
    isKeyChar c = true ↔ (97 ≤ c.toNat ∧ c.toNat ≤ 122) ∨ (48 ≤ c.toNat ∧ c.toNat ≤ 57) := by
  unfold isKeyChar
  have ha : 'a'.toNat = 97 := rfl
  have hz : 'z'.toNat = 122 := rfl
  have h0 : '0'.toNat = 48 := rfl
  have h9 : '9'.toNat = 57 := rfl
  rw [ha, hz, h0, h9]
  simp

theorem underscore_toNat : '_'.toNat = 95 := rfl

/-- Lower case characters, digits and the underscore are their own lower case. -/
theorem lowerChar_fixed {c : Char} (h : isKeyChar c = true ∨ c = '_') : lowerChar c = [c] := by
  have hn : (97 ≤ c.toNat ∧ c.toNat ≤ 122) ∨ (48 ≤ c.toNat ∧ c.toNat ≤ 57) ∨ c.toNat = 95 := by
    rcases h with h | h
    · rcases (isKeyChar_iff c).1 h with h | h
      · exact Or.inl h
      · exact Or.inr (Or.inl h)
    · subst h
      exact Or.inr (Or.inr rfl)
  unfold lowerChar Char.toLower
  have h1 : c.toNat ≠ 0x212A := by omega
  have h2 : c.toNat ≠ 0x0130 := by omega
  have h3 : ¬ (c.toNat ≥ 65 ∧ c.toNat ≤ 90) := by omega
  simp only [if_neg h1, if_neg h2, if_neg h3]

theorem toLowerCase_fixed {l : List Char} (h : ∀ c ∈ l, isKeyChar c = true ∨ c = '_') :
    toLowerCase l = l := by
  induction l with
  | nil => rfl
  | cons c cs ih =>
    unfold toLowerCase at ih ⊢
    rw [List.flatMap_cons, lowerChar_fixed (h c (List.mem_cons_self _ _)),
      ih (fun d hd => h d (List.mem_cons_of_mem _ hd))]
    rfl

theorem keyRuns_keyRun (l : List Char) : ∀ r ∈ keyRuns l, KeyRun r := by
  induction l with
  | nil => intro r hr; simp [keyRuns] at hr
  | cons c cs ih =>
    intro r hr
    cases h : isKeyChar c with
    | false =>
      rw [keyRuns_other cs h] at hr
      exact ih r hr
    | true =>
      simp only [keyRuns, h, if_true] at hr
      split at hr
      · cases hk : keyRuns cs with
        | nil =>
          rw [hk] at hr
          simp only [consRun, List.mem_singleton] at hr
          subst hr
          exact ⟨by simp, by simpa using h⟩
        | cons r1 rs =>
          rw [hk] at hr ih
          simp only [consRun, List.mem_cons] at hr
          rcases hr with hr | hr
          · subst hr
            refine ⟨by simp, ?_⟩
            intro d hd
            rcases List.mem_cons.1 hd with hd | hd
            · subst hd; exact h
            · exact (ih r1 (List.mem_cons_self _ _)).2 d hd
          · exact ih r (List.mem_cons_of_mem _ hr)
      · rcases List.mem_cons.1 hr with hr | hr
        · subst hr
          exact ⟨by simp, by simpa using h⟩
        · exact ih r hr

theorem keyRuns_key {c : Char} (cs : List Char) (h : isKeyChar c = true) :
    keyRuns (c :: cs)
      = if startsWithKey cs = true then consRun c (keyRuns cs) else [c] :: keyRuns cs := by
  rw [keyRuns, if_pos h]

theorem keyRuns_append_run {r : List Char} (hr : KeyRun r) (t : List Char)
    (ht : startsWithKey t = false) : keyRuns (r ++ t) = r :: keyRuns t := by
  obtain ⟨hne, hkey⟩ := hr
  induction r with
  | nil => exact absurd rfl hne
  | cons c r1 ih =>
    have hc : isKeyChar c = true := hkey c (List.mem_cons_self _ _)
    cases r1 with
    | nil =>
      rw [List.singleton_append, keyRuns_key t hc, ht]
      rfl
    | cons c2 r2 =>
      have hc2 : isKeyChar c2 = true := hkey c2 (by simp)
      have hs : startsWithKey (c2 :: r2 ++ t) = true := hc2
      have := ih (by simp) (fun d hd => hkey d (List.mem_cons_of_mem _ hd))
      rw [List.cons_append, keyRuns_key _ hc, hs, this]
      rfl

/-- The key runs of a join of key runs are these runs. -/
theorem keyRuns_intercalate (runs : List (List Char)) (h : ∀ r ∈ runs, KeyRun r) :
    keyRuns (List.intercalate ['_'] runs) = runs := by
  induction runs with
  | nil => rfl
  | cons r rs ih =>
    have hr := h r (List.mem_cons_self _ _)
    have hrs := ih (fun x hx => h x (List.mem_cons_of_mem _ hx))
    cases rs with
    | nil =>
      rw [intercalate_single]
      have := keyRuns_append_run hr [] rfl
      simpa [keyRuns] using this
    | cons r2 rs2 =>
      rw [intercalate_cons_cons, List.append_assoc, keyRuns_append_run hr _ (by rfl)]
      have hu : isKeyChar '_' = false := by decide
      rw [List.singleton_append, keyRuns_other _ hu, hrs]

theorem intercalate_chars (runs : List (List Char)) (h : ∀ r ∈ runs, KeyRun r) :
    ∀ c ∈ List.intercalate ['_'] runs, isKeyChar c = true ∨ c = '_' := by
  induction runs with
  | nil => intro c hc; simp [intercalate_nil] at hc
  | cons r rs ih =>
    have hr := h r (List.mem_cons_self _ _)
    have hrs := ih (fun x hx => h x (List.mem_cons_of_mem _ hx))
    intro c hc
    cases rs with
    | nil =>
      rw [intercalate_single] at hc
      exact Or.inl (hr.2 c hc)
    | cons r2 rs2 =>
      rw [intercalate_cons_cons] at hc
      simp only [List.mem_append, List.mem_singleton] at hc
      rcases hc with (hc | hc) | hc
      · exact Or.inl (hr.2 c hc)
      · exact Or.inr hc
      · exact hrs c hc

/-! ## C14, C15 and C16: `normalizeKey` -/

theorem intercalate_head (runs : List (List Char)) (h : ∀ r ∈ runs, KeyRun r) :
    ∀ c, (List.intercalate ['_'] runs).head? = some c → isKeyChar c = true := by
  intro c hc
  cases runs with
  | nil => simp [intercalate_nil] at hc
  | cons r rs =>
    obtain ⟨hne, hkey⟩ := h r (List.mem_cons_self _ _)
    cases r with
    | nil => exact absurd rfl hne
    | cons d r1 =>
      have : (List.intercalate ['_'] ((d :: r1) :: rs)).head? = some d := by
        cases rs with
        | nil => rw [intercalate_single]; rfl
        | cons r2 rs2 => rw [intercalate_cons_cons]; rfl
      rw [this] at hc
      injection hc with hc
      subst hc
      exact hkey d (List.mem_cons_self _ _)

theorem intercalate_getLast (runs : List (List Char)) (h : ∀ r ∈ runs, KeyRun r) :
    ∀ c, (List.intercalate ['_'] runs).getLast? = some c → isKeyChar c = true := by
  induction runs with
  | nil => intro c hc; simp [intercalate_nil] at hc
  | cons r rs ih =>
    intro c hc
    obtain ⟨hne, hkey⟩ := h r (List.mem_cons_self _ _)
    have hrs := ih (fun x hx => h x (List.mem_cons_of_mem _ hx))
    cases rs with
    | nil =>
      rw [intercalate_single] at hc
      exact hkey c (List.mem_of_getLast?_eq_some hc)
    | cons r2 rs2 =>
      have hne2 : List.intercalate ['_'] (r2 :: rs2) ≠ [] := by
        intro hnil
        obtain ⟨hne2, -⟩ := h r2 (by simp)
        cases r2 with
        | nil => exact hne2 rfl
        | cons d r3 =>
          have : (List.intercalate ['_'] ((d :: r3) :: rs2)).head? = some d := by
            cases rs2 with
            | nil => rw [intercalate_single]; rfl
            | cons r4 rs4 => rw [intercalate_cons_cons]; rfl
          rw [hnil] at this
          simp at this
      rw [intercalate_cons_cons, List.getLast?_append_of_ne_nil _ hne2] at hc
      exact hrs c hc

theorem chain_append_keys (R : Char → Char → Prop) (hR : ∀ a b, a ≠ '_' → R a b)
    (r t : List Char) (hr : ∀ c ∈ r, c ≠ '_') (ht : List.Chain' R t) :
    List.Chain' R (r ++ t) := by
  induction r with
  | nil => exact ht
  | cons c r1 ih =>
    rw [List.cons_append, List.chain'_cons']
    refine ⟨fun y _ => hR c y (hr c (List.mem_cons_self _ _)), ?_⟩
    exact ih (fun d hd => hr d (List.mem_cons_of_mem _ hd))

theorem intercalate_chain (runs : List (List Char)) (h : ∀ r ∈ runs, KeyRun r) :
    List.Chain' (fun a b => ¬ (a = '_' ∧ b = '_')) (List.intercalate ['_'] runs) := by
  induction runs with
  | nil => exact List.chain'_nil
  | cons r rs ih =>
    obtain ⟨-, hkey⟩ := h r (List.mem_cons_self _ _)
    have hrs := ih (fun x hx => h x (List.mem_cons_of_mem _ hx))
    have hr : ∀ c ∈ r, c ≠ '_' := fun c hc => isKeyChar_ne_underscore (hkey c hc)
    cases rs with
    | nil =>
      rw [intercalate_single]
      have := chain_append_keys (fun a b => ¬ (a = '_' ∧ b = '_')) (fun a b ha hab => ha hab.1)
        r [] hr List.chain'_nil
      simpa using this
    | cons r2 rs2 =>
      rw [intercalate_cons_cons, List.append_assoc]
      refine chain_append_keys (fun a b => ¬ (a = '_' ∧ b = '_')) (fun a b ha hab => ha hab.1)
        r _ hr ?_
      rw [List.singleton_append, List.chain'_cons']
      refine ⟨?_, hrs⟩
      intro y hy hab
      have hk := intercalate_head (r2 :: rs2) (fun x hx => h x (List.mem_cons_of_mem _ hx)) y hy
      exact isKeyChar_ne_underscore hk hab.2

theorem keyRuns_eq_nil {l : List Char} (h : ∀ c ∈ l, isKeyChar c = false) : keyRuns l = [] := by
  induction l with
  | nil => rfl
  | cons c cs ih =>
    rw [keyRuns_other cs (h c (List.mem_cons_self _ _))]
    exact ih (fun d hd => h d (List.mem_cons_of_mem _ hd))

theorem normalizeChars_idem (l : List Char) :
    normalizeChars (normalizeChars l) = normalizeChars l := by
  have hruns := keyRuns_keyRun (toLowerCase l)
  rw [normalizeChars_eq l, normalizeChars_eq,
    toLowerCase_fixed (intercalate_chars _ hruns), keyRuns_intercalate _ hruns]

/-- Examples of keys: capitals, blanks and symbols, underscores only, the Kelvin sign. -/
theorem normalizeKey_examples :
    normalizeKey "  Blue Berry!! " = "blue_berry" ∧ normalizeKey "__ _" = "" ∧
    normalizeKey "a__b" = "a_b" ∧ normalizeKey "\u212A9" = "k9" ∧
    normalizeRef "  Blue Berry!! " = "blue_berry" ∧
    keyRuns "ab, c1".data = ["ab".data, "c1".data] := by
  decide

/-- C14: `normalizeKey` is idempotent: for every string `s`,
`normalizeKey(normalizeKey(s)) = normalizeKey(s)`. -/
theorem C14_normalizeKey_idempotent (s : String) :
    normalizeKey (normalizeKey s) = normalizeKey s := by
  unfold normalizeKey
  rw [normalizeChars_idem]

/-- C15: the alphabet of `normalizeKey`. For every string, the empty one and those
made of symbols or white space included, `normalizeKey` is a total function whose value
has only characters of `[a-z0-9_]` and neither starts nor ends with an underscore. -/
theorem C15_normalizeKey_alphabet (s : String) :
    (∀ c ∈ (normalizeKey s).data, isKeyChar c = true ∨ c = '_') ∧
    (normalizeKey s).data.head? ≠ some '_' ∧
    (normalizeKey s).data.getLast? ≠ some '_' := by
  have hruns := keyRuns_keyRun (toLowerCase s.data)
  unfold normalizeKey
  simp only [normalizeChars_eq]
  refine ⟨intercalate_chars _ hruns, ?_, ?_⟩
  · intro h
    exact isKeyChar_ne_underscore (intercalate_head _ hruns _ h) rfl
  · intro h
    exact isKeyChar_ne_underscore (intercalate_getLast _ hruns _ h) rfl

/-- C16: `normalizeKey` equals its reference definition: the maximal runs of `[a-z0-9]`
characters of the lowercased string, in order, joined by one underscore each. In
particular its value never has two consecutive underscores, and it is empty when the
lowercased string has no character of `[a-z0-9]`. -/
theorem C16_normalizeKey_reference (s : String) :
    normalizeKey s = normalizeRef s ∧
    List.Chain' (fun a b => ¬ (a = '_' ∧ b = '_')) (normalizeKey s).data ∧
    ((∀ c ∈ toLowerCase s.data, isKeyChar c = false) → normalizeKey s = "") := by
  have hruns := keyRuns_keyRun (toLowerCase s.data)
  refine ⟨?_, ?_, ?_⟩
  · unfold normalizeKey normalizeRef
    rw [normalizeChars_eq]
  · unfold normalizeKey
    rw [normalizeChars_eq]
    exact intercalate_chain _ hruns
  · intro h
    unfold normalizeKey
    rw [normalizeChars_eq, keyRuns_eq_nil h]
    rfl

/-! ## Trimming does not change the key -/

theorem jsIsSpace_toNat {c : Char} (h : jsIsSpace c = true) :
    c.toNat < 48 ∨ (57 < c.toNat ∧ c.toNat < 65) ∨
      (122 < c.toNat ∧ c.toNat ≠ 0x0130 ∧ c.toNat ≠ 0x212A) := by
  unfold jsIsSpace at h
  simp only [Bool.or_eq_true, Bool.and_eq_true, decide_eq_true_eq] at h
  omega

theorem lowerChar_space {c : Char} (h : jsIsSpace c = true) :
    lowerChar c = [c] ∧ isKeyChar c = false := by
  have hn := jsIsSpace_toNat h
  constructor
  · unfold lowerChar Char.toLower
    have h1 : c.toNat ≠ 0x212A := by omega
    have h2 : c.toNat ≠ 0x0130 := by omega
    have h3 : ¬ (c.toNat ≥ 65 ∧ c.toNat ≤ 90) := by omega
    simp only [if_neg h1, if_neg h2, if_neg h3]
  · cases hk : isKeyChar c with
    | false => rfl
    | true =>
      have := (isKeyChar_iff c).1 hk
      omega

theorem toLowerCase_append (a b : List Char) :
    toLowerCase (a ++ b) = toLowerCase a ++ toLowerCase b := by
  unfold toLowerCase
  rw [List.flatMap_append]

theorem toLowerCase_spaces {l : List Char} (h : ∀ c ∈ l, jsIsSpace c = true) :
    ∀ c ∈ toLowerCase l, isKeyChar c = false := by
  induction l with
  | nil => intro c hc; simp [toLowerCase] at hc
  | cons d ds ih =>
    intro c hc
    obtain ⟨h1, h2⟩ := lowerChar_space (h d (List.mem_cons_self _ _))
    unfold toLowerCase at hc ih
    rw [List.flatMap_cons, h1] at hc
    rcases List.mem_append.1 hc with hc | hc
    · rw [List.mem_singleton] at hc
      subst hc
      exact h2
    · exact ih (fun x hx => h x (List.mem_cons_of_mem _ hx)) c hc

theorem keyRuns_append_left {p : List Char} (h : ∀ c ∈ p, isKeyChar c = false)
    (x : List Char) : keyRuns (p ++ x) = keyRuns x := by
  induction p with
  | nil => rfl
  | cons c cs ih =>
    rw [List.cons_append, keyRuns_other _ (h c (List.mem_cons_self _ _))]
    exact ih (fun d hd => h d (List.mem_cons_of_mem _ hd))

theorem startsWithKey_append_right {q : List Char} (h : ∀ c ∈ q, isKeyChar c = false)
    (x : List Char) : startsWithKey (x ++ q) = startsWithKey x := by
  cases x with
  | nil =>
    cases q with
    | nil => rfl
    | cons d ds => exact h d (List.mem_cons_self _ _)
  | cons c cs => rfl

theorem keyRuns_append_right {q : List Char} (h : ∀ c ∈ q, isKeyChar c = false)
    (x : List Char) : keyRuns (x ++ q) = keyRuns x := by
  induction x with
  | nil => exact keyRuns_eq_nil h
  | cons c cs ih =>
    cases hc : isKeyChar c with
    | false =>
      rw [List.cons_append, keyRuns_other _ hc, keyRuns_other _ hc]
      exact ih
    | true =>
      rw [List.cons_append, keyRuns_key _ hc, keyRuns_key _ hc,
        startsWithKey_append_right h, ih]

/-- A list is its trimmed part between two lists of white space. -/
theorem trimChars_split (l : List Char) :
    ∃ p q, l = p ++ trimChars l ++ q ∧ (∀ c ∈ p, jsIsSpace c = true) ∧
      (∀ c ∈ q, jsIsSpace c = true) := by
  refine ⟨l.takeWhile jsIsSpace, ((l.dropWhile jsIsSpace).reverse.takeWhile jsIsSpace).reverse,
    ?_, ?_, ?_⟩
  · unfold trimChars
    have h1 := List.takeWhile_append_dropWhile jsIsSpace l
    have h2 := List.takeWhile_append_dropWhile jsIsSpace (l.dropWhile jsIsSpace).reverse
    have h3 : l.dropWhile jsIsSpace
        = ((l.dropWhile jsIsSpace).reverse.dropWhile jsIsSpace).reverse ++
          ((l.dropWhile jsIsSpace).reverse.takeWhile jsIsSpace).reverse := by
      rw [← List.reverse_append, h2, List.reverse_reverse]
    rw [List.append_assoc, ← h3, h1]
  · intro c hc
    exact (List.mem_takeWhile_imp hc)
  · intro c hc
    rw [List.mem_reverse] at hc
    exact (List.mem_takeWhile_imp hc)

theorem normalizeChars_trim (l : List Char) :
    normalizeChars (trimChars l) = normalizeChars l := by
  obtain ⟨p, q, hl, hp, hq⟩ := trimChars_split l
  rw [normalizeChars_eq, normalizeChars_eq]
  conv_rhs => rw [hl]
  rw [toLowerCase_append, toLowerCase_append, keyRuns_append_right (toLowerCase_spaces hq),
    keyRuns_append_left (toLowerCase_spaces hp)]

/-- The key of a trimmed name is the key of the name. -/
theorem normalizeKey_trim (s : String) : normalizeKey (jsTrim s) = normalizeKey s := by
  unfold normalizeKey jsTrim
  rw [normalizeChars_trim]

/-! ## How the attempts of a cycle are composed -/

theorem attemptFor_eq {env : Env} {sets : Settings} {cat : Category}
    {pings : String → List String} {content : List String → Option String} {embed : Embed}
    {gId : String} {chs : String → Option String} {a : Attempt}
    (h : attemptFor env sets cat pings content embed gId chs = some a) :
    ∃ ch, resolveChannel env (chs cat.channelField) = some ch ∧ a.category = cat ∧
      a.guild = gId ∧ a.path = pathFor sets cat gId ch ∧ a.content = content (pings gId) ∧
      a.embed = embed := by
  unfold attemptFor at h
  split at h
  · exact absurd h (by simp)
  · next ch hch =>
    simp only [Option.some.injEq] at h
    subst h
    exact ⟨ch, hch, rfl, rfl, rfl, rfl, rfl⟩

theorem deliver_composed {env : Env} {sets : Settings} {cat : Category}
    {pings : String → List String} {content : List String → Option String} {embed : Embed}
    {a : Attempt}
    (h : a ∈ (deliver env (attemptFor env sets cat pings content embed) sets.channelsData []).2) :
    a.category = cat ∧ Routed sets env a ∧ a.content = content (pings a.guild) ∧
      a.embed = embed := by
  obtain ⟨gId, chs, hin, hmk⟩ := deliver_mem env _ _ a h
  obtain ⟨ch, h1, h2, h3, h4, h5, h6⟩ := attemptFor_eq hmk
  refine ⟨h2, ⟨chs, ch, ?_, ?_, ?_⟩, ?_, h6⟩
  · rw [h3]; exact hin
  · rw [h2]; exact h1
  · rw [h2, h3]; exact h4
  · rw [h3]; exact h5

theorem tryBlock_composed (cfg : Config) (sets : Settings) (env : Env) (f : Fetched) :
    Spec (fun _ _ => True) (fun _ new => ∀ a ∈ new, Routed sets env a ∧ Composed cfg sets env f a)
      (tryBlock cfg sets env f) := by
  have hR := sequential_forall (fun a => Routed sets env a ∧ Composed cfg sets env f a)
  apply spec_tryBlock hR
  · apply spec_stockBlock hR
    intro sa hsa e he
    apply spec_stockStep hR
    · intros; trivial
    · intros; trivial
    · intro ls vis first rest _ _ hitems _
      refine ⟨trivial, ?_⟩
      intro a ha
      obtain ⟨embed, hemb, ha⟩ := stockDeliver_mem ha
      obtain ⟨hc, hr, hcontent, hembed⟩ := deliver_composed ha
      refine ⟨hr, ?_⟩
      unfold Composed
      rw [hc]
      refine ⟨sa, e.2.2, first, rest, hsa, he, hitems, ?_, ?_⟩
      · rw [hcontent, hitems]
      · rw [hembed, ← hitems]
        exact hemb
  · apply spec_weatherBlock hR
    · intros; trivial
    · intro ls vis ws hws _ _
      refine ⟨trivial, ?_⟩
      intro w hw hactive _
      refine ⟨fun _ => by simp, ?_⟩
      intro info hinfo a ha
      obtain ⟨hc, hr, hcontent, hembed⟩ := deliver_composed ha
      refine ⟨hr, ?_⟩
      unfold Composed
      rw [hc]
      exact ⟨ws, w, info, hws, hw, hactive, hinfo, hcontent, hembed⟩
  · apply spec_merchantBlock hR
    · intros; trivial
    · intros; trivial
    · intro ls vis sa tm hsa htm _ _ _ _
      refine ⟨trivial, ?_⟩
      intro a ha
      obtain ⟨eb, hemb, ha⟩ := merchantDeliver_mem ha
      obtain ⟨hc, hr, hcontent, hembed⟩ := deliver_composed ha
      refine ⟨hr, ?_⟩
      unfold Composed
      rw [hc]
      exact ⟨sa, tm, hsa, htm, hcontent, by rw [hembed]; exact hemb⟩

/-- Every call of `send` of a cycle is routed and composed by the block of its category. -/
theorem checkAll_composed (cfg : Config) (sets : Settings) (env : Env) (f : Fetched)
    (s : State) (a : Attempt) (h : a ∈ (checkAll cfg sets env f s).log) :
    Routed sets env a ∧ Composed cfg sets env f a := by
  by_cases hs : s.isChecking = true
  · rw [checkAll_busy _ _ _ _ _ hs] at h
    simp at h
  · exact (checkAll_spec (tryBlock_composed cfg sets env f) s (by simpa using hs) trivial).2 a h

/-- The loop sends to the guilds in the order of the channel table, up to the first call
that raises. -/
theorem deliver_prefix (env : Env) (mk : String → (String → Option String) → Option Attempt)
    (chans : List (String × (String → Option String))) :
    (deliver env mk chans []).2 <+: chans.filterMap (fun p => mk p.1 p.2) := by
  induction chans with
  | nil => simp [deliver]
  | cons p rest ih =>
    obtain ⟨gId, chs⟩ := p
    simp only [deliver, List.filterMap_cons]
    cases hmk : mk gId chs with
    | none => simpa using ih
    | some a =>
      simp only []
      by_cases hf : env.sendFails a = true
      · simp only [hf, if_true, List.nil_append]
        exact ⟨_, rfl⟩
      · simp only [hf, Bool.false_eq_true, if_false, List.nil_append]
        rw [deliver_append]
        simp only [List.singleton_append]
        exact (List.prefix_cons_inj a).2 ih

/-- The guilds of the attempts of a channel table are the guilds whose channel for the
category resolves. -/
theorem attempts_guilds (env : Env) (sets : Settings) (cat : Category)
    (pings : String → List String) (content : List String → Option String) (embed : Embed)
    (chans : List (String × (String → Option String))) :
    (chans.filterMap fun p => attemptFor env sets cat pings content embed p.1 p.2).map
        (fun a => a.guild)
      = (chans.filter fun p => (resolveChannel env (p.2 cat.channelField)).isSome).map
          (fun p => p.1) := by
  induction chans with
  | nil => rfl
  | cons p rest ih =>
    rw [List.filterMap_cons, List.filter_cons]
    cases hr : resolveChannel env (p.2 cat.channelField) with
    | none =>
      simp only [attemptFor, hr, Option.isSome_none, Bool.false_eq_true, if_false]
      exact ih
    | some ch =>
      simp only [attemptFor, hr, Option.isSome_some, if_true, List.map_cons]
      exact congrArg (List.cons p.1) ih

/-! ## C11: precedence of the webhook -/

/-- C11: delivery-path precedence. Every call of `send` of a cycle goes to a guild whose
channel for the category resolves, through the webhook stored for the guild and the
category when there is one and to the channel otherwise, never both. In each delivery
loop (one notification) every guild receives at most one call, and when no call raises
exactly one call is made for each guild whose channel resolves. The guild identifiers are
the keys of the object `channelsData`, hence distinct. -/
theorem C11_delivery_path_precedence (cfg : Config) (sets : Settings) (env : Env)
    (f : Fetched) (s : State)
    (hkeys : (sets.channelsData.map (fun p => p.1)).Nodup) :
    (∀ a ∈ (checkAll cfg sets env f s).log, ∃ chs ch, (a.guild, chs) ∈ sets.channelsData ∧
      resolveChannel env (chs a.category.channelField) = some ch ∧
      a.path = match sets.webhooksData a.guild a.category.configKey with
        | some hook => Path.webhook hook
        | none => Path.channel ch) ∧
    (∀ cat pings content embed,
      ((deliver env (attemptFor env sets cat pings content embed) sets.channelsData []).2.map
        (fun a => a.guild)).Nodup ∧
      ((∀ a, env.sendFails a = false) →
        (deliver env (attemptFor env sets cat pings content embed) sets.channelsData []).2.map
            (fun a => a.guild)
          = (sets.channelsData.filter fun p =>
              (resolveChannel env (p.2 cat.channelField)).isSome).map (fun p => p.1))) := by
  constructor
  · intro a ha
    exact (checkAll_composed cfg sets env f s a ha).1
  · intro cat pings content embed
    constructor
    · have hpre := deliver_prefix env (attemptFor env sets cat pings content embed)
        sets.channelsData
      have hsub : ((deliver env (attemptFor env sets cat pings content embed)
          sets.channelsData []).2.map (fun a => a.guild)).Sublist
          (sets.channelsData.map (fun p => p.1)) := by
        refine (hpre.sublist.map _).trans ?_
        rw [attempts_guilds]
        exact (List.filter_sublist _).map _
      exact hkeys.sublist hsub
    · intro hok
      rw [deliver_allOk env _ _ hok]
      exact attempts_guilds env sets cat pings content embed sets.channelsData

/-- Witness of C11: the carrot notification goes to guild `g1` through its webhook only
and to guild `g3` through its channel, once each. -/
theorem C11_delivery_path_precedence_witness :
    (checkAll exCfg exSetsHook exEnv exFetch exState).log.map (fun a => (a.guild, a.path))
      = [("g1", Path.webhook ⟨"h1", "t1"⟩), ("g3", Path.channel "c3")] ∧
    (∀ a ∈ (checkAll exCfg exSetsHook exEnv exFetch exState).log,
      ∃ chs ch, (a.guild, chs) ∈ exSetsHook.channelsData ∧
      resolveChannel exEnv (chs a.category.channelField) = some ch ∧
      a.path = match exSetsHook.webhooksData a.guild a.category.configKey with
        | some hook => Path.webhook hook
        | none => Path.channel ch) :=
  ⟨by decide,
    (C11_delivery_path_precedence exCfg exSetsHook exEnv exFetch exState (by decide)).1⟩

/-! ## C12 and C13: the mention list -/

theorem rolePing_eq (sets : Settings) (gId key : String) :
    rolePing sets gId key = (truthyStr (sets.rolesData gId key)).toList.map mention := by
  unfold rolePing
  cases truthyStr (sets.rolesData gId key) <;> rfl

/-- The pings built by the loops are the mentions of the roles of the specification. -/
theorem listPings_eq (sets : Settings) (gId : String) (cat : Category) (items : List Item) :
    listPings sets gId cat items
      = (mentionRoles (sets.rolesData gId) cat.configKey
          (items.map (fun i => i.display_name))).map mention := by
  unfold listPings mentionRoles itemPings
  rw [List.map_append, rolePing_eq]
  congr 1
  induction items with
  | nil => rfl
  | cons i rest ih =>
    rw [List.flatMap_cons, ih, rolePing_eq, normalizeKey_trim, List.map_cons,
      List.filterMap_cons]
    cases truthyStr (sets.rolesData gId (normalizeKey i.display_name)) <;> rfl

/-- C12: mention ordering. For every destination and every stock or merchant payload, the
list of pings is the mention of the category role of the destination, when one is
configured, followed by the mentions of the roles configured for the normalized display
names of the items in payload order, without the items that have no role; and the
content of every stock or merchant message of a cycle is this list joined by spaces. -/
theorem C12_mention_ordering (cfg : Config) (sets : Settings) (env : Env) (f : Fetched)
    (s : State) :
    (∀ gId cat items, listPings sets gId cat items
      = (mentionRoles (sets.rolesData gId) cat.configKey
          (items.map (fun i => i.display_name))).map mention) ∧
    (∀ a ∈ (checkAll cfg sets env f s).log, a.category ≠ .weather →
      ∃ p, payloadOf f a.category = some p ∧
        a.content = contentOfList ((mentionRoles (sets.rolesData a.guild) a.category.configKey
          (p.itemList.map (fun i => i.display_name))).map mention)) := by
  refine ⟨listPings_eq sets, ?_⟩
  intro a ha hcat
  obtain ⟨-, hcomp⟩ := checkAll_composed cfg sets env f s a ha
  unfold Composed at hcomp
  cases hc : a.category with
  | stock key apiKey =>
    rw [hc] at hcomp
    obtain ⟨sa, title, first, rest, hsa, -, hitems, hcontent, -⟩ := hcomp
    refine ⟨.items (first :: rest), ?_, ?_⟩
    · simp [payloadOf, hsa, hitems]
    · rw [hcontent, listPings_eq]
      rfl
  | weather => exact absurd hc hcat
  | merchant =>
    rw [hc] at hcomp
    have horigin := (checkAll_origin cfg sets env f s a ha).2
    rw [hc] at horigin
    obtain ⟨sa, tm, hsa, htm, hne, -⟩ := horigin
    obtain ⟨sa2, tm2, hsa2, htm2, hcontent, -⟩ := hcomp
    rw [hsa] at hsa2
    injection hsa2 with hsa2
    subst hsa2
    rw [htm] at htm2
    injection htm2 with htm2
    subst htm2
    refine ⟨.merchant tm, ?_, ?_⟩
    · simp [payloadOf, hsa, htm, hne]
    · rw [hcontent, listPings_eq]
      rfl

/-- Witness of C12, the scenario of the specification: category role `R0`, item roles
`R1` for `X` and `R2` for `Y`, payload `Y` then `X`: the mentions are `R0`, `R2`, `R1`. -/
theorem C12_mention_ordering_witness :
    listPings exRolesOrder "g1" (.stock "seed" "seed_stock") exItemsYX
      = ["<@&R0>", "<@&R2>", "<@&R1>"] ∧
    (checkAll exCfg exRolesOrder exEnv exFetchYX exState).log.map (fun a => a.content)
      = [some "<@&R0> <@&R2> <@&R1>"] :=
  ⟨((C12_mention_ordering exCfg exRolesOrder exEnv exFetchYX exState).1 "g1"
      (.stock "seed" "seed_stock") exItemsYX).trans (by decide), by decide⟩

theorem nodup_filterMap_on {α β : Type} (g : α → Option β) (l : List α) (hl : l.Nodup)
    (hinj : ∀ a ∈ l, ∀ a' ∈ l, ∀ b, g a = some b → g a' = some b → a = a') :
    (l.filterMap g).Nodup := by
  induction l with
  | nil => simp
  | cons a rest ih =>
    rw [List.nodup_cons] at hl
    have hrest := ih hl.2 (fun x hx y hy b h1 h2 =>
      hinj x (List.mem_cons_of_mem _ hx) y (List.mem_cons_of_mem _ hy) b h1 h2)
    rw [List.filterMap_cons]
    cases hg : g a with
    | none => exact hrest
    | some b =>
      simp only []
      rw [List.nodup_cons]
      refine ⟨?_, hrest⟩
      intro hb
      rw [List.mem_filterMap] at hb
      obtain ⟨a', ha', hga'⟩ := hb
      have := hinj a (List.mem_cons_self _ _) a' (List.mem_cons_of_mem _ ha') b hg hga'
      rw [this] at hl
      exact hl.1 ha'

/-- C13, refuted as stated: two eggs of the same name have the same role, which is pushed
once for each of them: the list of mentions holds it twice, and so does the content of
the message sent by the cycle. -/
theorem C13_mention_duplicates_counterexample :
    listPings exSetsEgg "g1" (.stock "egg" "egg_stock") exEggs = ["<@&RE>", "<@&RE>"] ∧
    mentionRoles (exSetsEgg.rolesData "g1") "egg" (exEggs.map (fun i => i.display_name))
      = ["RE", "RE"] ∧
    (checkAll exCfgEgg exSetsEgg exEnv exFetchEgg exState).log.map
        (fun a => (a.guild, a.content, a.embed.description))
      = [("g1", some "<@&RE> <@&RE>", "Common Egg x2")] := by
  decide

/-- C13, amended: the mention list has no duplicate when the keys are distinct. For every
destination and every stock or merchant payload whose items have pairwise distinct
normalized display names, all different from the category key, and for which the roles
configured for these keys are pairwise distinct, the list of pings is the list of mentions
of a list of role identifiers in which each identifier occurs at most once. -/
theorem C13_mentions_distinct_for_distinct_keys (sets : Settings) (gId : String)
    (cat : Category) (items : List Item)
    (hkeys : (cat.configKey :: items.map (fun i => normalizeKey i.display_name)).Nodup)
    (hroles : ∀ k1 ∈ cat.configKey :: items.map (fun i => normalizeKey i.display_name),
      ∀ k2 ∈ cat.configKey :: items.map (fun i => normalizeKey i.display_name),
      ∀ r, truthyStr (sets.rolesData gId k1) = some r →
        truthyStr (sets.rolesData gId k2) = some r → k1 = k2) :
    listPings sets gId cat items
      = (mentionRoles (sets.rolesData gId) cat.configKey
          (items.map (fun i => i.display_name))).map mention ∧
    (mentionRoles (sets.rolesData gId) cat.configKey
      (items.map (fun i => i.display_name))).Nodup := by
  refine ⟨listPings_eq sets gId cat items, ?_⟩
  have h := nodup_filterMap_on (fun k => truthyStr (sets.rolesData gId k)) _ hkeys hroles
  have heq : mentionRoles (sets.rolesData gId) cat.configKey
      (items.map (fun i => i.display_name))
      = (cat.configKey :: items.map (fun i => normalizeKey i.display_name)).filterMap
          (fun k => truthyStr (sets.rolesData gId k)) := by
    unfold mentionRoles
    rw [List.filterMap_cons, List.filterMap_map, List.filterMap_map]
    cases truthyStr (sets.rolesData gId cat.configKey) <;> rfl
  rw [heq]
  exact h

/-- Witness of C13 as amended: in the ordering scenario the keys `seed`, `y` and `x` and
their roles are distinct, and so are the mentioned roles. -/
theorem C13_mentions_distinct_witness :
    mentionRoles (exRolesOrder.rolesData "g1") "seed" (exItemsYX.map (fun i => i.display_name))
      = ["R0", "R2", "R1"] ∧
    (mentionRoles (exRolesOrder.rolesData "g1") "seed"
      (exItemsYX.map (fun i => i.display_name))).Nodup :=
  ⟨by decide,
    (C13_mentions_distinct_for_distinct_keys exRolesOrder "g1" (.stock "seed" "seed_stock")
      exItemsYX (by decide) (by
        intro k1 h1 k2 h2 r hr1 hr2
        simp only [exItemsYX, Category.configKey, List.map_cons, List.map_nil, List.mem_cons,
          List.mem_singleton, List.not_mem_nil, or_false] at h1 h2
        have e1 : normalizeKey "Y" = "y" := by decide
        have e2 : normalizeKey "X" = "x" := by decide
        rw [e1, e2] at h1 h2
        rcases h1 with rfl | rfl | rfl <;> rcases h2 with rfl | rfl | rfl <;>
          first
          | rfl
          | (exfalso
             revert hr1 hr2
             simp [exRolesOrder, truthyStr]
             try (intro h; subst h; decide)))).2⟩

/-! ## C17: the aggregated list -/

theorem truthyStr_ne_empty {x : Option String} {e : String} (h : truthyStr x = some e) :
    e ≠ "" := by
  unfold truthyStr at h
  cases x with
  | none => simp at h
  | some s =>
    simp only [] at h
    split at h
    · simp at h
    · next hne =>
      injection h with h
      subst h
      exact hne

/-- The line built by the embed creators is the line of the specification. -/
theorem withEmoji_eq (cfg : Config) (name : String) (q : Nat) :
    withEmoji cfg name (lineText name q) = lineSpec cfg name q := by
  unfold withEmoji lineSpec getEmojiByKey lineText
  rw [normalizeKey_trim]
  cases h : truthyStr (cfg.EMOJI_MAPPING (normalizeKey name)) with
  | none => simp
  | some e => simp [truthyStr_ne_empty h]

theorem map_eq_self_of {α : Type} (g : α → α) (l : List α) (h : ∀ a ∈ l, g a = a) :
    l.map g = l := by
  induction l with
  | nil => rfl
  | cons a rest ih =>
    rw [List.map_cons, h a (List.mem_cons_self _ _),
      ih (fun x hx => h x (List.mem_cons_of_mem _ hx))]

theorem addTotal_mem {acc : List (String × Nat)} {n : String} (q : Nat)
    (h : n ∈ acc.map (fun e => e.1)) (hnd : (acc.map (fun e => e.1)).Nodup) :
    addTotal acc n q = acc.map (fun e => if e.1 = n then (e.1, e.2 + q) else e) := by
  induction acc with
  | nil => simp at h
  | cons e rest ih =>
    obtain ⟨k, v⟩ := e
    rw [List.map_cons, List.nodup_cons] at hnd
    by_cases hk : k = n
    · subst hk
      have hrest : rest.map (fun e => if e.1 = k then (e.1, e.2 + q) else e) = rest := by
        apply map_eq_self_of
        intro e he
        have : e.1 ≠ k := fun heq => hnd.1 (heq ▸ List.mem_map_of_mem (fun e => e.1) he)
        simp [this]
      simp only [addTotal, if_true, List.map_cons, hrest]
    · have hmem : n ∈ rest.map (fun e => e.1) := by
        rw [List.map_cons, List.mem_cons] at h
        rcases h with h | h
        · exact absurd h.symm hk
        · exact h
      simp only [addTotal, if_neg hk, List.map_cons, ih hmem hnd.2]

theorem addTotal_not_mem {acc : List (String × Nat)} {n : String} (q : Nat)
    (h : n ∉ acc.map (fun e => e.1)) : addTotal acc n q = acc ++ [(n, q)] := by
  induction acc with
  | nil => rfl
  | cons e rest ih =>
    obtain ⟨k, v⟩ := e
    rw [List.map_cons, List.mem_cons, not_or] at h
    have hk : k ≠ n := fun heq => h.1 heq.symm
    simp only [addTotal, if_neg hk, List.cons_append, ih h.2]

theorem eggTotal_cons (i : Item) (t : List Item) (m : String) :
    eggTotal (i :: t) m
      = (if i.display_name = m then countedQuantity i else 0) + eggTotal t m := by
  unfold eggTotal
  rw [List.filter_cons]
  by_cases h : i.display_name = m
  · simp [h]
  · simp [h]

theorem eggGroups_cons (i : Item) (t : List Item) :
    eggGroups (i :: t)
      = (i.display_name, countedQuantity i + eggTotal t i.display_name) ::
          (eggGroups t).filter (fun e => e.1 ≠ i.display_name) := by
  unfold eggGroups
  rw [List.map_cons, distinctFirst, List.map_cons, eggTotal_cons, if_pos rfl, List.filter_map]
  congr 1
  apply List.map_congr_left
  intro m hm
  rw [List.mem_filter] at hm
  have hne : i.display_name ≠ m := by
    intro heq
    have := hm.2
    simp [Function.comp, heq] at this
  rw [eggTotal_cons, if_neg hne, Nat.zero_add]

theorem eggGroups_keys (items : List Item) :
    ∀ e ∈ eggGroups items, ∃ i ∈ items, i.display_name = e.1 := by
  induction items with
  | nil => intro e he; simp [eggGroups, distinctFirst] at he
  | cons i t ih =>
    intro e he
    rw [eggGroups_cons, List.mem_cons] at he
    rcases he with he | he
    · subst he
      exact ⟨i, List.mem_cons_self _ _, rfl⟩
    · obtain ⟨j, hj, hje⟩ := ih e (List.mem_filter.1 he).1
      exact ⟨j, List.mem_cons_of_mem _ hj, hje⟩

/-- The `reduce` of `createEggEmbed` from a table of counts with distinct keys: the counts
of the table grow by the totals, and the groups of the new names follow. -/
theorem foldl_addTotal (items : List Item) :
    ∀ acc : List (String × Nat), (acc.map (fun e => e.1)).Nodup →
      items.foldl (fun a i => addTotal a i.display_name (numOr i.quantity 1)) acc
        = acc.map (fun e => (e.1, e.2 + eggTotal items e.1)) ++
          (eggGroups items).filter (fun e => decide (e.1 ∉ acc.map (fun e => e.1))) := by
  induction items with
  | nil =>
    intro acc _
    simp [eggGroups, distinctFirst, eggTotal]
  | cons i t ih =>
    intro acc hnd
    rw [List.foldl_cons]
    by_cases hmem : i.display_name ∈ acc.map (fun e => e.1)
    · have hkeys : (acc.map (fun e => if e.1 = i.display_name
          then (e.1, e.2 + numOr i.quantity 1) else e)).map (fun e => e.1)
          = acc.map (fun e => e.1) := by
        rw [List.map_map]
        apply List.map_congr_left
        intro e _
        simp only [Function.comp]
        split <;> rfl
      rw [addTotal_mem _ hmem hnd, ih _ (by rw [hkeys]; exact hnd), hkeys, List.map_map,
        eggGroups_cons, List.filter_cons]
      have hdrop : decide (i.display_name ∉ acc.map (fun e => e.1)) = false := by
        simpa using hmem
      rw [hdrop]
      simp only [Bool.false_eq_true, if_false]
      rw [List.filter_filter]
      congr 1
      · apply List.map_congr_left
        intro e _
        simp only [Function.comp]
        by_cases he : e.1 = i.display_name
        · rw [if_pos he, eggTotal_cons, if_pos he.symm]
          show (e.1, e.2 + numOr i.quantity 1 + eggTotal t e.1) = _
          rw [Nat.add_assoc]
          rfl
        · rw [if_neg he, eggTotal_cons, if_neg (fun h => he h.symm), Nat.zero_add]
      · apply List.filter_congr
        intro e _
        by_cases hk : e.1 ∈ acc.map (fun e => e.1)
        · simp [hk]
        · have hne : e.1 ≠ i.display_name := fun h => hk (h ▸ hmem)
          simp [hk, hne]
    · have hnd2 : ((acc ++ [(i.display_name, numOr i.quantity 1)]).map (fun e => e.1)).Nodup := by
        rw [List.map_append, List.map_cons, List.map_nil]
        rw [List.nodup_append]
        refine ⟨hnd, by simp, ?_⟩
        intro a ha hb
        rw [List.mem_singleton] at hb
        have hb2 : a = i.display_name := hb
        rw [hb2] at ha
        exact hmem ha
      rw [addTotal_not_mem _ hmem, ih _ hnd2, eggGroups_cons, List.filter_cons]
      have hkeep : decide (i.display_name ∉ acc.map (fun e => e.1)) = true := by
        simpa using hmem
      rw [hkeep]
      simp only [if_true]
      rw [List.filter_filter, List.map_append, List.append_assoc]
      congr 1
      · apply List.map_congr_left
        intro e he
        have hne : i.display_name ≠ e.1 :=
          fun h => hmem (h ▸ List.mem_map_of_mem (fun e => e.1) he)
        rw [eggTotal_cons, if_neg hne, Nat.zero_add]
      · rw [List.map_cons, List.map_nil, List.singleton_append]
        congr 1
        apply List.filter_congr
        intro e _
        simp only [List.map_append, List.map_cons, List.map_nil, List.mem_append,
          List.mem_singleton, not_or, decide_not, Bool.decide_and, ne_eq]

/-- The step of `createEggEmbed` on a table of numbers, for a name without inherited
member, is the step of the table of sums. -/
theorem addCount_num (acc : List (String × Nat)) (n : String) (q : Nat)
    (hn : n ∉ inheritedNames) :
    addCount (acc.map fun e => (e.1, Count.num e.2)) n q
      = (addTotal acc n q).map fun e => (e.1, Count.num e.2) := by
  have h1 : n ≠ "__proto__" := fun h => hn (by rw [h]; exact List.mem_cons_self _ _)
  have h2 : n ∉ inheritedFunctions := fun h => hn (List.mem_cons_of_mem _ h)
  induction acc with
  | nil => simp [addCount, addTotal, h1, h2]
  | cons e rest ih =>
    obtain ⟨k, v⟩ := e
    by_cases hk : k = n
    · simp [addCount, addTotal, hk, Count.add]
    · simp only [List.map_cons, addCount, addTotal, if_neg hk, ih]

theorem foldl_addCount (items : List Item) (hsafe : ∀ i ∈ items, i.display_name ∉ inheritedNames)
    (acc : List (String × Nat)) :
    items.foldl (fun a i => addCount a i.display_name (numOr i.quantity 1))
        (acc.map fun e => (e.1, Count.num e.2))
      = (items.foldl (fun a i => addTotal a i.display_name (numOr i.quantity 1)) acc).map
          fun e => (e.1, Count.num e.2) := by
  induction items generalizing acc with
  | nil => rfl
  | cons i t ih =>
    rw [List.foldl_cons, List.foldl_cons,
      addCount_num acc _ _ (hsafe i (List.mem_cons_self _ _))]
    exact ih (fun j hj => hsafe j (List.mem_cons_of_mem _ hj)) _

/-- The table `counts` of `createEggEmbed` holds the groups of the specification when no
name is that of an inherited member. -/
theorem eggCounts_eq (items : List Item) (hsafe : ∀ i ∈ items, i.display_name ∉ inheritedNames) :
    eggCounts items = (eggGroups items).map fun e => (e.1, Count.num e.2) := by
  unfold eggCounts
  have h := foldl_addCount items hsafe []
  rw [List.map_nil] at h
  rw [h, foldl_addTotal items [] (by simp)]
  simp

theorem objectEntries_eq {α : Type} (o : List (String × α))
    (h : ∀ e ∈ o, arrayIndex e.1 = none) :
    objectEntries o = o := by
  have h1 : indexEntries o = [] := by
    induction o with
    | nil => rfl
    | cons e rest ih =>
      rw [indexEntries, h e (List.mem_cons_self _ _)]
      exact ih (fun x hx => h x (List.mem_cons_of_mem _ hx))
  have h2 : o.filter (fun e => (arrayIndex e.1).isNone) = o := by
    rw [List.filter_eq_self]
    intro e he
    rw [h e he]
    rfl
  unfold objectEntries
  rw [h1, h2]
  rfl

/-- C17, refuted as stated: a quantity of zero counts as one, so the two items named `A`
with quantities 0 and 2 are rendered with quantity 3 and not with the sum 2 of their
quantities; names that are array indices are listed first in ascending order, so
`10` then `9` is rendered `9` then `10` and not in the order of first occurrence; and
under the name of an inherited member the quantity is lost (`toString` with quantity 5,
also when it comes twice) or the line itself (`__proto__`). -/
theorem C17_aggregated_list_counterexample :
    eggLines exCfgEgg [{ display_name := "A", quantity := some 0 },
        { display_name := "A", quantity := some 2 }] = ["A x3"] ∧
    (([{ display_name := "A", quantity := some 0 },
        { display_name := "A", quantity := some 2 }] : List Item).map
          (fun i => i.quantity.getD 0)).sum = 2 ∧
    eggLines exCfgEgg [{ display_name := "10", quantity := some 1 },
        { display_name := "9", quantity := some 1 }] = ["9", "10"] ∧
    distinctFirst ["10", "9"] = ["10", "9"] ∧
    eggLines exCfgEgg [{ display_name := "toString", quantity := some 5 }] = ["toString"] ∧
    eggLines exCfgEgg [{ display_name := "toString", quantity := some 5 },
        { display_name := "B", quantity := some 2 },
        { display_name := "toString", quantity := some 1 }] = ["toString", "B x2"] ∧
    eggLines exCfgEgg [{ display_name := "__proto__", quantity := some 5 },
        { display_name := "B", quantity := some 2 }] = ["B x2"] := by
  decide

/-- C17, amended: the aggregated list. For every item list in which no display name is an
array index (the decimal form of a number below `2^32 - 1`) or the name of a member
inherited from `Object.prototype`, the body handed to the builder by `createEggEmbed`
has one line for each distinct display name, in the order of first occurrence; the
quantity of a line is the sum, over the items of that name, of the quantity of the item
counted as 1 when it is missing or zero; the line is the name, followed by `x` and the
quantity when it is above one, after the emoji of the name when there is one. -/
theorem C17_aggregated_list (cfg : Config) (now : Nat) (items : List Item) (title : String)
    (hnames : ∀ i ∈ items, arrayIndex i.display_name = none)
    (hsafe : ∀ i ∈ items, i.display_name ∉ inheritedNames) :
    eggLines cfg items
      = (distinctFirst (items.map (fun i => i.display_name))).map
          (fun n => lineSpec cfg n (eggTotal items n)) ∧
    (createEggEmbed cfg now items title).description
      = "\n".intercalate ((distinctFirst (items.map (fun i => i.display_name))).map
          (fun n => lineSpec cfg n (eggTotal items n))) := by
  have hlines : eggLines cfg items
      = (distinctFirst (items.map (fun i => i.display_name))).map
          (fun n => lineSpec cfg n (eggTotal items n)) := by
    unfold eggLines
    rw [eggCounts_eq items hsafe, objectEntries_eq]
    · unfold eggGroups
      rw [List.map_map, List.map_map]
      apply List.map_congr_left
      intro n _
      exact withEmoji_eq cfg n _
    · intro e he
      obtain ⟨g, hg, hge⟩ := List.mem_map.1 he
      obtain ⟨i, hi, hie⟩ := eggGroups_keys items g hg
      rw [← hge, ← hie]
      exact hnames i hi
  refine ⟨hlines, ?_⟩
  unfold createEggEmbed
  rw [hlines]

/-- Witness of C17 as amended, the scenario of the specification: `A` once, `B` twice and
`A` once again are rendered `A x2`, then `B x2`. -/
theorem C17_aggregated_list_witness :
    eggLines exCfgEgg [{ display_name := "A", quantity := some 1 },
      { display_name := "B", quantity := some 2 },
      { display_name := "A", quantity := some 1 }] = ["A x2", "B x2"] :=
  (C17_aggregated_list exCfgEgg 1000 [{ display_name := "A", quantity := some 1 },
      { display_name := "B", quantity := some 2 },
      { display_name := "A", quantity := some 1 }] "Eggs" (by decide) (by decide)).1.trans
    (by decide)

/-! ## C18 and C19: the simple list and the announcement -/

/-- C18: the simple stock list. For every item list, the body of `createStockEmbed` has
one line for each item, in input order, joined by line breaks; the line of an item is its
display name, followed by `x` and the quantity when the quantity is above one, and it
follows the emoji and a blank exactly when the emoji table has a non-empty entry under
`normalizeKey(display_name)`. -/
theorem C18_simple_stock_list (cfg : Config) (now : Nat) (items : List Item) (title : String) :
    stockLines cfg items
      = items.map (fun i => lineSpec cfg i.display_name (i.quantity.getD 0)) ∧
    (createStockEmbed cfg now items title).description
      = "\n".intercalate
          (items.map (fun i => lineSpec cfg i.display_name (i.quantity.getD 0))) := by
  have hlines : stockLines cfg items
      = items.map (fun i => lineSpec cfg i.display_name (i.quantity.getD 0)) := by
    unfold stockLines
    apply List.map_congr_left
    intro i _
    exact withEmoji_eq cfg i.display_name _
  refine ⟨hlines, ?_⟩
  unfold createStockEmbed
  rw [hlines]

theorem truthyStr_getD (m : Option String) : (truthyStr m).getD "" = m.getD "" := by
  unfold truthyStr
  cases m with
  | none => rfl
  | some x =>
    simp only []
    split
    · next h => rw [h]; rfl
    · rfl

/-- The announcement embed: it is built exactly when the note has a non-empty message,
and then its body is that message, whatever the other items are; this is the body of
every announcement message sent by a cycle. -/
theorem announcement_rendering (cfg : Config) (sets : Settings) (env : Env)
    (f : Fetched) (s : State) :
    (∀ now title first rest,
      (chooseEmbed cfg now "announcement" title first (first :: rest) = none ↔
        first.message = none ∨ first.message = some "") ∧
      ∀ e, chooseEmbed cfg now "announcement" title first (first :: rest) = some e →
        e.description = first.message.getD "" ∧ e.description ≠ "") ∧
    (∀ a ∈ (checkAll cfg sets env f s).log, ∀ apiKey,
      a.category = .stock "announcement" apiKey →
      ∃ sa first rest, f.stockAll = some sa ∧ (sa.lists apiKey).getD [] = first :: rest ∧
        a.embed.description = first.message.getD "") := by
  have hchoose : ∀ now title first rest,
      chooseEmbed cfg now "announcement" title first (first :: rest)
        = built { title := " Announcement"
                  description := first.message.getD ""
                  fields := [relativeTimestampField now] } := by
    intro now title first rest
    have hne : ¬ ("announcement" = "egg") := by decide
    unfold chooseEmbed createAnnouncementEmbed
    rw [if_neg hne, if_pos rfl, truthyStr_getD]
  have hbody : ∀ now title first rest e,
      chooseEmbed cfg now "announcement" title first (first :: rest) = some e →
      e.description = first.message.getD "" ∧ e.description ≠ "" := by
    intro now title first rest e he
    rw [hchoose] at he
    obtain ⟨h1, -, h3⟩ := built_eq he
    rw [h1]
    exact ⟨rfl, h3⟩
  refine ⟨fun now title first rest => ⟨?_, hbody now title first rest⟩, ?_⟩
  · rw [hchoose]
    unfold built
    have htitle : (" Announcement" : String) ≠ "" := by decide
    cases hm : first.message with
    | none => simp
    | some t =>
      by_cases ht : t = ""
      · simp [ht]
      · simp [ht, htitle]
  · intro a ha apiKey hcat
    obtain ⟨-, hcomp⟩ := checkAll_composed cfg sets env f s a ha
    unfold Composed at hcomp
    rw [hcat] at hcomp
    obtain ⟨sa, title, first, rest, hsa, -, hitems, -, hembed⟩ := hcomp
    exact ⟨sa, first, rest, hsa, hitems, (hbody _ _ _ _ _ hembed).1⟩

/-- C19, the code at the failing input: the fetched note has no message, guild `g1` has
an announcement channel and no call of `send` raises. The creation of the announcement
embed raises on the empty description: the exception is caught, nothing is sent and the
snapshot of the note is already stored, so that the next cycle, which fetches the same
note, finds it unchanged and sends no announcement either. With the message `Hello` the
announcement is sent with that body. -/
theorem C19_announcement_without_message :
    createAnnouncementEmbed 1000 { display_name := "n" } = none ∧
    (stockRecipients exSetsNote exEnvGone "announcement").map (fun p => p.1) = ["g1"] ∧
    (checkAll exCfgNote exSetsNote exEnvGone exFetchNote exState).log = [] ∧
    (checkAll exCfgNote exSetsNote exEnvGone exFetchNote exState).caught = true ∧
    (checkAll exCfgNote exSetsNote exEnvGone exFetchNote exState).st.lastState "notification"
      = some "[\x7b\"display_name\":\"n\"\x7d]" ∧
    ((checkAll exCfgNote exSetsNote exEnvGone exFetchNote
      (checkAll exCfgNote exSetsNote exEnvGone exFetchNote exState).st).log.map
        (fun a => a.category)) = [.stock "seed" "seed_stock"] ∧
    ((checkAll exCfgNote exSetsNote exEnvGone exFetchNoteText exState).log.filter
        (fun a => a.category = .stock "announcement" "notification")).map
        (fun a => (a.guild, a.embed.description))
      = [("g1", "Hello")] := by
  decide

/-! ## C20: the expiry shown for the weather -/

/-- The expiry shown by `createWeatherEmbed`: the start time, or the clock reading of the
embed when the start time is missing or zero, plus the duration, whatever the explicit
end time is. Without explicit end time and with a start time this is the end time of the
expired check. -/
theorem createWeatherEmbed_fields (cfg : Config) (nowTs : Nat) (w : Weather) (desc : String) :
    (createWeatherEmbed cfg nowTs w desc).fields
      = [relativeTimestampField nowTs,
          durationField ((if w.start_duration_unix = 0 then nowTs else w.start_duration_unix)
            + w.duration)] ∧
    ((w.end_duration_unix = none ∨ w.end_duration_unix = some 0) →
      weatherExpiry w = w.start_duration_unix + w.duration) := by
  refine ⟨rfl, fun hend => ?_⟩
  unfold weatherExpiry numOr
  rcases hend with h | h <;> simp [h]

/-- C20, the code at the failing input: the storm started at 1000, lasts 600 and has the
explicit end time 2000. At time 1700 the expired check of the cycle uses 2000, so the
storm is notified to guild `g1`; the embed of that message shows the expiry 1600, start
plus duration, which is already past, and not the explicit end time. -/
theorem C20_weather_end_time_ignored :
    exStorm.end_duration_unix = some 2000 ∧
    exStorm.start_duration_unix + exStorm.duration = 1600 ∧
    weatherExpiry exStorm = 2000 ∧
    exEnvLater.weatherNow = 1700 ∧
    (checkAll exCfg exSetsWeather exEnvLater exFetchStorm exState).log.map
        (fun a => (a.category, a.guild, a.embed.fields.getLast?))
      = [(Category.weather, "g1", some ("Duration", "ends <t:1600:R>"))] := by
  decide

/-! ## C22: the guard of the main cycle -/

/-- C22: main-cycle guard. A call of `checkAll` while `isChecking` is true makes no fetch
and no call of `send`, compares no payload, catches nothing and leaves the module-level
variables as they are: snapshots, persisted snapshots and the guard itself, which stays
true. The destination tables are an argument of the cycle and not part of its result. -/
theorem C22_main_cycle_guard (cfg : Config) (sets : Settings) (env : Env) (f : Fetched)
    (s : State) (hbusy : s.isChecking = true) :
    (checkAll cfg sets env f s).fetched = false ∧
    (checkAll cfg sets env f s).log = [] ∧
    (checkAll cfg sets env f s).visited = [] ∧
    (checkAll cfg sets env f s).caught = false ∧
    (checkAll cfg sets env f s).st = s ∧
    (checkAll cfg sets env f s).st.lastState = s.lastState ∧
    (checkAll cfg sets env f s).st.saved = s.saved ∧
    (checkAll cfg sets env f s).st.isChecking = true := by
  rw [checkAll_busy cfg sets env f s hbusy]
  exact ⟨rfl, rfl, rfl, rfl, rfl, rfl, rfl, hbusy⟩

/-- Witness of C22: a call during a running cycle, with a fetch that differs from the
snapshot in memory. -/
theorem C22_main_cycle_guard_witness :
    exBusy.isChecking = true ∧
    (checkAll exCfg exSets exEnv exFetchTwo exBusy).fetched = false ∧
    (checkAll exCfg exSets exEnv exFetchTwo exBusy).log = [] ∧
    (checkAll exCfg exSets exEnv exFetchTwo exBusy).visited = [] ∧
    (checkAll exCfg exSets exEnv exFetchTwo exBusy).caught = false ∧
    (checkAll exCfg exSets exEnv exFetchTwo exBusy).st = exBusy ∧
    (checkAll exCfg exSets exEnv exFetchTwo exBusy).st.lastState = exBusy.lastState ∧
    (checkAll exCfg exSets exEnv exFetchTwo exBusy).st.saved = exBusy.saved ∧
    (checkAll exCfg exSets exEnv exFetchTwo exBusy).st.isChecking = true :=
  ⟨rfl, C22_main_cycle_guard exCfg exSets exEnv exFetchTwo exBusy rfl⟩

/-! ## C23: the cycle returns to idle -/

/-- C23: the main cycle always returns to idle. A call of `checkAll` while `isChecking` is
false yields a result for every fetch, every table and every outcome of the calls of
`send`: the fetches are made, an exception of the `try` block is caught exactly when
the block did not run to its end, and `isChecking` is false afterwards. -/
theorem C23_cycle_returns_to_idle (cfg : Config) (sets : Settings) (env : Env) (f : Fetched)
    (s : State) (hidle : s.isChecking = false) :
    (checkAll cfg sets env f s).st.isChecking = false ∧
    (checkAll cfg sets env f s).fetched = true ∧
    (checkAll cfg sets env f s).caught = !(tryBlock cfg sets env f (startMem s)).isDone := by
  refine ⟨(checkAll_idle cfg sets env f s hidle).2.2.2.2, ?_,
    (checkAll_idle cfg sets env f s hidle).2.2.2.1⟩
  unfold checkAll
  rw [if_neg (by simp [hidle])]
  cases tryBlock cfg sets env f { lastState := s.lastState, log := [], visited := [] } <;> rfl

/-- Witness of C23: the cycle in which the delivery to guild `g1` raises. -/
theorem C23_cycle_returns_to_idle_witness :
    exState.isChecking = false ∧
    (checkAll exCfg exSets exEnvFail exFetchTwo exState).st.isChecking = false ∧
    (checkAll exCfg exSets exEnvFail exFetchTwo exState).fetched = true ∧
    (checkAll exCfg exSets exEnvFail exFetchTwo exState).caught
      = !(tryBlock exCfg exSets exEnvFail exFetchTwo (startMem exState)).isDone :=
  ⟨rfl, C23_cycle_returns_to_idle exCfg exSets exEnvFail exFetchTwo exState rfl⟩

/-! ## C24: persistence of the snapshots -/

/-- C24, refuted as stated: in the cycle in which the delivery to guild `g1` raises, the
seed snapshot is replaced in memory, the exception is caught and the persisted snapshot
stays absent; and in a cycle without exception in which the write of the file fails, the
persisted snapshot stays absent as well. -/
theorem C24_persistence_counterexample :
    exState.lastState "seed_stock" = none ∧
    (checkAll exCfg exSets exEnvFail exFetch exState).st.lastState "seed_stock"
      = some (stringifyItems exCarrot) ∧
    (checkAll exCfg exSets exEnvFail exFetch exState).caught = true ∧
    (checkAll exCfg exSets exEnvFail exFetch exState).st.saved "seed_stock" = none ∧
    (checkAll exCfg exSets exEnvNoWrite exFetch exState).st.lastState "seed_stock"
      = some (stringifyItems exCarrot) ∧
    (checkAll exCfg exSets exEnvNoWrite exFetch exState).caught = false ∧
    (checkAll exCfg exSets exEnvNoWrite exFetch exState).st.saved "seed_stock" = none := by
  decide

/-- C24, amended: a cycle started when idle that ends without a caught exception and whose
write succeeds leaves the persisted snapshots equal to the snapshots in memory, whether
or not an entry was replaced; a cycle in which an exception is caught persists nothing:
the persisted snapshots are those of before the cycle. -/
theorem C24_persistence_of_completed_cycle (cfg : Config) (sets : Settings) (env : Env)
    (f : Fetched) (s : State) (hidle : s.isChecking = false) :
    ((checkAll cfg sets env f s).caught = false → env.writeFails = false →
      (checkAll cfg sets env f s).st.saved = (checkAll cfg sets env f s).st.lastState) ∧
    ((checkAll cfg sets env f s).caught = true →
      (checkAll cfg sets env f s).st.saved = s.saved) := by
  unfold checkAll
  rw [if_neg (by simp [hidle])]
  cases tryBlock cfg sets env f { lastState := s.lastState, log := [], visited := [] } with
  | done m =>
    refine ⟨fun _ hw => ?_, fun h => ?_⟩
    · simp [saveAll, hw]
    · simp at h
  | threw m =>
    refine ⟨fun h => ?_, fun _ => rfl⟩
    simp at h

/-- Witness of C24: the carrot cycle without failure persists the carrot snapshot, and
the cycle in which the delivery to guild `g1` raises persists nothing. -/
theorem C24_persistence_of_completed_cycle_witness :
    exState.isChecking = false ∧
    (checkAll exCfg exSets exEnv exFetch exState).st.saved "seed_stock"
      = some (stringifyItems exCarrot) ∧
    (checkAll exCfg exSets exEnvFail exFetch exState).st.saved = exState.saved :=
  ⟨rfl,
    (congrFun ((C24_persistence_of_completed_cycle exCfg exSets exEnv exFetch exState rfl).1
      (by decide) rfl) "seed_stock").trans (by decide),
    (C24_persistence_of_completed_cycle exCfg exSets exEnvFail exFetch exState rfl).2
      (by decide)⟩

/-! ## C26: the merchant offer -/

/-- C26: the merchant offer renders like the stock list. The description of
`createMerchantEmbed(merchantName, items)` is the description of
`createStockEmbed(items, title)` for every title and every clock reading, namely the
lines of the items joined by line breaks, and its title is the merchant name after a
blank. -/
theorem C26_merchant_renders_like_stock (cfg : Config) (now now' : Nat)
    (merchantName title : String) (items : List Item) :
    (createMerchantEmbed cfg now merchantName items).description
      = (createStockEmbed cfg now' items title).description ∧
    (createMerchantEmbed cfg now merchantName items).description
      = "\n".intercalate
          (items.map (fun i => lineSpec cfg i.display_name (i.quantity.getD 0))) ∧
    (createMerchantEmbed cfg now merchantName items).title = " " ++ merchantName := by
  refine ⟨rfl, ?_, rfl⟩
  have hlines : stockLines cfg items
      = items.map (fun i => lineSpec cfg i.display_name (i.quantity.getD 0)) := by
    unfold stockLines
    apply List.map_congr_left
    intro i _
    exact withEmoji_eq cfg i.display_name _
  unfold createMerchantEmbed
  rw [hlines]

/-! ## The maximum of the end times -/

theorem foldl_max_ge (xs : List Nat) (a : Nat) : a ≤ xs.foldl max a := by
  induction xs generalizing a with
  | nil => exact Nat.le_refl a
  | cons x t ih => exact Nat.le_trans (Nat.le_max_left a x) (ih (max a x))

theorem foldl_max_mem (xs : List Nat) (a : Nat) {x : Nat} (hx : x ∈ xs) :
    x ≤ xs.foldl max a := by
  induction xs generalizing a with
  | nil => cases hx
  | cons y t ih =>
    rcases List.mem_cons.1 hx with h | h
    · subst h
      exact Nat.le_trans (Nat.le_max_right a x) (foldl_max_ge t (max a x))
    · exact ih (max a y) h

theorem foldl_max_attained (xs : List Nat) (a : Nat) :
    xs.foldl max a = a ∨ xs.foldl max a ∈ xs := by
  induction xs generalizing a with
  | nil => exact Or.inl rfl
  | cons y t ih =>
    rcases ih (max a y) with h | h
    · rcases Nat.le_total a y with hay | hya
      · right
        rw [List.foldl_cons, h, Nat.max_eq_right hay]
        exact List.mem_cons_self y t
      · left
        rw [List.foldl_cons, h, Nat.max_eq_left hya]
    · exact Or.inr (List.mem_cons_of_mem y h)

theorem numOr_zero (x : Option Nat) : numOr x 0 = x.getD 0 := by
  cases x with
  | none => rfl
  | some n =>
    unfold numOr
    by_cases h : n = 0
    · simp [h]
    · simp [h]

/-- The expiry is an upper bound of the end times, absent ones counting as zero. -/
theorem expiryOf_ge (items : List Item) {i : Item} (hi : i ∈ items) :
    i.end_date_unix.getD 0 ≤ expiryOf items := by
  unfold expiryOf maxOf
  apply foldl_max_mem
  rw [List.mem_map]
  exact ⟨i, hi, numOr_zero i.end_date_unix⟩

/-- The expiry of a non-empty list is the end time of one of its items. -/
theorem expiryOf_attained (items : List Item) (hne : items ≠ []) :
    ∃ i ∈ items, expiryOf items = i.end_date_unix.getD 0 := by
  unfold expiryOf maxOf
  rcases foldl_max_attained (items.map fun i => numOr i.end_date_unix 0) 0 with h | h
  · cases items with
    | nil => exact absurd rfl hne
    | cons i t =>
      have hle := foldl_max_mem ((i :: t).map fun i => numOr i.end_date_unix 0) 0
        (List.mem_map.2 ⟨i, List.mem_cons_self i t, rfl⟩)
      rw [h] at hle
      refine ⟨i, List.mem_cons_self i t, ?_⟩
      rw [h, ← numOr_zero]
      exact (Nat.le_zero.1 hle).symm
  · obtain ⟨i, hi, hv⟩ := List.mem_map.1 h
    exact ⟨i, hi, by rw [← hv, numOr_zero]⟩

/-! ## C29: items without an end time -/

/-- C29, refuted as stated: the gear list is non-empty, differs from the absent snapshot
and has no `end_date_unix`; but the delivery of the seed notification to guild `g1`,
earlier in the same cycle, raises. The exception ends the cycle before the gear list is
compared: its snapshot stays absent. -/
theorem C29_without_end_behind_error_counterexample :
    payloadOf exFetchNoEndGear (.stock "gear" "gear_stock") = some (.items exNoEnd) ∧
    exNoEnd ≠ [] ∧ (∀ i ∈ exNoEnd, i.end_date_unix = none) ∧
    exState.lastState "gear_stock" ≠ some (stringifyItems exNoEnd) ∧
    0 < exEnvFail.stockNow ∧
    (checkAll exCfg exSets exEnvFail exFetchNoEndGear exState).caught = true ∧
    (checkAll exCfg exSets exEnvFail exFetchNoEndGear exState).st.lastState "gear_stock"
      = none := by
  decide

/-- C29, amended: items without an end time count as end time zero. For a stock category
other than the announcements and for the traveling merchant, the expiry of the fetched
payload is the largest `end_date_unix` of its items, an absent one counting as zero: it
bounds every item and, when there is an item, is the value of one of them; and every
call of `send` of the cycle for the category is made at a clock reading that is not after
that expiry. Hence, when no item has an `end_date_unix` and the clock reading is
positive, the expiry is zero and the cycle makes no call of `send` for the category; and
when the cycle reaches the comparison of the payload with the snapshot, in particular
when it starts idle and ends without a caught exception, the snapshot of the category
becomes the serialization of the payload. -/
theorem C29_items_without_end_time (cfg : Config) (sets : Settings) (env : Env) (f : Fetched)
    (s : State) (cat : Category) (p : Payload)
    (hsep : KeysSeparate cfg)
    (hkind : cat.checksExpiry)
    (hpayload : payloadOf f cat = some p) :
    (∀ i ∈ p.itemList, i.end_date_unix.getD 0 ≤ expiryOf p.itemList) ∧
    (p.itemList ≠ [] → ∃ i ∈ p.itemList, expiryOf p.itemList = i.end_date_unix.getD 0) ∧
    (∀ a ∈ (checkAll cfg sets env f s).log, a.category = cat →
      cat.now env ≤ expiryOf p.itemList) ∧
    ((∀ i ∈ p.itemList, i.end_date_unix = none) → 0 < cat.now env →
      expiryOf p.itemList = 0 ∧
      (checkAll cfg sets env f s).log.filter (fun a => a.category = cat) = [] ∧
      (cat ∈ (checkAll cfg sets env f s).visited →
        (checkAll cfg sets env f s).st.lastState cat.stateKey = some p.stringify) ∧
      (s.isChecking = false → (checkAll cfg sets env f s).caught = false → cat.Listed cfg →
        (checkAll cfg sets env f s).st.lastState cat.stateKey = some p.stringify)) := by
  have hsilent := checkAll_expired_silent cfg sets env f s cat p hkind hpayload
  have hsnap : cat ∈ (checkAll cfg sets env f s).visited →
      (checkAll cfg sets env f s).st.lastState cat.stateKey = some p.stringify := by
    intro hcompared
    obtain ⟨-, -, hls⟩ := checkAll_inv cfg sets env f s hsep cat hcompared
    rw [hls, fetchedJson, hpayload]
    rfl
  refine ⟨fun i hi => expiryOf_ge p.itemList hi, expiryOf_attained p.itemList, hsilent,
    fun hnoend hnow => ?_⟩
  have hzero : expiryOf p.itemList = 0 := by
    by_cases hne : p.itemList = []
    · rw [hne]
      rfl
    · obtain ⟨i, hi, hv⟩ := expiryOf_attained p.itemList hne
      rw [hv, hnoend i hi]
      rfl
  refine ⟨hzero, ?_, hsnap, fun hidle hdone hlisted =>
    hsnap (checkAll_compared_of_completed cfg sets env f s cat p hidle hdone hlisted hpayload)⟩
  rw [List.filter_eq_nil_iff]
  intro a ha hcat
  have hcat : a.category = cat := by simpa using hcat
  have hle := hsilent a ha hcat
  omega

/-- Witness of C29 as amended: at time 1000 a seed list without end times is stored and
not notified, although guild `g1` has a seed channel, and so is the offer of a merchant
without end times, although guild `g1` has a merchant channel; and the expiry of a list
with the end times 4600, none and 5000 is 5000. -/
theorem C29_items_without_end_time_witness :
    (expiryOf exNoEnd = 0 ∧
      (checkAll exCfg exSets exEnv exFetchNoEnd exState).log.filter
        (fun a => a.category = Category.stock "seed" "seed_stock") = [] ∧
      (checkAll exCfg exSets exEnv exFetchNoEnd exState).st.lastState "seed_stock"
        = some "[\x7b\"display_name\":\"Carrot\",\"quantity\":3\x7d,\x7b\"display_name\":\"Corn\"\x7d]") ∧
    ((checkAll exCfg exSetsSky exEnv exFetchMoon exState).log.filter
        (fun a => a.category = Category.merchant) = [] ∧
      (checkAll exCfg exSetsSky exEnv exFetchMoon exState).st.lastState "tm"
        = some "\x7b\"merchantName\":\"Moon\",\"stock\":[\x7b\"display_name\":\"Dust\"\x7d]\x7d") ∧
    (∃ i ∈ exMixed, expiryOf exMixed = i.end_date_unix.getD 0) ∧
    expiryOf exMixed = 5000 :=
  have h := C29_items_without_end_time exCfg exSets exEnv exFetchNoEnd exState
    (Category.stock "seed" "seed_stock") (Payload.items exNoEnd) (by decide) (by decide) rfl
  have hm := C29_items_without_end_time exCfg exSets exEnv exFetchMixed exState
    (Category.stock "seed" "seed_stock") (Payload.items exMixed) (by decide) (by decide) rfl
  have ht := C29_items_without_end_time exCfg exSetsSky exEnv exFetchMoon exState
    Category.merchant (Payload.merchant exMoon) (by decide) (by decide) (by decide)
  have h4 := h.2.2.2 (by decide) (by decide)
  have t4 := ht.2.2.2 (by decide) (by decide)
  ⟨⟨h4.1, h4.2.1, (h4.2.2.2 rfl (by decide) ⟨"Seeds", by decide⟩).trans (by decide)⟩,
    ⟨t4.2.1, (t4.2.2.2 rfl (by decide) trivial).trans (by decide)⟩,
    hm.2.1 (by decide), by decide⟩

/-! ## The computation of the next occurrence -/

/-- The two setters put the date at the chosen minute of the hour of `now`. -/
theorem setMinutes_setSeconds (tz now m : Int) :
    setMinutes tz (setSeconds tz now 0 0) m = startOfHour tz now + m * 60000 := by
  simp only [setMinutes, setSeconds, localTime, utcTime, makeDate, makeTime, dayOf, hourFromTime,
    minFromTime, secFromTime, msFromTime, msPerDay, msPerHour, msPerMinute, startOfHour]
  omega

/-- The call `d.setHours(d.getHours() + 1)` adds one hour. -/
theorem setHours_getHours (tz d : Int) : setHours tz d (getHours tz d + 1) = d + 3600000 := by
  simp only [setHours, getHours, localTime, utcTime, makeDate, makeTime, dayOf, hourFromTime,
    minFromTime, secFromTime, msFromTime, msPerDay, msPerHour, msPerMinute]
  omega

/-- The statements from `d.setSeconds(0, 0)` to the conditional `setHours` compute the
next occurrence. -/
theorem rollover_eq (tz now m : Int) :
    (if setMinutes tz (setSeconds tz now 0 0) m < now then
      setHours tz (setMinutes tz (setSeconds tz now 0 0) m)
        (getHours tz (setMinutes tz (setSeconds tz now 0 0) m) + 1)
    else setMinutes tz (setSeconds tz now 0 0) m) = nextOccurrence tz now m := by
  rw [setHours_getHours, setMinutes_setSeconds]
  rfl

theorem startOfHour_spec (tz now : Int) :
    startOfHour tz now ≤ now ∧ now < startOfHour tz now + 3600000 ∧
    localTime tz (startOfHour tz now) % 3600000 = 0 := by
  simp only [startOfHour, localTime, msPerMinute]
  omega

theorem nextOccurrence_inNextHour (tz now m : Int) (h0 : 0 ≤ m) (h59 : m ≤ 59) :
    InNextHour tz now m (nextOccurrence tz now m) := by
  simp only [InNextHour, nextOccurrence, startOfHour, localTime, minFromTime, secFromTime,
    msFromTime, msPerMinute]
  split <;> omega

theorem createCurrentEventEmbed_description (tz now : Int) (stamp : Nat) (curr : CurrentEvent) :
    (createCurrentEventEmbed tz now stamp curr).description
      = "**Starts:** <t:" ++ toString (nextOccurrence tz now curr.start.minute / 1000) ++ ":R>" := by
  simp only [createCurrentEventEmbed, rollover_eq]

theorem checkCurrentEvent_first (sets : Settings) (env : EventEnv) (s : Scheduler)
    (curr : CurrentEvent) (hnone : s.nextEventTs = none) (hev : env.current = some curr) :
    checkCurrentEvent sets env s
      = { st := ⟨s.main, some (nextOccurrence env.tz env.computeClock curr.start.minute / 1000)⟩
          log := [], fetched := true, dispatched := false, threw := false } := by
  simp only [checkCurrentEvent, hnone, hev, rollover_eq]

theorem checkCurrentEvent_due (sets : Settings) (env : EventEnv) (s : Scheduler)
    (next : Int) (curr : CurrentEvent) (hset : s.nextEventTs = some next)
    (hdue : next ≤ env.entryClock / 1000) (hev : env.current = some curr) :
    checkCurrentEvent sets env s
      = match eventDeliver env (eventAttemptFor env sets
            (createCurrentEventEmbed env.tz env.embedClock env.stampNow curr))
            sets.channelsData [] with
        | (true, log) =>
          { st := ⟨s.main, some (nextOccurrence env.tz env.computeClock curr.start.minute / 1000)⟩
            log := log, fetched := true, dispatched := true, threw := false }
        | (false, log) =>
          { st := s, log := log, fetched := true, dispatched := true, threw := true } := by
  simp only [checkCurrentEvent, hset, hev, rollover_eq, ge_iff_le, if_pos hdue]

/-! ## C21: the rollover of the next occurrence -/

/-- C21: next-occurrence rollover, local time being at a fixed offset of whole minutes
from UTC. The start of the hour of `now` is at most one hour before `now` and a whole hour
of local time; with `c` that start plus `m` minutes, the next occurrence is `c` when `c` is
not before `now` and `c` plus one hour otherwise. The second of that instant is what
`createCurrentEventEmbed` shows in its description and what `checkCurrentEvent` assigns
to `nextEventTs`, both when `nextEventTs` was `null` and after a dispatch that ran to its
end, each for its own reading of the clock and the minute of the fetched event. -/
theorem C21_next_occurrence_rollover (sets : Settings) (env : EventEnv) (s : Scheduler)
    (tz now : Int) (stamp : Nat) (curr : CurrentEvent) :
    (startOfHour tz now ≤ now ∧ now < startOfHour tz now + 3600000 ∧
      localTime tz (startOfHour tz now) % 3600000 = 0) ∧
    nextOccurrence tz now curr.start.minute
      = (if startOfHour tz now + curr.start.minute * 60000 < now
          then startOfHour tz now + curr.start.minute * 60000 + 3600000
          else startOfHour tz now + curr.start.minute * 60000) ∧
    (createCurrentEventEmbed tz now stamp curr).description
      = "**Starts:** <t:" ++ toString (nextOccurrence tz now curr.start.minute / 1000) ++ ":R>" ∧
    (s.nextEventTs = none → env.current = some curr →
      (checkCurrentEvent sets env s).st.nextEventTs
        = some (nextOccurrence env.tz env.computeClock curr.start.minute / 1000)) ∧
    (∀ next, s.nextEventTs = some next → next ≤ env.entryClock / 1000 →
      env.current = some curr → (checkCurrentEvent sets env s).threw = false →
      (checkCurrentEvent sets env s).st.nextEventTs
        = some (nextOccurrence env.tz env.computeClock curr.start.minute / 1000)) := by
  refine ⟨startOfHour_spec tz now, rfl, createCurrentEventEmbed_description tz now stamp curr,
    fun hnone hev => ?_, fun next hset hdue hev hok => ?_⟩
  · rw [checkCurrentEvent_first sets env s curr hnone hev]
  · rw [checkCurrentEvent_due sets env s next curr hset hdue hev] at hok ⊢
    revert hok
    cases eventDeliver env (eventAttemptFor env sets
        (createCurrentEventEmbed env.tz env.embedClock env.stampNow curr))
        sets.channelsData [] with
    | mk ok log =>
      cases ok with
      | true => exact fun _ => rfl
      | false => exact fun h => absurd h (by simp)

/-- Witness of C21: at 00:10:00.300 UTC the next occurrence of minute 30 is 00:30:00, the
second 1800, in the embed and in the first assignment of `nextEventTs`; at 00:30:00.001 it
is 01:30:00. -/
theorem C21_next_occurrence_rollover_witness :
    (createCurrentEventEmbed 0 600300 600 exEvent).description = "**Starts:** <t:1800:R>" ∧
    (createCurrentEventEmbed 0 1800001 600 exEvent).description = "**Starts:** <t:5400:R>" ∧
    (checkCurrentEvent exSetsEvent exEventEnv exScheduler).st.nextEventTs = some 1800 :=
  ⟨(C21_next_occurrence_rollover exSetsEvent exEventEnv exScheduler 0 600300 600
      exEvent).2.2.1.trans (by decide),
    (C21_next_occurrence_rollover exSetsEvent exEventEnv exScheduler 0 1800001 600
      exEvent).2.2.1.trans (by decide),
    ((C21_next_occurrence_rollover exSetsEvent exEventEnv exScheduler 0 0 0
      exEvent).2.2.2.1 rfl rfl).trans (by decide)⟩

/-! ## C27: the bounds of the next occurrence -/

/-- C27: bounds of the next occurrence, local time being at a fixed offset of whole
minutes from UTC. For a minute from 0 to 59, the second shown by `createCurrentEventEmbed`
and the second first assigned to `nextEventTs` are those of an instant that is not before
the reading of the clock, less than one hour after it, and whose local time has the
minute of the event, zero seconds and zero milliseconds. -/
theorem C27_next_occurrence_bounds (sets : Settings) (env : EventEnv) (s : Scheduler)
    (tz now : Int) (stamp : Nat) (curr : CurrentEvent)
    (h0 : 0 ≤ curr.start.minute) (h59 : curr.start.minute ≤ 59) :
    (∃ t, InNextHour tz now curr.start.minute t ∧
      (createCurrentEventEmbed tz now stamp curr).description
        = "**Starts:** <t:" ++ toString (t / 1000) ++ ":R>") ∧
    (s.nextEventTs = none → env.current = some curr →
      ∃ t, InNextHour env.tz env.computeClock curr.start.minute t ∧
        (checkCurrentEvent sets env s).st.nextEventTs = some (t / 1000)) := by
  refine ⟨⟨nextOccurrence tz now curr.start.minute,
    nextOccurrence_inNextHour tz now _ h0 h59,
    createCurrentEventEmbed_description tz now stamp curr⟩, fun hnone hev => ?_⟩
  refine ⟨nextOccurrence env.tz env.computeClock curr.start.minute,
    nextOccurrence_inNextHour env.tz env.computeClock _ h0 h59, ?_⟩
  rw [checkCurrentEvent_first sets env s curr hnone hev]

/-- Witness of C27: the event of minute 30, read at 00:30:00.001 UTC on a host five and
a half hours east of UTC, where the local time is 06:00:00.001. -/
theorem C27_next_occurrence_bounds_witness :
    (0 : Int) ≤ exEvent.start.minute ∧ exEvent.start.minute ≤ 59 ∧
    (∃ t, InNextHour 330 1800001 exEvent.start.minute t ∧
      (createCurrentEventEmbed 330 1800001 600 exEvent).description
        = "**Starts:** <t:" ++ toString (t / 1000) ++ ":R>") ∧
    (createCurrentEventEmbed 330 1800001 600 exEvent).description = "**Starts:** <t:3600:R>" :=
  ⟨by decide, by decide,
    (C27_next_occurrence_bounds exSetsEvent exEventEnv exScheduler 330 1800001 600 exEvent
      (by decide) (by decide)).1, by decide⟩

/-! ## The delivery loop of the event -/

theorem eventAttempts_eq (sets : Settings) (env : EventEnv) (curr : CurrentEvent)
    (chans : List (String × (String → Option String))) :
    chans.filterMap (fun e => eventAttemptFor env sets
        (createCurrentEventEmbed env.tz env.embedClock env.stampNow curr) e.1 e.2)
      = (chans.filter fun e => eventChannelResolves env e.2).map fun e =>
          { guild := e.1
            path := match sets.webhooksData e.1 "currentevent" with
              | some hook => .webhook hook
              | none => .channel ((e.2 "current_event_channel_id").getD "")
            content := none
            embed := createCurrentEventEmbed env.tz env.embedClock env.stampNow curr
            username := getWebhookUsername sets "currentevent" } := by
  induction chans with
  | nil => rfl
  | cons e t ih =>
    rw [List.filterMap_cons, List.filter_cons]
    unfold eventAttemptFor eventChannelResolves
    cases hch : e.2 "current_event_channel_id" with
    | none => simpa [eventAttemptFor, eventChannelResolves] using ih
    | some id =>
      by_cases hc : env.channelCache id = true
      · simpa [hc, hch, eventAttemptFor, eventChannelResolves] using ih
      · simpa [hc, hch, eventAttemptFor, eventChannelResolves] using ih

/-- The loop without a raising call of `send` makes every attempt. -/
theorem eventDeliver_ok (env : EventEnv) (mk : String → (String → Option String) → Option EventAttempt)
    (chans : List (String × (String → Option String))) (log : List EventAttempt)
    (hok : ∀ a ∈ chans.filterMap (fun e => mk e.1 e.2), env.sendFails a = false) :
    eventDeliver env mk chans log = (true, log ++ chans.filterMap (fun e => mk e.1 e.2)) := by
  induction chans generalizing log with
  | nil => simp [eventDeliver]
  | cons e t ih =>
    obtain ⟨gId, chs⟩ := e
    unfold eventDeliver
    cases hmk : mk gId chs with
    | none =>
      have ht : ∀ a ∈ t.filterMap (fun e => mk e.1 e.2), env.sendFails a = false := by
        intro a ha
        exact hok a (by simpa [List.filterMap_cons, hmk] using ha)
      simp only [List.filterMap_cons, hmk]
      exact ih log ht
    | some a =>
      have ha : env.sendFails a = false := hok a (by simp [List.filterMap_cons, hmk])
      have ht : ∀ b ∈ t.filterMap (fun e => mk e.1 e.2), env.sendFails b = false := by
        intro b hb
        exact hok b (by simp [List.filterMap_cons, hmk, hb])
      simp only [List.filterMap_cons, hmk, ha, Bool.false_eq_true, if_false]
      rw [ih (log ++ [a]) ht, List.append_assoc]
      rfl

/-- Every attempt of the loop is one of the attempts of the destinations. -/
theorem eventDeliver_mem (env : EventEnv) (mk : String → (String → Option String) → Option EventAttempt)
    (chans : List (String × (String → Option String))) (log : List EventAttempt)
    (a : EventAttempt) (ha : a ∈ (eventDeliver env mk chans log).2) :
    a ∈ log ∨ a ∈ chans.filterMap (fun e => mk e.1 e.2) := by
  induction chans generalizing log with
  | nil => exact Or.inl (by simpa [eventDeliver] using ha)
  | cons e t ih =>
    obtain ⟨gId, chs⟩ := e
    unfold eventDeliver at ha
    cases hmk : mk gId chs with
    | none =>
      rw [hmk] at ha
      rcases ih log ha with h | h
      · exact Or.inl h
      · exact Or.inr (by simpa [List.filterMap_cons, hmk] using h)
    | some b =>
      rw [hmk] at ha
      by_cases hf : env.sendFails b = true
      · simp only [hf, if_true] at ha
        rcases List.mem_append.1 ha with h | h
        · exact Or.inl h
        · exact Or.inr (by
            have hab : a = b := by simpa using h
            simp [List.filterMap_cons, hmk, hab])
      · simp only [hf, if_false] at ha
        rcases ih (log ++ [b]) ha with h | h
        · rcases List.mem_append.1 h with h | h
          · exact Or.inl h
          · exact Or.inr (by
              have hab : a = b := by simpa using h
              simp [List.filterMap_cons, hmk, hab])
        · exact Or.inr (by simp [List.filterMap_cons, hmk, h])

/-! ## The calls of `checkCurrentEvent` that do not dispatch -/

theorem checkCurrentEvent_noEvent (sets : Settings) (env : EventEnv) (s : Scheduler)
    (hev : env.current = none) :
    (checkCurrentEvent sets env s).st = s ∧ (checkCurrentEvent sets env s).log = [] ∧
    (checkCurrentEvent sets env s).dispatched = false ∧
    (checkCurrentEvent sets env s).threw = false := by
  unfold checkCurrentEvent
  cases hn : s.nextEventTs with
  | none => simp [hev]
  | some next =>
    by_cases hdue : next ≤ env.entryClock / 1000
    · simp [hev, hdue]
    · simp [hdue]

theorem checkCurrentEvent_early (sets : Settings) (env : EventEnv) (s : Scheduler) (next : Int)
    (hset : s.nextEventTs = some next) (hearly : ¬ next ≤ env.entryClock / 1000) :
    checkCurrentEvent sets env s
      = { st := s, log := [], fetched := false, dispatched := false, threw := false } := by
  simp only [checkCurrentEvent, hset, ge_iff_le, if_neg hearly]

/-- The log of a dispatch consists of attempts of the destinations, and is all of them
when none raises. -/
theorem checkCurrentEvent_log (sets : Settings) (env : EventEnv) (s : Scheduler)
    (next : Int) (curr : CurrentEvent) (hset : s.nextEventTs = some next)
    (hdue : next ≤ env.entryClock / 1000) (hev : env.current = some curr) :
    (checkCurrentEvent sets env s).dispatched = true ∧
    (checkCurrentEvent sets env s).st.main = s.main ∧
    (∀ a ∈ (checkCurrentEvent sets env s).log, a ∈ eventMessages sets env curr) ∧
    ((∀ a ∈ eventMessages sets env curr, env.sendFails a = false) →
      (checkCurrentEvent sets env s).log = eventMessages sets env curr ∧
      (checkCurrentEvent sets env s).threw = false) ∧
    ((checkCurrentEvent sets env s).threw = true →
      (checkCurrentEvent sets env s).st = s) := by
  have hmsg : sets.channelsData.filterMap (fun e => eventAttemptFor env sets
      (createCurrentEventEmbed env.tz env.embedClock env.stampNow curr) e.1 e.2)
      = eventMessages sets env curr := eventAttempts_eq sets env curr sets.channelsData
  have hmem := eventDeliver_mem env (eventAttemptFor env sets
      (createCurrentEventEmbed env.tz env.embedClock env.stampNow curr)) sets.channelsData []
  have hall := eventDeliver_ok env (eventAttemptFor env sets
      (createCurrentEventEmbed env.tz env.embedClock env.stampNow curr)) sets.channelsData []
  rw [hmsg] at hmem hall
  rw [checkCurrentEvent_due sets env s next curr hset hdue hev]
  cases hd : eventDeliver env (eventAttemptFor env sets
      (createCurrentEventEmbed env.tz env.embedClock env.stampNow curr))
      sets.channelsData [] with
  | mk ok log =>
    rw [hd] at hmem hall
    have hin : ∀ a ∈ log, a ∈ eventMessages sets env curr := by
      intro a ha
      rcases hmem a ha with h | h
      · cases h
      · exact h
    cases ok with
    | true =>
      refine ⟨rfl, rfl, hin, fun hok => ⟨?_, rfl⟩, fun h => absurd h (by simp)⟩
      have h := hall hok
      simp only [List.nil_append, Prod.mk.injEq, true_and] at h
      exact h
    | false =>
      refine ⟨rfl, rfl, hin, fun hok => ?_, fun _ => rfl⟩
      have h := hall hok
      simp at h

/-! ## C25: the event countdown -/

/-- C25: the event countdown is a pure countdown trigger. A call of `checkCurrentEvent`
leaves the variables of the main cycle, `lastState` among them, as they are, and its
calls of `send`, its value of `nextEventTs` and whether it dispatches are the same for
every content of those variables. It dispatches exactly when `nextEventTs` was set, the
second of the clock has reached it and the fetch returned a current event; without
dispatch there is no call of `send`, in particular when `nextEventTs` was `null`. In a
dispatch every call of `send` is without content and is the message of a destination
whose event channel resolves; when none of these messages raises, the calls are exactly
these messages: one for each such destination, in order, through its event webhook when
it has one and else to the channel, with the event embed. -/
theorem C25_event_countdown_trigger (sets : Settings) (env : EventEnv) (s : Scheduler) :
    (checkCurrentEvent sets env s).st.main = s.main ∧
    (∀ main : State,
      (checkCurrentEvent sets env ⟨main, s.nextEventTs⟩).log = (checkCurrentEvent sets env s).log ∧
      (checkCurrentEvent sets env ⟨main, s.nextEventTs⟩).st.nextEventTs
        = (checkCurrentEvent sets env s).st.nextEventTs ∧
      (checkCurrentEvent sets env ⟨main, s.nextEventTs⟩).dispatched
        = (checkCurrentEvent sets env s).dispatched) ∧
    ((checkCurrentEvent sets env s).dispatched = true ↔
      ∃ next curr, s.nextEventTs = some next ∧ next ≤ env.entryClock / 1000 ∧
        env.current = some curr) ∧
    ((checkCurrentEvent sets env s).dispatched = false → (checkCurrentEvent sets env s).log = []) ∧
    (s.nextEventTs = none → (checkCurrentEvent sets env s).dispatched = false) ∧
    (∀ a ∈ (checkCurrentEvent sets env s).log, a.content = none) ∧
    (∀ curr, env.current = some curr →
      ∀ a ∈ (checkCurrentEvent sets env s).log, a ∈ eventMessages sets env curr) ∧
    (∀ curr, env.current = some curr → (checkCurrentEvent sets env s).dispatched = true →
      (∀ a ∈ eventMessages sets env curr, env.sendFails a = false) →
      (checkCurrentEvent sets env s).log = eventMessages sets env curr) := by
  have hcontent : ∀ curr, ∀ a ∈ eventMessages sets env curr, a.content = none := by
    intro curr a ha
    obtain ⟨e, -, he⟩ := List.mem_map.1 ha
    rw [← he]
  cases hev : env.current with
  | none =>
    obtain ⟨h1, h2, h3, -⟩ := checkCurrentEvent_noEvent sets env s hev
    refine ⟨by rw [h1], fun main => ?_, ?_, fun _ => h2, fun _ => h3, ?_, ?_, ?_⟩
    · obtain ⟨k1, k2, k3, -⟩ := checkCurrentEvent_noEvent sets env ⟨main, s.nextEventTs⟩ hev
      rw [k1, k2, k3, h1, h2, h3]
      exact ⟨rfl, rfl, rfl⟩
    · rw [h3]
      constructor
      · intro h
        exact absurd h (by simp)
      · rintro ⟨next, curr, -, -, h⟩
        exact absurd h (by simp)
    · rw [h2]
      intro a ha
      cases ha
    · intro curr h
      exact absurd h (by simp)
    · intro curr h
      exact absurd h (by simp)
  | some curr =>
    cases hn : s.nextEventTs with
    | none =>
      rw [checkCurrentEvent_first sets env s curr hn hev]
      refine ⟨rfl, fun main => ?_, ?_, fun _ => rfl, fun _ => rfl, ?_, ?_, ?_⟩
      · rw [checkCurrentEvent_first sets env ⟨main, none⟩ curr rfl hev]
        exact ⟨rfl, rfl, rfl⟩
      · constructor
        · intro h
          exact absurd h (by simp)
        · rintro ⟨next, c, h, -, -⟩
          exact absurd h (by simp)
      · intro a ha
        cases ha
      · intro c _ a ha
        cases ha
      · intro c _ h
        exact absurd h (by simp)
    | some next =>
      by_cases hdue : next ≤ env.entryClock / 1000
      · obtain ⟨h1, h2, h3, h4, -⟩ := checkCurrentEvent_log sets env s next curr hn hdue hev
        refine ⟨h2, fun main => ?_, ?_, ?_, fun h => absurd h (by simp), ?_, ?_, ?_⟩
        · rw [checkCurrentEvent_due sets env ⟨main, some next⟩ next curr rfl hdue hev,
            checkCurrentEvent_due sets env s next curr hn hdue hev]
          cases eventDeliver env (eventAttemptFor env sets
              (createCurrentEventEmbed env.tz env.embedClock env.stampNow curr))
              sets.channelsData [] with
          | mk ok log =>
            cases ok with
            | true => exact ⟨rfl, rfl, rfl⟩
            | false => exact ⟨rfl, hn.symm, rfl⟩
        · exact ⟨fun _ => ⟨next, curr, rfl, hdue, rfl⟩, fun _ => h1⟩
        · intro h
          rw [h1] at h
          exact absurd h (by simp)
        · exact fun a ha => hcontent curr a (h3 a ha)
        · intro c hc
          have hcc : curr = c := by
            injection hc
          rw [← hcc]
          exact h3
        · intro c hc _ hok
          have hcc : curr = c := by
            injection hc
          rw [← hcc] at hok ⊢
          exact (h4 hok).1
      · rw [checkCurrentEvent_early sets env s next hn hdue]
        refine ⟨rfl, fun main => ?_, ?_, fun _ => rfl, fun h => absurd h (by simp), ?_, ?_, ?_⟩
        · rw [checkCurrentEvent_early sets env ⟨main, some next⟩ next rfl hdue]
          exact ⟨rfl, hn.symm, rfl⟩
        · constructor
          · intro h
            exact absurd h (by simp)
          · rintro ⟨n, c, h, hd, -⟩
            have hnn : next = n := by
              injection h
            rw [← hnn] at hd
            exact absurd hd hdue
        · intro a ha
          cases ha
        · intro c _ a ha
          cases ha
        · intro c _ h
          exact absurd h (by simp)

/-- Witness of C25: at 00:30:00.400 the event of minute 30 is dispatched to guild `g1`
through its channel and to guild `g3` through its webhook, without content although an
event role is stored, and whatever the snapshots are; before the first computation of
`nextEventTs` nothing is sent. -/
theorem C25_event_countdown_trigger_witness :
    (checkCurrentEvent exSetsEvent exEventEnvDue exSchedulerSet).dispatched = true ∧
    (checkCurrentEvent exSetsEvent exEventEnvDue exSchedulerSet).log.map
        (fun a => (a.guild, a.path, a.content))
      = [("g1", Path.channel "e1", none), ("g3", Path.webhook ⟨"h3", "t3"⟩, none)] ∧
    (checkCurrentEvent exSetsEvent exEventEnvDue ⟨exBusy, some 1800⟩).log
      = (checkCurrentEvent exSetsEvent exEventEnvDue exSchedulerSet).log ∧
    (checkCurrentEvent exSetsEvent exEventEnv exScheduler).dispatched = false ∧
    (checkCurrentEvent exSetsEvent exEventEnv exScheduler).log = [] :=
  have h := C25_event_countdown_trigger exSetsEvent exEventEnvDue exSchedulerSet
  have h0 := C25_event_countdown_trigger exSetsEvent exEventEnv exScheduler
  ⟨h.2.2.1.2 ⟨1800, exEvent, rfl, by decide, rfl⟩,
    (congrArg (List.map fun a => (a.guild, a.path, a.content))
      (h.2.2.2.2.2.2.2 exEvent rfl (h.2.2.1.2 ⟨1800, exEvent, rfl, by decide, rfl⟩)
        (by decide))).trans (by decide),
    (h.2.1 exBusy).1, h0.2.2.2.2.1 rfl, h0.2.2.2.1 (h0.2.2.2.2.1 rfl)⟩

/-! ## C28: the occurrence after a dispatch -/

/-- C28, refuted as stated: with `nextEventTs` at 00:30:00 and every clock reading of the
call at 00:30:00.000, the call dispatches to the guilds `g1` and `g3`, no call of `send`
raises, and the recomputed `nextEventTs` is 00:30:00 again; the call of the next second
dispatches the same occurrence to the same guilds and only then moves `nextEventTs` to
01:30:00. -/
theorem C28_immediate_refire_counterexample :
    exSchedulerSet.nextEventTs = some 1800 ∧
    exEventEnvSharp.entryClock = 1800 * 1000 ∧
    exEventEnvSharp.computeClock = 1800 * 1000 ∧
    (checkCurrentEvent exSetsEvent exEventEnvSharp exSchedulerSet).dispatched = true ∧
    (checkCurrentEvent exSetsEvent exEventEnvSharp exSchedulerSet).threw = false ∧
    (checkCurrentEvent exSetsEvent exEventEnvSharp exSchedulerSet).log.map (fun a => a.guild)
      = ["g1", "g3"] ∧
    (checkCurrentEvent exSetsEvent exEventEnvSharp exSchedulerSet).st.nextEventTs = some 1800 ∧
    (checkCurrentEvent exSetsEvent exEventEnvTick
      (checkCurrentEvent exSetsEvent exEventEnvSharp exSchedulerSet).st).dispatched = true ∧
    (checkCurrentEvent exSetsEvent exEventEnvTick
      (checkCurrentEvent exSetsEvent exEventEnvSharp exSchedulerSet).st).log.map
        (fun a => (a.guild, a.embed.description))
      = [("g1", "**Starts:** <t:5400:R>"), ("g3", "**Starts:** <t:5400:R>")] ∧
    (checkCurrentEvent exSetsEvent exEventEnvTick
      (checkCurrentEvent exSetsEvent exEventEnvSharp exSchedulerSet).st).st.nextEventTs
      = some 5400 := by
  decide

/-- C28, amended: the occurrence after a dispatch, local time being at a fixed offset of
whole minutes from UTC. In a call of `checkCurrentEvent` that dispatches an event whose
minute is from 0 to 59 and that reads the clock for the recomputation not before it read
it at its entry: when no call of `send` raises, the recomputed `nextEventTs` is not
before the one that fired, and it is strictly after it when the recomputation reads the
clock strictly after the instant of the fired occurrence; when a call of `send` raises,
`nextEventTs` is not recomputed. -/
theorem C28_occurrence_after_dispatch (sets : Settings) (env : EventEnv) (s : Scheduler)
    (next : Int) (curr : CurrentEvent)
    (hset : s.nextEventTs = some next) (hdue : next ≤ env.entryClock / 1000)
    (hev : env.current = some curr)
    (h0 : 0 ≤ curr.start.minute) (h59 : curr.start.minute ≤ 59)
    (hclock : env.entryClock ≤ env.computeClock) :
    (checkCurrentEvent sets env s).dispatched = true ∧
    ((checkCurrentEvent sets env s).threw = false →
      ∃ next', (checkCurrentEvent sets env s).st.nextEventTs = some next' ∧ next ≤ next' ∧
        (next * 1000 < env.computeClock → next < next')) ∧
    ((checkCurrentEvent sets env s).threw = true →
      (checkCurrentEvent sets env s).st.nextEventTs = some next) := by
  obtain ⟨hge, -, hsec, -⟩ :=
    nextOccurrence_inNextHour env.tz env.computeClock curr.start.minute h0 h59
  rw [checkCurrentEvent_due sets env s next curr hset hdue hev]
  cases eventDeliver env (eventAttemptFor env sets
      (createCurrentEventEmbed env.tz env.embedClock env.stampNow curr))
      sets.channelsData [] with
  | mk ok log =>
    cases ok with
    | true =>
      refine ⟨rfl, fun _ => ⟨_, rfl, ?_, fun hlate => ?_⟩, fun h => absurd h (by simp)⟩
      · omega
      · omega
    | false =>
      exact ⟨rfl, fun h => absurd h (by simp), fun _ => hset⟩

/-- Witness of C28 as amended: the call at 00:30:00.400 moves `nextEventTs` from 00:30:00
to 01:30:00, and the call in which the delivery to guild `g1` raises leaves it. -/
theorem C28_occurrence_after_dispatch_witness :
    (checkCurrentEvent exSetsEvent exEventEnvDue exSchedulerSet).dispatched = true ∧
    (checkCurrentEvent exSetsEvent exEventEnvDue exSchedulerSet).threw = false ∧
    (∃ next', (checkCurrentEvent exSetsEvent exEventEnvDue exSchedulerSet).st.nextEventTs
        = some next' ∧ (1800 : Int) ≤ next' ∧
      ((1800 : Int) * 1000 < exEventEnvDue.computeClock → 1800 < next')) ∧
    (checkCurrentEvent exSetsEvent exEventEnvDue exSchedulerSet).st.nextEventTs = some 5400 ∧
    (checkCurrentEvent exSetsEvent exEventEnvFail exSchedulerSet).threw = true ∧
    (checkCurrentEvent exSetsEvent exEventEnvFail exSchedulerSet).st.nextEventTs = some 1800 :=
  have h := C28_occurrence_after_dispatch exSetsEvent exEventEnvDue exSchedulerSet 1800
    exEvent rfl (by decide) rfl (by decide) (by decide) (by decide)
  have hf := C28_occurrence_after_dispatch exSetsEvent exEventEnvFail exSchedulerSet 1800
    exEvent rfl (by decide) rfl (by decide) (by decide) (by decide)
  ⟨h.1, by decide, h.2.1 (by decide), by decide, by decide, hf.2.2 (by decide)⟩

/-! ## C30: the permission of the commands -/

theorem setChannel_lookup (channelsData : List (String × (String → Option String)))
    (gid field ch : String) :
    ∃ chs, (gid, chs) ∈ setChannel channelsData gid field ch ∧ chs field = some ch := by
  unfold setChannel
  by_cases h : (channelsData.any fun e => e.1 = gid) = true
  · rw [if_pos h]
    obtain ⟨e, he, hg⟩ := List.any_eq_true.1 h
    have hg : e.1 = gid := by simpa using hg
    refine ⟨fun k => if k = field then some ch else e.2 k, ?_, by simp⟩
    rw [List.mem_map]
    exact ⟨e, he, by simp [hg]⟩
  · rw [if_neg h]
    exact ⟨fun k => if k = field then some ch else none, by simp, by simp⟩

/-- C30, evaluated where the code departs from it: a member of guild `g2` without the
Administrator permission runs `/setseed` in channel `c9`; the seed channel of the guild,
absent before, is `c9` afterwards, and the handler runs a main cycle, which sends the
seed notification of guild `g2` through the stored webhook. -/
theorem C30_channel_setup_without_permission :
    exMember.administrator = false ∧
    exSets.channelsData.map (fun e => (e.1, e.2 "seed_channel_id"))
      = [("g1", some "c1"), ("g2", none), ("g3", some "c3")] ∧
    (interactionHandler exCfg exRoleWork exEnv exFetch exSets exState exMember).sets.channelsData.map
        (fun e => (e.1, e.2 "seed_channel_id"))
      = [("g1", some "c1"), ("g2", some "c9"), ("g3", some "c3")] ∧
    (interactionHandler exCfg exRoleWork exEnv exFetch exSets exState exMember).cycle.map
        (fun r => (r.fetched, r.log.map (fun a => (a.guild, a.path))))
      = some (true, [("g1", Path.channel "c1"), ("g2", Path.webhook ⟨"h2", "t2"⟩),
          ("g3", Path.channel "c3")]) := by
  decide

/-- The commands that test the Administrator permission. When the member
lacks the permission, every registered command other than the nine channel commands
leaves the destination tables as they are and runs no main cycle, and the commands
`/setup-roles`, `/setup-webhook`, `/edit-webhook`, `/set-bot-name`, `/ping-role`,
`/list-items` and `/remove-roles` are answered `Admin only.` in a guild. The channel
commands `/setseed`, `/setgear`, `/setcosmetic`, `/seteventstock`, `/setegg`, `/setweather`,
`/setmerchant`, `/setannounce` and `/setcurrentevent` make no test of the permission: in a
guild they put the channel of the interaction in their field of the guild and run a main
cycle on the new tables. -/
theorem interactionHandler_permission (cfg : Config) (api : RoleWork) (env : Env) (f : Fetched)
    (sets : Settings) (s : State) (i : Interaction) (_hregistered : i.commandName ∈ registeredCommands)
    (hmember : i.administrator = false) :
    (channelSetupCommands i.commandName = none →
      (interactionHandler cfg api env f sets s i).sets = sets ∧
      (interactionHandler cfg api env f sets s i).cycle = none) ∧
    (i.commandName ∈ administratorCommands → i.guild ≠ none →
      (interactionHandler cfg api env f sets s i).reply = some "🚫 Admin only.") ∧
    (∀ gid field, i.guild = some gid → channelSetupCommands i.commandName = some field →
      (interactionHandler cfg api env f sets s i).sets.channelsData
        = setChannel sets.channelsData gid field i.channel ∧
      (∃ chs, (gid, chs) ∈ (interactionHandler cfg api env f sets s i).sets.channelsData ∧
        chs field = some i.channel) ∧
      (interactionHandler cfg api env f sets s i).cycle
        = some (checkAll cfg (interactionHandler cfg api env f sets s i).sets env f s)) := by
  refine ⟨fun hnone => ?_, fun hcmd hguild => ?_, fun gid field hgid hfield => ?_⟩
  · unfold interactionHandler
    cases i.guild with
    | none => exact ⟨rfl, rfl⟩
    | some gid =>
      simp only [hnone, hmember, adminOnly, Bool.not_false, if_true]
      split_ifs <;> exact ⟨rfl, rfl⟩
  · unfold interactionHandler
    cases hg : i.guild with
    | none => exact absurd hg hguild
    | some gid =>
      simp only [administratorCommands, List.mem_cons, List.mem_singleton, List.not_mem_nil,
        or_false] at hcmd
      rcases hcmd with h | h | h | h | h | h | h <;>
        simp [h, hmember, adminOnly, channelSetupCommands]
  · have hne : i.commandName ≠ "setup-roles" ∧ i.commandName ≠ "guilds" ∧
        i.commandName ≠ "calculate" ∧ i.commandName ≠ "setup-webhook" := by
      refine ⟨?_, ?_, ?_, ?_⟩ <;>
      · intro h
        rw [h] at hfield
        simp [channelSetupCommands] at hfield
    have hr : interactionHandler cfg api env f sets s i
        = { sets := { sets with
                        channelsData := setChannel sets.channelsData gid field i.channel }
            cycle := some (checkAll cfg { sets with
                        channelsData := setChannel sets.channelsData gid field i.channel } env f s)
            reply := some ("✅ Channel set to <#" ++ i.channel ++ ">") } := by
      unfold interactionHandler
      simp only [hgid, hne.1, hne.2.1, hne.2.2.1, hne.2.2.2, hfield, if_false]
    rw [hr]
    exact ⟨rfl, setChannel_lookup sets.channelsData gid field i.channel, rfl⟩

/-- Example of the permission test: the member without the permission is refused `/set-bot-name`,
and the same member sets the seed channel of guild `g2`. -/
theorem interactionHandler_permission_example :
    exMemberName.administrator = false ∧
    (interactionHandler exCfg exRoleWork exEnv exFetch exSets exState exMemberName).reply
      = some "🚫 Admin only." ∧
    (interactionHandler exCfg exRoleWork exEnv exFetch exSets exState exMemberName).cycle.isNone
      = true ∧
    (interactionHandler exCfg exRoleWork exEnv exFetch exSets exState exMember).sets.channelsData
      = setChannel exSets.channelsData "g2" "seed_channel_id" "c9" :=
  have h := interactionHandler_permission exCfg exRoleWork exEnv exFetch exSets exState
    exMemberName (by decide) rfl
  have hc := interactionHandler_permission exCfg exRoleWork exEnv exFetch exSets exState
    exMember (by decide) rfl
  ⟨rfl, h.2.1 (by decide) (by decide), by rw [(h.1 (by decide)).2]; rfl,
    (hc.2.2 "g2" "seed_channel_id" rfl (by decide)).1⟩

end Waguri
